import Mathlib

/-!
# Ledger apply / revert engine of `splitter/bsv/method.go`

A shallow embedding of the functions of `src/splitter/bsv/method.go`: the ones
that mutate the derived ledger (`bsv_vout`, `bsv_vin`, `bsv_address`,
`bsv_mining`, `bsv_block`), the in-memory block data they work on, the decoder
`ParseBlock` and the batching of `updateTransactionVersion`.

Modelling conventions.

* A table is the list of its rows.  The surrogate key `id` of a row is its
  position in the list: `DELETE ... WHERE id IN (...)` removes exactly the rows
  selected by the sub-query and an insert appends rows at the end.  SQL gives a
  result set no order; the model lists result rows in table order.
* `int64` / `uint64` fields are `Int` / `Nat`, and a column holds a value of the
  Go type of its field, so reading it back with the `strconv.Parse*` of that
  type is the identity.  The arithmetic on amounts is Go's: `int64 x` is the
  result of an `int64` expression or conversion with exact value `x` (it wraps
  around modulo 2^64), `uint64 n` that of a `uint64` expression, and
  `parseInt64` is `strconv.ParseInt` reading the `uint64` column
  `bsv_vout.value`.  The arithmetic inside an SQL statement (`SUM`,
  `a.value + b.value`) is the database's and is exact.  Counters, positions,
  heights and timestamps are exact integers.
* A Go function that receives the transaction handle `tx` and returns `error`
  becomes a function from the store seen through `tx` to the store after the
  call, paired with the error (`none` is Go's `nil`).  The store seen through
  `tx` holds the uncommitted effects of the statements issued so far; committing
  and rolling back are the caller's, outside `method.go`.  The store itself
  never fails: `tx.QueryString`, `tx.Exec`, `tx.Get`, `tx.Delete`, `tx.Insert`
  always succeed in the model, so the `if err != nil { return err }` that
  follows each of these calls is never taken and the only error a modelled
  function produces is one it creates itself.
* SQL compares texts and numbers by exact equality, and a text spliced into a
  statement with `%s` contains no quote, so `WHERE address = '%s'` selects the
  rows with that address.
* A Go `map[string]int64` is an association list with its keys in first
  insertion order; Go iterates a map in an unspecified order, the model picks
  this one.
-/

set_option linter.dupNamespace false

namespace Bsv

/-- Row of `bsv_vout` / `model.VOut` (fields used by `method.go`). -/
structure VOut where
  TxID : String := ""
  Number : Int := 0
  Value : Nat := 0
  Address : String := ""
  BlockHeight : Int := 0
  Timestamp : Int := 0
  ScriptPublicKey : String := ""
  ScriptType : String := ""
  RequiredSignatures : Int := 0
  IsUsed : Int := 0
  IsCoinbase : Int := 0
deriving DecidableEq, Repr

/-- Row of `bsv_vin` / `model.VIn`. -/
structure VIn where
  TxID : String := ""
  Number : Int := 0
  TxIDOrigin : String := ""
  VOutNumberOrigin : Int := 0
  AddressOrigin : String := ""
  ValueOrigin : Int := 0
  Coinbase : String := ""
  ScriptSignature : String := ""
  Sequence : Int := 0
  BlockHeight : Int := 0
  Timestamp : Int := 0
deriving DecidableEq, Repr

/-- Record `model.Transaction`. -/
structure Transaction where
  TxID : String := ""
  Number : Int := 0
  Version : Int := 0
  Size : Int := 0
  LockTime : Int := 0
  Hash : String := ""
  VInCount : Nat := 0
  VOutCount : Nat := 0
  VOutValue : Nat := 0
  VInValue : Int := 0
  Fee : Int := 0
  BlockHeight : Int := 0
  Timestamp : Int := 0
deriving DecidableEq, Repr

/-- Row of `bsv_block` / `model.Block` (the floating point `Difficulty` is left out). -/
structure Block where
  Height : Int := 0
  Hash : String := ""
  PreviousHash : String := ""
  Timestamp : Int := 0
  MedianTimestamp : Int := 0
  Size : Int := 0
  Version : Int := 0
  Nonce : Int := 0
  Bits : String := ""
  MerkleRoot : String := ""
  ChainWork : String := ""
  TxCount : Int := 0
  PoolName : String := ""
deriving DecidableEq, Repr

/-- Row of `bsv_address` / `model.Address`. -/
structure Address where
  Address : String := ""
  Value : Int := 0
  BirthTimestamp : Int := 0
  LatestTxTimestamp : Int := 0
deriving DecidableEq, Repr

/-- Row of `bsv_mining` / `model.Mining`. -/
structure Mining where
  Address : String := ""
  PoolName : String := ""
  CoinbaseTimes : Int := 0
deriving DecidableEq, Repr

/-- The in-memory block `BSVBlockData`. -/
structure BSVBlockData where
  Block : Block := {}
  Transactions : List Transaction := []
  VIns : List VIn := []
  VOuts : List VOut := []
deriving DecidableEq, Repr

/-- The five relations seen through the transaction handle `tx`. -/
structure Store where
  vout : List VOut := []
  vin : List VIn := []
  address : List Address := []
  mining : List Mining := []
  block : List Block := []
deriving DecidableEq, Repr

/-- Go's `error` result: `none` is `nil`. -/
abbrev Err := Option String

/-! ## Machine integers -/

/-- Go's signed 64-bit integers: the value of an expression of type `int64`, and of a conversion
`int64(x)`, whose exact value is `x`: the representative of `x` modulo 2^64 between -2^63 and
2^63 - 1 (2^63 = 9223372036854775808, 2^64 = 18446744073709551616). -/
def int64 (x : Int) : Int :=
  (x + 9223372036854775808) % 18446744073709551616 - 9223372036854775808

/-- Go's unsigned 64-bit integers: the value of an expression of type `uint64` whose exact value
is `n`, the remainder modulo 2^64. -/
def uint64 (n : Nat) : Nat := n % 18446744073709551616

/-- Value of `strconv.ParseInt(text, 10, 64)` with its error dropped, on the decimal text of
`x`: `x` itself when it is an `int64` and the nearest `int64` otherwise. -/
def parseInt64 (x : Int) : Int :=
  if x < -9223372036854775808 then -9223372036854775808
  else if 9223372036854775807 < x then 9223372036854775807
  else x

/-! ## Query fragments shared by the statements of `method.go` -/

/-- Join condition `a.tx_id = b.tx_id_origin AND a.number = b.vout_num_origin`
between an input `b` and an output `a`. -/
def spends (b : VIn) (a : VOut) : Bool :=
  a.TxID == b.TxIDOrigin && a.Number == b.VOutNumberOrigin

/-- Rows of `bsv_vin WHERE block_height = height`. -/
def vinsAt (s : Store) (height : Int) : List VIn :=
  s.vin.filter (fun b => b.BlockHeight == height)

/-- Rows of `bsv_vout WHERE block_height = height`. -/
def voutsAt (s : Store) (height : Int) : List VOut :=
  s.vout.filter (fun a => a.BlockHeight == height)

/-- Whether the output row `a` is selected by the sub-query
`select a.id from bsv_vout as a inner join (... bsv_vin where block_height = height) as b on ...`. -/
def isSpentAt (s : Store) (height : Int) (a : VOut) : Bool :=
  (vinsAt s height).any (fun b => spends b a)

/-- Result of `select a.* from bsv_vout as a inner join (select tx_id_origin, vout_num_origin
from bsv_vin where block_height = height) as b on ...`: one row per matching pair. -/
def spentJoin (s : Store) (height : Int) : List VOut :=
  s.vout.flatMap (fun a => ((vinsAt s height).filter (fun b => spends b a)).map (fun _ => a))

/-- Body of the first loop of `updateVOutIsUsed`: the row copied into a new `model.VOut`
with `IsUsed = 1`. -/
def newVOut (v : VOut) : VOut :=
  { TxID := v.TxID
    BlockHeight := v.BlockHeight
    Value := v.Value
    Address := v.Address
    Timestamp := v.Timestamp
    ScriptPublicKey := v.ScriptPublicKey
    ScriptType := v.ScriptType
    RequiredSignatures := v.RequiredSignatures
    Number := v.Number
    IsUsed := 1
    IsCoinbase := v.IsCoinbase }

/-- Model of `updateVOutIsUsed`: select the joined rows, delete the selected rows, insert the
copies. -/
def updateVOutIsUsed (height : Int) (s : Store) : Store × Err :=
  let vOut := (spentJoin s height).map newVOut
  let kept := s.vout.filter (fun a => !isSpentAt s height a)
  ({ s with vout := kept ++ vOut }, none)

/-! ## Go maps -/

/-- Read `m[k]` of a `map[string]int64`: the zero value when the key is absent. -/
def mapGet : List (String × Int) → String → Int
  | [], _ => 0
  | (k', v) :: m, k => if k' = k then v else mapGet m k

/-- Statement `m[k] += x` on a `map[string]int64`: the sum is an `int64`. -/
def mapAdd64 : List (String × Int) → String → Int → List (String × Int)
  | [], k, x => [(k, int64 (0 + x))]
  | (k', v) :: m, k, x =>
    if k' = k then (k', int64 (v + x)) :: m else (k', v) :: mapAdd64 m k x

/-- The amount `x` added to the entry of `k` in exact integers: a row taken into the groups of
an SQL `SELECT k, SUM(x) ... GROUP BY k`. -/
def mapAdd : List (String × Int) → String → Int → List (String × Int)
  | [], k, x => [(k, 0 + x)]
  | (k', v) :: m, k, x => if k' = k then (k', v + x) :: m else (k', v) :: mapAdd m k x

/-! ## `updateAddressTable` -/

/-- Values of `SELECT address FROM bsv_vout WHERE block_height = h UNION SELECT address_origin
FROM bsv_vin WHERE block_height = h`. -/
def touchedAddresses (s : Store) (height : Int) : List String :=
  (voutsAt s height).map (fun v => v.Address) ++ (vinsAt s height).map (fun v => v.AddressOrigin)

/-- The map `addressValueMap` after the two loops over `data.VOuts` and `data.VIns`:
`addressValueMap[v.Address] += int64(v.Value)`, then
`addressValueMap[v.AddressOrigin] -= int64(v.ValueOrigin)`. -/
def addressValueMap (data : BSVBlockData) : List (String × Int) :=
  data.VIns.foldl (fun m v => mapAdd64 m v.AddressOrigin (-(int64 v.ValueOrigin)))
    (data.VOuts.foldl (fun m v => mapAdd64 m v.Address (int64 (v.Value : Int))) [])

/-- Rows of `SELECT * FROM bsv_address where address in (...)`. -/
def touchedRows (s : Store) (height : Int) : List Address :=
  s.address.filter (fun r => (touchedAddresses s height).contains r.Address)

/-- The slice `addressList` built by `updateAddressTable` before its `DELETE`; the statement
`addressInfo.Value += addressValueMap[addressInfo.Address]` is an `int64` sum. -/
def addressList (data : BSVBlockData) (s : Store) : List Address :=
  let m := addressValueMap data
  let result := touchedRows s data.Block.Height
  let existing := result.map (fun r =>
    { Address := r.Address
      BirthTimestamp := r.BirthTimestamp
      LatestTxTimestamp := data.Block.Timestamp
      Value := int64 (r.Value + mapGet m r.Address) : Address })
  -- the keys of the map `addressHas`
  let addressHas := result.map (fun r => r.Address)
  let created := (m.filter (fun kv => !addressHas.contains kv.1)).map (fun kv =>
    { Address := kv.1
      BirthTimestamp := data.Block.Timestamp
      LatestTxTimestamp := data.Block.Timestamp
      Value := kv.2 : Address })
  existing ++ created

/-- Rows left by `DELETE FROM bsv_address where address in (...)`. -/
def untouchedRows (s : Store) (height : Int) : List Address :=
  s.address.filter (fun r => !(touchedAddresses s height).contains r.Address)

/-- Model of `updateAddressTable`.  The `DELETE` is issued before the `Value < 0` check, so the
store returned with the error is the one without the touched records. -/
def updateAddressTable (data : BSVBlockData) (s : Store) : Store × Err :=
  let height := data.Block.Height
  let list := addressList data s
  let s1 := { s with address := untouchedRows s height }
  if list.any (fun v => decide (v.Value < 0)) then (s1, some "Value < 0 ")
  else ({ s1 with address := s1.address ++ list }, none)

/-! ## Miner counts -/

/-- Values of `SELECT address FROM bsv_vout WHERE block_height = height AND is_coinbase = 1`. -/
def coinbaseAddresses (s : Store) (height : Int) : List String :=
  (s.vout.filter (fun v => v.BlockHeight == height && v.IsCoinbase == 1)).map (fun v => v.Address)

/-- Modelled from the spec: `tx.Get(miner)` of the missing `service.Transaction`, the store
operation `get_miner(address) -> Miner?` looking a miner record up by its address. -/
def getMiner (ms : List Mining) (address : String) : Option Mining :=
  ms.find? (fun r => r.Address == address)

/-- One iteration of the loop of `updateCoinbaseAddressCount` on the `bsv_mining` rows. -/
def countCoinbase (ms : List Mining) (address : String) : List Mining :=
  if address = "" then ms
  else
    match getMiner ms address with
    | some found =>
      ms.filter (fun r => !(r.Address == address))
        ++ [{ found with CoinbaseTimes := found.CoinbaseTimes + 1 }]
    | none => ms ++ [{ Address := address, CoinbaseTimes := 0 + 1 }]

/-- Model of `updateCoinbaseAddressCount`. -/
def updateCoinbaseAddressCount (height : Int) (s : Store) : Store × Err :=
  ({ s with mining := (coinbaseAddresses s height).foldl countCoinbase s.mining }, none)

/-- Model of `UpdateBlock`: each step's error is returned as it is, with the store as the
earlier statements left it; `UpdateBlock` issues no rollback. -/
def UpdateBlock (data : BSVBlockData) (s : Store) : Store × Err :=
  let height := data.Block.Height
  match updateVOutIsUsed height s with
  | (s1, some err) => (s1, some err)
  | (s1, none) =>
    match updateAddressTable data s1 with
    | (s2, some err) => (s2, some err)
    | (s2, none) => updateCoinbaseAddressCount height s2

/-! ## Revert -/

/-- Model of `revertSelectVInValueAndAddress`: `UPDATE bsv_vout SET is_used = 0` on the rows
joined with an input of the height. -/
def revertSelectVInValueAndAddress (height : Int) (s : Store) : Store × Err :=
  ({ s with vout := s.vout.map (fun a =>
      if isSpentAt s height a then { a with IsUsed := 0 } else a) }, none)

/-- Result of `SELECT k, SUM(v) ... GROUP BY k` over the listed `(k, v)` pairs. -/
def groupSum (rows : List (String × Int)) : List (String × Int) :=
  rows.foldl (fun m kv => mapAdd m kv.1 kv.2) []

/-- Result rows `(address, value)` of `select a.address, a.value + b.value FROM bsv_address a
JOIN (...) b ON a.address = b.address` (with `sign = 1`) or `a.value - b.value` (`sign = -1`). -/
def joinAddress (table : List Address) (groups : List (String × Int)) (sign : Int) :
    List (String × Int) :=
  table.flatMap (fun a =>
    (groups.filter (fun g => a.Address == g.1)).map (fun g => (a.Address, a.Value + sign * g.2)))

/-- Statement `update bsv_address set value = v where address = k`. -/
def setAddressValue (table : List Address) (kv : String × Int) : List Address :=
  table.map (fun r => if r.Address == kv.1 then { r with Value := kv.2 } else r)

/-- Model of `revertAddressTable`.  The scalar sub-query `(SELECT timestamp FROM bsv_block WHERE
height = h)` is `NULL` without a block row (nothing is deleted) and fails the statement with
more than one row. -/
def revertAddressTable (height : Int) (s : Store) : Store × Err :=
  match (s.block.filter (fun b => b.Height == height)).map (fun b => b.Timestamp) with
  | _ :: _ :: _ => (s, some "Subquery returned more than 1 value")
  | stamps =>
    let t0 := s.address.filter (fun r => !stamps.contains r.BirthTimestamp)
    let result1 := joinAddress t0
      (groupSum ((vinsAt s height).map (fun v => (v.AddressOrigin, v.ValueOrigin)))) 1
    let t1 := result1.foldl setAddressValue t0
    let result2 := joinAddress t1
      (groupSum ((voutsAt s height).map (fun v => (v.Address, (v.Value : Int))))) (-1)
    let t2 := result2.foldl setAddressValue t1
    ({ s with address := t2 }, none)

/-- Statement `UPDATE bsv_mining SET coinbase_times = coinbase_times - 1 WHERE address = a`. -/
def uncountCoinbase (ms : List Mining) (address : String) : List Mining :=
  ms.map (fun r => if r.Address == address then { r with CoinbaseTimes := r.CoinbaseTimes - 1 }
    else r)

/-- Model of `revertCoinbaseAddressCount`. -/
def revertCoinbaseAddressCount (height : Int) (s : Store) : Store × Err :=
  ({ s with mining := (coinbaseAddresses s height).foldl uncountCoinbase s.mining }, none)

/-- Model of `revertBlock`. -/
def revertBlock (height : Int) (s : Store) : Store × Err :=
  match revertSelectVInValueAndAddress height s with
  | (s1, some err) => (s1, some err)
  | (s1, none) =>
    match revertAddressTable height s1 with
    | (s2, some err) => (s2, some err)
    | (s2, none) => revertCoinbaseAddressCount height s2

/-! ## Spend resolution and pool attribution -/

/-- Rows `(address, value)` of `select address, value from bsv_vout where tx_id = t and
number = n`, the value as `strconv.ParseInt(value["value"], 10, 64)` reads it. -/
def originRows (s : Store) (v : VIn) : List (String × Int) :=
  (s.vout.filter (fun a => a.TxID == v.TxIDOrigin && a.Number == v.VOutNumberOrigin)).map
    (fun a => (a.Address, parseInt64 (a.Value : Int)))

/-- Inner loop of `updateVInAddressAndValue` for one result row; `valueMap` is a
`map[string]int64`. -/
def resolveRow (st : VIn × List (String × Int)) (row : String × Int) :
    VIn × List (String × Int) :=
  let v := { st.1 with AddressOrigin := row.1, ValueOrigin := row.2 }
  (v, mapAdd64 st.2 v.TxID v.ValueOrigin)

/-- Outer loop body of `updateVInAddressAndValue`: the inputs resolved so far (in order) and
`valueMap`. -/
def resolveVIn (s : Store) (st : List VIn × List (String × Int)) (v : VIn) :
    List VIn × List (String × Int) :=
  let r := (originRows s v).foldl resolveRow (v, st.2)
  (st.1 ++ [r.1], r.2)

/-- Second loop body of `updateVInAddressAndValue`: `Fee = VInValue - int64(VOutValue)`, an
`int64` difference. -/
def setFee (valueMap : List (String × Int)) (t : Transaction) : Transaction :=
  if t.Number != 0 then
    { t with VInValue := mapGet valueMap t.TxID
             Fee := int64 (mapGet valueMap t.TxID - int64 (t.VOutValue : Int)) }
  else t

/-- Model of `updateVInAddressAndValue`; it changes `data`, not the store. -/
def updateVInAddressAndValue (s : Store) (data : BSVBlockData) : BSVBlockData × Err :=
  let r := data.VIns.foldl (resolveVIn s) ([], [])
  ({ data with VIns := r.1, Transactions := data.Transactions.map (setFee r.2) }, none)

/-- Model of `GetBlockMiner`; it changes `data.Block.PoolName`, not the store.  With no record
found `tx.Get` leaves `miner.PoolName` at its zero value. -/
def GetBlockMiner (data : BSVBlockData) (s : Store) : BSVBlockData × Err :=
  match data.VOuts with
  | [] => ({ data with Block := { data.Block with PoolName := "UNKNOW" } }, none)
  | first :: _ =>
    let miner : Mining :=
      match getMiner s.mining first.Address with
      | some found => found
      | none => { Address := first.Address }
    ({ data with Block := { data.Block with PoolName := miner.PoolName } }, none)

/-! ## Vocabulary of the statements, and the concrete stores and blocks of the closed ones -/

/-- A store in which the output `("t0", 0)` is already marked spent and an input of height 2
refers to it again. -/
def doubleSpendStore : Store :=
  { vout := [{ TxID := "t0", Number := 0, Value := 50, Address := "A", BlockHeight := 1,
               IsUsed := 1 }]
    vin := [{ TxID := "t2", TxIDOrigin := "t0", VOutNumberOrigin := 0, AddressOrigin := "A",
              ValueOrigin := 50, BlockHeight := 2 }]
    address := [{ Address := "A", Value := 50 }] }

/-- The block of height 2 whose only input is the one stored in `doubleSpendStore`. -/
def doubleSpendBlock : BSVBlockData :=
  { Block := { Height := 2, Timestamp := 20 }
    VIns := [{ TxID := "t2", TxIDOrigin := "t0", VOutNumberOrigin := 0, AddressOrigin := "A",
               ValueOrigin := 50, BlockHeight := 2 }] }

/-- A store that holds no output at all. -/
def emptyStore : Store := {}

/-- A decoded block of height 2 whose second transaction has one non-coinbase input with origin
`("zz", 3)`. -/
def danglingBlock : BSVBlockData :=
  { Block := { Height := 2, Timestamp := 20, TxCount := 2 }
    Transactions := [{ TxID := "t1", Number := 0, VInCount := 1, VOutCount := 1, VOutValue := 50,
                       BlockHeight := 2, Timestamp := 20 },
                     { TxID := "t2", Number := 1, VInCount := 1, VOutCount := 1, VOutValue := 7,
                       BlockHeight := 2, Timestamp := 20 }]
    VIns := [{ TxID := "t1", Coinbase := "04ffff", BlockHeight := 2, Timestamp := 20 },
             { TxID := "t2", TxIDOrigin := "zz", VOutNumberOrigin := 3, BlockHeight := 2,
               Timestamp := 20 }]
    VOuts := [{ TxID := "t1", Value := 50, Address := "A", BlockHeight := 2, Timestamp := 20,
                IsCoinbase := 1 },
              { TxID := "t2", Value := 7, Address := "B", BlockHeight := 2, Timestamp := 20 }] }

/-- What the two loops of `updateVInAddressAndValue` leave in one input: the address and value
of the last row found for its origin, or the input as it was when no row is found. -/
def resolvedVIn (s : Store) (v : VIn) : VIn :=
  (originRows s v).foldl
    (fun w row => { w with AddressOrigin := row.1, ValueOrigin := row.2 }) v

/-- A block whose first output has no address. -/
def noAddressBlock : BSVBlockData :=
  { Block := { Height := 2, Timestamp := 20 }
    VOuts := [{ TxID := "t1", Value := 50, Address := "", BlockHeight := 2, Timestamp := 20,
                IsCoinbase := 1 }] }

/-- A store with one miner record. -/
def oneMinerStore : Store :=
  { mining := [{ Address := "A", PoolName := "pool-a", CoinbaseTimes := 4 }] }

/-- A block whose first output pays the miner of `oneMinerStore`. -/
def minedBlock : BSVBlockData :=
  { Block := { Height := 2, Timestamp := 20 }
    VOuts := [{ TxID := "t1", Value := 50, Address := "A", BlockHeight := 2, Timestamp := 20,
                IsCoinbase := 1 }] }

/-- The record `tx.Get(getMiner)` leaves in `getMiner` for an address: the stored one, or the
zero record carrying only the address. -/
def minerOf (ms : List Mining) (address : String) : Mining :=
  match getMiner ms address with
  | some found => found
  | none => { Address := address }

/-- Cumulative coinbase-block count recorded for an address (0 without a record). -/
def coinbaseTimes (ms : List Mining) (address : String) : Int :=
  (minerOf ms address).CoinbaseTimes

/-- Pool name recorded for an address (empty without a record). -/
def poolName (ms : List Mining) (address : String) : String :=
  (minerOf ms address).PoolName

/-- The coinbase output addresses of a height that the loop of `updateCoinbaseAddressCount`
does not skip, one entry per coinbase output row. -/
def countedAddresses (s : Store) (height : Int) : List String :=
  (coinbaseAddresses s height).filter (fun a => a != "")

/-- A store whose block of height 2 has a coinbase transaction with two outputs, paying "A"
first and "B" second; "B" already has a miner record. -/
def twoPayoutStore : Store :=
  { vout := [{ TxID := "t1", Number := 0, Value := 30, Address := "A", BlockHeight := 2,
               Timestamp := 20, IsCoinbase := 1 },
             { TxID := "t1", Number := 1, Value := 20, Address := "B", BlockHeight := 2,
               Timestamp := 20, IsCoinbase := 1 }]
    mining := [{ Address := "B", PoolName := "pool-b", CoinbaseTimes := 5 }]
    block := [{ Height := 2, Timestamp := 20 }] }

/-- A store in which two inputs of height 2 both refer to the output `("t0", 0)`. -/
def sharedOriginStore : Store :=
  { vout := [{ TxID := "t0", Number := 0, Value := 50, Address := "A", BlockHeight := 1,
               Timestamp := 10 }]
    vin := [{ TxID := "t2", Number := 0, TxIDOrigin := "t0", VOutNumberOrigin := 0,
              AddressOrigin := "A", ValueOrigin := 50, BlockHeight := 2, Timestamp := 20 },
            { TxID := "t3", Number := 0, TxIDOrigin := "t0", VOutNumberOrigin := 0,
              AddressOrigin := "A", ValueOrigin := 50, BlockHeight := 2, Timestamp := 20 }] }

/-- A store in which one input of height 2 refers to the output `("t0", 0)` and none to
`("t0", 1)`. -/
def singleSpendStore : Store :=
  { vout := [{ TxID := "t0", Number := 0, Value := 50, Address := "A", BlockHeight := 1,
               Timestamp := 10 },
             { TxID := "t0", Number := 1, Value := 9, Address := "C", BlockHeight := 1,
               Timestamp := 10 }]
    vin := [{ TxID := "t2", Number := 0, TxIDOrigin := "t0", VOutNumberOrigin := 0,
              AddressOrigin := "A", ValueOrigin := 50, BlockHeight := 2, Timestamp := 20 }] }

/-- A store whose address "A" holds 10 while the input stored for height 2 debits 50 from it. -/
def overdrawnStore : Store :=
  { vout := [{ TxID := "t0", Number := 0, Value := 50, Address := "A", BlockHeight := 1,
               Timestamp := 10 },
             { TxID := "t2", Number := 0, Value := 50, Address := "B", BlockHeight := 2,
               Timestamp := 20 }]
    vin := [{ TxID := "t2", Number := 0, TxIDOrigin := "t0", VOutNumberOrigin := 0,
              AddressOrigin := "A", ValueOrigin := 50, BlockHeight := 2, Timestamp := 20 }]
    address := [{ Address := "A", Value := 10, BirthTimestamp := 10, LatestTxTimestamp := 10 }]
    mining := [{ Address := "A", PoolName := "pool-a", CoinbaseTimes := 1 }]
    block := [{ Height := 1, Timestamp := 10 }, { Height := 2, Timestamp := 20 }] }

/-- The block of height 2 stored in `overdrawnStore`. -/
def overdrawnBlock : BSVBlockData :=
  { Block := { Height := 2, Timestamp := 20, TxCount := 1 }
    Transactions := [{ TxID := "t2", Number := 0, VInCount := 1, VOutCount := 1, VOutValue := 50,
                       VInValue := 50, BlockHeight := 2, Timestamp := 20 }]
    VIns := [{ TxID := "t2", Number := 0, TxIDOrigin := "t0", VOutNumberOrigin := 0,
               AddressOrigin := "A", ValueOrigin := 50, BlockHeight := 2, Timestamp := 20 }]
    VOuts := [{ TxID := "t2", Number := 0, Value := 50, Address := "B", BlockHeight := 2,
                Timestamp := 20 }] }

/-- The fields `ParseBlock` never assigns have Go's zero value: this is what "decoded" means for
the inputs and transactions handed to `updateVInAddressAndValue`. -/
def Decoded (data : BSVBlockData) : Prop :=
  (∀ v ∈ data.VIns, v.AddressOrigin = "" ∧ v.ValueOrigin = 0) ∧
  (∀ t ∈ data.Transactions, t.VInValue = 0 ∧ t.Fee = 0)

/-- Every origin reference of the block matches at most one output row of the store (an
output's transaction-id and index are its identity). -/
def OriginsUnique (s : Store) (data : BSVBlockData) : Prop :=
  ∀ v ∈ data.VIns, (originRows s v).length ≤ 1

/-- Sum of the origin values of the inputs that carry a transaction id. -/
def inputValue (vins : List VIn) (txid : String) : Int :=
  ((vins.filter (fun v => v.TxID == txid)).map (fun v => v.ValueOrigin)).sum

/-- A store holding the two outputs spent by `feeBlock`. -/
def feeStore : Store :=
  { vout := [{ TxID := "t0", Number := 0, Value := 50, Address := "A", BlockHeight := 1,
               Timestamp := 10, IsCoinbase := 1 },
             { TxID := "t0", Number := 1, Value := 30, Address := "C", BlockHeight := 1,
               Timestamp := 10, IsCoinbase := 1 }] }

/-- A decoded block of height 2: a coinbase transaction and one transaction that spends 50 + 30
and pays 75. -/
def feeBlock : BSVBlockData :=
  { Block := { Height := 2, Timestamp := 20, TxCount := 2 }
    Transactions := [{ TxID := "t1", Number := 0, VInCount := 1, VOutCount := 1, VOutValue := 55,
                       BlockHeight := 2, Timestamp := 20 },
                     { TxID := "t2", Number := 1, VInCount := 2, VOutCount := 1, VOutValue := 75,
                       BlockHeight := 2, Timestamp := 20 }]
    VIns := [{ TxID := "t1", Number := 0, Coinbase := "04ffff", BlockHeight := 2,
               Timestamp := 20 },
             { TxID := "t2", Number := 0, TxIDOrigin := "t0", VOutNumberOrigin := 0,
               BlockHeight := 2, Timestamp := 20 },
             { TxID := "t2", Number := 1, TxIDOrigin := "t0", VOutNumberOrigin := 1,
               BlockHeight := 2, Timestamp := 20 }]
    VOuts := [{ TxID := "t1", Number := 0, Value := 55, Address := "M", BlockHeight := 2,
                Timestamp := 20, IsCoinbase := 1 },
              { TxID := "t2", Number := 0, Value := 75, Address := "B", BlockHeight := 2,
                Timestamp := 20 }] }

/-- An exact integer that an `int64` holds: it lies between -2^63 and 2^63 - 1. -/
abbrev InInt64 (x : Int) : Prop :=
  -9223372036854775808 ≤ x ∧ x ≤ 9223372036854775807

/-- Modelled from the spec: the store operation `get_address(address) -> Address?`, the record
kept for an address. -/
def getAddress (rows : List Address) (address : String) : Option Address :=
  rows.find? (fun r => r.Address == address)

/-- Balance recorded for an address, 0 when it has no record. -/
def balance (rows : List Address) (address : String) : Int :=
  match getAddress rows address with
  | some r => r.Value
  | none => 0

/-- Sum of the values of the listed outputs paid to an address. -/
def credit (vouts : List VOut) (address : String) : Int :=
  ((vouts.filter (fun v => v.Address == address)).map (fun v => (v.Value : Int))).sum

/-- Sum of the origin values of the listed inputs spent from an address. -/
def debit (vins : List VIn) (address : String) : Int :=
  ((vins.filter (fun v => v.AddressOrigin == address)).map (fun v => v.ValueOrigin)).sum

/-- The addresses touched by a block: the address of each of its outputs and the origin address
of each of its inputs. -/
def blockAddresses (data : BSVBlockData) : List String :=
  data.VOuts.map (fun v => v.Address) ++ data.VIns.map (fun v => v.AddressOrigin)

/-- The rows stored for the block's height name the same addresses as the block data: the
block has been written to `bsv_vout` and `bsv_vin` before the ledger is updated. -/
def AddressesStored (s : Store) (data : BSVBlockData) : Prop :=
  touchedAddresses s data.Block.Height ⊆ blockAddresses data ∧
  blockAddresses data ⊆ touchedAddresses s data.Block.Height

/-- Addresses are a key of `bsv_address`. -/
def AddressKey (s : Store) : Prop :=
  (s.address.map (fun r => r.Address)).Nodup

/-- A store to which the block `ledgerBlock` of height 2 has been written: address "A" holds the
coinbase payout of height 1, which the block spends, paying 30 to "B" and 20 to "C" besides its
own coinbase payout of 50 to "B". -/
def ledgerStore : Store :=
  { vout := [{ TxID := "t0", Number := 0, Value := 50, Address := "A", BlockHeight := 1,
               Timestamp := 10, IsCoinbase := 1 },
             { TxID := "t1", Number := 0, Value := 50, Address := "B", BlockHeight := 2,
               Timestamp := 20, IsCoinbase := 1 },
             { TxID := "t2", Number := 0, Value := 30, Address := "B", BlockHeight := 2,
               Timestamp := 20 },
             { TxID := "t2", Number := 1, Value := 20, Address := "C", BlockHeight := 2,
               Timestamp := 20 }]
    vin := [{ TxID := "t2", Number := 0, TxIDOrigin := "t0", VOutNumberOrigin := 0,
              AddressOrigin := "A", ValueOrigin := 50, BlockHeight := 2, Timestamp := 20 }]
    address := [{ Address := "A", Value := 50, BirthTimestamp := 10, LatestTxTimestamp := 10 },
                { Address := "Z", Value := 7, BirthTimestamp := 5, LatestTxTimestamp := 5 }]
    mining := [{ Address := "A", PoolName := "pool-a", CoinbaseTimes := 1 }]
    block := [{ Height := 1, Timestamp := 10 }, { Height := 2, Timestamp := 20 }] }

/-- The block of height 2 written to `ledgerStore`, decoded and spend-resolved. -/
def ledgerBlock : BSVBlockData :=
  { Block := { Height := 2, Timestamp := 20, TxCount := 2 }
    Transactions := [{ TxID := "t1", Number := 0, VOutCount := 1, VOutValue := 50,
                       BlockHeight := 2, Timestamp := 20 },
                     { TxID := "t2", Number := 1, VInCount := 1, VOutCount := 2, VOutValue := 50,
                       VInValue := 50, BlockHeight := 2, Timestamp := 20 }]
    VIns := [{ TxID := "t2", Number := 0, TxIDOrigin := "t0", VOutNumberOrigin := 0,
               AddressOrigin := "A", ValueOrigin := 50, BlockHeight := 2, Timestamp := 20 }]
    VOuts := [{ TxID := "t1", Number := 0, Value := 50, Address := "B", BlockHeight := 2,
                Timestamp := 20, IsCoinbase := 1 },
              { TxID := "t2", Number := 0, Value := 30, Address := "B", BlockHeight := 2,
                Timestamp := 20 },
              { TxID := "t2", Number := 1, Value := 20, Address := "C", BlockHeight := 2,
                Timestamp := 20 }] }

/-- The record `updateAddressTable` writes for a touched address: the stored record with the
block's delta added and the latest-activity timestamp replaced, or a new record born at the
block's timestamp. -/
def appliedRecord (data : BSVBlockData) (s : Store) (address : String) : Address :=
  match getAddress s.address address with
  | some r =>
    { Address := r.Address
      BirthTimestamp := r.BirthTimestamp
      LatestTxTimestamp := data.Block.Timestamp
      Value := int64 (r.Value + mapGet (addressValueMap data) r.Address) }
  | none =>
    { Address := address
      BirthTimestamp := data.Block.Timestamp
      LatestTxTimestamp := data.Block.Timestamp
      Value := mapGet (addressValueMap data) address }

/-- Sum of the amounts listed for a key among `(key, amount)` pairs. -/
def sumFor (rows : List (String × Int)) (key : String) : Int :=
  ((rows.filter (fun kv => kv.1 == key)).map (fun kv => kv.2)).sum

/-- The block has been written to the store: the output rows and input rows stored for its
height carry the addresses and amounts of the block's outputs and inputs (row order apart), and
one block row is stored for its height, with the block's timestamp. -/
def RowsStored (s : Store) (data : BSVBlockData) : Prop :=
  List.Perm ((voutsAt s data.Block.Height).map (fun v => (v.Address, (v.Value : Int))))
    (data.VOuts.map (fun v => (v.Address, (v.Value : Int)))) ∧
  List.Perm ((vinsAt s data.Block.Height).map (fun v => (v.AddressOrigin, v.ValueOrigin)))
    (data.VIns.map (fun v => (v.AddressOrigin, v.ValueOrigin))) ∧
  (s.block.filter (fun b => b.Height == data.Block.Height)).map (fun b => b.Timestamp) =
    [data.Block.Timestamp]

/-- No input of the height refers to an output that is already marked spent, and no output is
referred to by two inputs of the height. -/
def SpendsFresh (s : Store) (height : Int) : Prop :=
  ∀ a ∈ s.vout, (isSpentAt s height a = true → a.IsUsed = 0) ∧
    ((vinsAt s height).filter (fun b => spends b a)).length ≤ 1

/-- The rows `revertAddressTable` leaves in `bsv_address` when `ts` is the timestamp of the
block row of the height: the records born at `ts` are gone, every other record has the origin
values of the height's inputs added back and the values of the height's outputs taken off. -/
def revertedRows (height ts : Int) (s : Store) : List Address :=
  (s.address.filter (fun r => !(r.BirthTimestamp == ts))).map (fun r =>
    { r with Value := r.Value + debit (vinsAt s height) r.Address
        - credit (voutsAt s height) r.Address })

/-- Values of the scalar sub-query `SELECT timestamp FROM bsv_block WHERE height = h`, one per
block row of the height. -/
def blockStamps (s : Store) (height : Int) : List Int :=
  (s.block.filter (fun b => b.Height == height)).map (fun b => b.Timestamp)

/-- The address records `revertAddressTable` does not delete: those not born at the timestamp
of a block row of the height. -/
def survivingRows (s : Store) (height : Int) : List Address :=
  s.address.filter (fun r => !(blockStamps s height).contains r.BirthTimestamp)

/-- A store in which address "Z" was born at timestamp 20 in the block of height 3, while the
block of height 2, which carries the same timestamp, only pays "B". -/
def sameStampStore : Store :=
  { vout := [{ TxID := "t2", Number := 0, Value := 50, Address := "B", BlockHeight := 2,
               Timestamp := 20, IsCoinbase := 1 },
             { TxID := "t3", Number := 0, Value := 50, Address := "Z", BlockHeight := 3,
               Timestamp := 20, IsCoinbase := 1 }]
    address := [{ Address := "B", Value := 50, BirthTimestamp := 20, LatestTxTimestamp := 20 },
                { Address := "Z", Value := 50, BirthTimestamp := 20, LatestTxTimestamp := 20 },
                { Address := "Y", Value := 4, BirthTimestamp := 10, LatestTxTimestamp := 10 }]
    block := [{ Height := 2, Timestamp := 20 }, { Height := 3, Timestamp := 20 }] }

/-- The store after `UpdateBlock ledgerBlock` has been applied to `ledgerStore`. -/
def appliedLedgerStore : Store := (UpdateBlock ledgerBlock ledgerStore).1

/-- A store with a miner record whose address is empty, in which the coinbase transaction of
height 2 has an output to "A" and an output without an address. -/
def emptyMinerStore : Store :=
  { vout := [{ TxID := "t1", Number := 0, Value := 50, Address := "A", BlockHeight := 2,
               Timestamp := 20, IsCoinbase := 1 },
             { TxID := "t1", Number := 1, Value := 0, Address := "", BlockHeight := 2,
               Timestamp := 20, IsCoinbase := 1 }]
    mining := [{ Address := "", PoolName := "", CoinbaseTimes := 3 },
               { Address := "A", PoolName := "pool-a", CoinbaseTimes := 1 }]
    block := [{ Height := 2, Timestamp := 20 }] }

/-- The store after the rows of a block have been written to it; the inserts are made by the
caller of `UpdateBlock`, outside `method.go`. -/
def withRows (s : Store) (data : BSVBlockData) : Store :=
  { s with vout := s.vout ++ data.VOuts, vin := s.vin ++ data.VIns,
           block := s.block ++ [data.Block] }

/-- Block of height 1: a coinbase transaction paying 50 to "A". -/
def chainBlock1 : BSVBlockData :=
  { Block := { Height := 1, Timestamp := 10, TxCount := 1 }
    Transactions := [{ TxID := "t0", Number := 0, VInCount := 1, VOutCount := 1, VOutValue := 50,
                       BlockHeight := 1, Timestamp := 10 }]
    VIns := [{ TxID := "t0", Number := 0, Coinbase := "04ffff", BlockHeight := 1,
               Timestamp := 10 }]
    VOuts := [{ TxID := "t0", Number := 0, Value := 50, Address := "A", BlockHeight := 1,
                Timestamp := 10, IsCoinbase := 1 }] }

/-- Block of height 2: a coinbase transaction paying 50 to "M" and a transaction spending the
output of height 1, 30 to "B" and 20 back to "A". -/
def chainBlock2 : BSVBlockData :=
  { Block := { Height := 2, Timestamp := 20, TxCount := 2 }
    Transactions := [{ TxID := "t1", Number := 0, VInCount := 1, VOutCount := 1, VOutValue := 50,
                       BlockHeight := 2, Timestamp := 20 },
                     { TxID := "t2", Number := 1, VInCount := 1, VOutCount := 2, VOutValue := 50,
                       VInValue := 50, BlockHeight := 2, Timestamp := 20 }]
    VIns := [{ TxID := "t1", Number := 0, Coinbase := "04ffff", BlockHeight := 2,
               Timestamp := 20 },
             { TxID := "t2", Number := 0, TxIDOrigin := "t0", VOutNumberOrigin := 0,
               AddressOrigin := "A", ValueOrigin := 50, BlockHeight := 2, Timestamp := 20 }]
    VOuts := [{ TxID := "t1", Number := 0, Value := 50, Address := "M", BlockHeight := 2,
                Timestamp := 20, IsCoinbase := 1 },
              { TxID := "t2", Number := 0, Value := 30, Address := "B", BlockHeight := 2,
                Timestamp := 20 },
              { TxID := "t2", Number := 1, Value := 20, Address := "A", BlockHeight := 2,
                Timestamp := 20 }] }

/-- The ledger after the blocks of heights 1 and 2 have been written and applied in order. -/
def chainStore2 : Store :=
  (UpdateBlock chainBlock2
    (withRows (UpdateBlock chainBlock1 (withRows {} chainBlock1)).1 chainBlock2)).1

/-- A decoded block of height 1 whose coinbase transaction pays 50 to "A" and has a second
output of 5 without an address; its only input is the coinbase input, which has no origin
address. -/
def addresslessBlock : BSVBlockData :=
  { Block := { Height := 1, Timestamp := 10, TxCount := 1 }
    Transactions := [{ TxID := "t0", Number := 0, VInCount := 1, VOutCount := 2, VOutValue := 55,
                       BlockHeight := 1, Timestamp := 10 }]
    VIns := [{ TxID := "t0", Number := 0, Coinbase := "04ffff", BlockHeight := 1,
               Timestamp := 10 }]
    VOuts := [{ TxID := "t0", Number := 0, Value := 50, Address := "A", BlockHeight := 1,
                Timestamp := 10, IsCoinbase := 1 },
              { TxID := "t0", Number := 1, Value := 5, Address := "", BlockHeight := 1,
                Timestamp := 10, IsCoinbase := 1 }] }

/-! ## The block decoder `ParseBlock`

The document handed to `ParseBlock` is the tree the JSON library reads from the text: every key
may be missing (`none`).  `json.Get(doc, key)` followed by `.Int()`, `.String()`, `.Float()` or
`.Array()` gives the zero value, the empty text or the empty array for a missing key.  The
floating point product `json.Get(item, "value").Float() * 100000000` and the conversion
`math.Float64ToUint64` (package `common/math`) are one parameter `units` of the decoder, from
the number written in the document to the amount in minor units. -/

/-- A JSON number as written in the document: the decimal fraction `mantissa / 10 ^ decimals`. -/
structure JsonNumber where
  mantissa : Int := 0
  decimals : Nat := 0
deriving DecidableEq, Repr

/-- An item of a `vin` array. -/
structure VInItem where
  sequence : Option Int := none
  coinbase : Option String := none
  txid : Option String := none
  vout : Option Int := none
  scriptSig : Option String := none
deriving DecidableEq, Repr

/-- An item of a `vout` array; `hex`, `reqSigs`, `scriptType` and `addresses` are the keys `hex`,
`reqSigs`, `type` and `addresses` of its `scriptPubKey` object. -/
structure VOutItem where
  value : Option JsonNumber := none
  hex : Option String := none
  reqSigs : Option Int := none
  scriptType : Option String := none
  addresses : Option (List String) := none
deriving DecidableEq, Repr

/-- An item of the `tx` array. -/
structure TxItem where
  txid : Option String := none
  version : Option Int := none
  size : Option Int := none
  locktime : Option Int := none
  hash : Option String := none
  vin : Option (List VInItem) := none
  vout : Option (List VOutItem) := none
deriving DecidableEq, Repr

/-- The block document. -/
structure BlockDocument where
  height : Option Int := none
  size : Option Int := none
  time : Option Int := none
  version : Option Int := none
  merkle_root : Option String := none
  bits : Option String := none
  nonce : Option Int := none
  hash : Option String := none
  median_time : Option Int := none
  prev_hash : Option String := none
  chain_work : Option String := none
  tx : Option (List TxItem) := none
deriving DecidableEq, Repr

/-- Reading `json.Get(doc, key).Int()`. -/
def jsonInt (v : Option Int) : Int := v.getD 0

/-- Reading `json.Get(doc, key).String()`. -/
def jsonString (v : Option String) : String := v.getD ""

/-- Reading `json.Get(doc, key).Float()`. -/
def jsonFloat (v : Option JsonNumber) : JsonNumber := v.getD {}

/-- Reading `json.Get(doc, key).Array()`. -/
def jsonArray {α : Type} (v : Option (List α)) : List α := v.getD []

/-- Scan of `strings.Replace(s, old, "", -1)` over the characters of `s`, for a non-empty `old`:
from the left, every occurrence of `old` that does not overlap an earlier one is dropped.
`skip` counts the characters of the current occurrence still to drop. -/
def dropOccurrences (old : List Char) : Nat → List Char → List Char
  | _, [] => []
  | skip + 1, _ :: cs => dropOccurrences old skip cs
  | 0, c :: cs =>
    if old.isPrefixOf (c :: cs) then dropOccurrences old (old.length - 1) cs
    else c :: dropOccurrences old 0 cs

/-- Call `strings.Replace(s, old, "", -1)`. -/
def removeAll (s old : String) : String := ⟨dropOccurrences old.data 0 s.data⟩

/-- Body of the `vin` loop of `ParseBlock` for the item at position `vInN`. -/
def parseVIn (b : Block) (txid : String) (vInN : Nat) (item : VInItem) : VIn :=
  let coinbase := jsonString item.coinbase
  { Sequence := jsonInt item.sequence
    Coinbase := coinbase
    TxIDOrigin := if coinbase = "" then jsonString item.txid else ""
    VOutNumberOrigin := if coinbase = "" then jsonInt item.vout else 0
    ScriptSignature := if coinbase = "" then jsonString item.scriptSig else ""
    TxID := txid
    Number := vInN
    BlockHeight := b.Height
    Timestamp := b.Timestamp }

/-- Body of the `vout` loop of `ParseBlock` for the item at position `vOutN` of the transaction
at position `txN`, without the accumulation into `tx.VOutValue`. -/
def parseVOut (units : JsonNumber → Nat) (b : Block) (txid : String) (txN vOutN : Nat)
    (item : VOutItem) : VOut :=
  { Value := units (jsonFloat item.value)
    ScriptPublicKey := jsonString item.hex
    RequiredSignatures := jsonInt item.reqSigs
    ScriptType := jsonString item.scriptType
    Address :=
      match jsonArray item.addresses with
      | [address] => removeAll address "bitcoincash:"
      | _ => ""
    Number := vOutN
    TxID := txid
    BlockHeight := b.Height
    Timestamp := b.Timestamp
    IsCoinbase := if txN > 0 then 0 else 1 }

/-- One step of the `vout` loop: the output is appended to `b.VOuts` and its value is added to
`tx.VOutValue`, a `uint64` sum. -/
def voutStep (units : JsonNumber → Nat) (b : Block) (txid : String) (txN : Nat)
    (acc : List VOut × Nat) (p : Nat × VOutItem) : List VOut × Nat :=
  let vOut := parseVOut units b txid txN p.1 p.2
  (acc.1 ++ [vOut], uint64 (acc.2 + vOut.Value))

/-- Body of the `tx` loop of `ParseBlock` for the item at position `txN`: the transaction, its
inputs and its outputs. -/
def parseTx (units : JsonNumber → Nat) (b : Block) (txN : Nat) (item : TxItem) :
    Transaction × List VIn × List VOut :=
  let txid := jsonString item.txid
  let vInItemList := jsonArray item.vin
  let vIns := vInItemList.enum.map (fun p => parseVIn b txid p.1 p.2)
  let vOutItemList := jsonArray item.vout
  let outs := vOutItemList.enum.foldl (voutStep units b txid txN) ([], 0)
  ({ TxID := txid
     Version := jsonInt item.version
     Size := jsonInt item.size
     LockTime := jsonInt item.locktime
     Hash := jsonString item.hash
     Number := txN
     VInCount := vInItemList.length
     VOutCount := vOutItemList.length
     VOutValue := outs.2
     BlockHeight := b.Height
     Timestamp := b.Timestamp }, vIns, outs.1)

/-- One step of the `tx` loop: appends to `b.Transactions`, `b.VIns` and `b.VOuts`. -/
def txStep (units : JsonNumber → Nat) (b : Block) (acc : BSVBlockData) (p : Nat × TxItem) :
    BSVBlockData :=
  let t := parseTx units b p.1 p.2
  { acc with Transactions := acc.Transactions ++ [t.1], VIns := acc.VIns ++ t.2.1,
             VOuts := acc.VOuts ++ t.2.2 }

/-- The block header read by `ParseBlock` before the `tx` loop. -/
def parseHeader (doc : BlockDocument) : Block :=
  { Height := jsonInt doc.height
    Size := jsonInt doc.size
    Timestamp := jsonInt doc.time
    Version := jsonInt doc.version
    MerkleRoot := jsonString doc.merkle_root
    Bits := jsonString doc.bits
    Nonce := jsonInt doc.nonce
    Hash := jsonString doc.hash
    MedianTimestamp := jsonInt doc.median_time
    PreviousHash := jsonString doc.prev_hash
    ChainWork := jsonString doc.chain_work }

/-- Model of `ParseBlock`; it always returns a `nil` error. -/
def ParseBlock (units : JsonNumber → Nat) (doc : BlockDocument) : BSVBlockData × Err :=
  let header := parseHeader doc
  let b := (jsonArray doc.tx).enum.foldl (txStep units header) { Block := header }
  ({ b with Block := { b.Block with TxCount := b.Transactions.length } }, none)

/-- A conversion to minor units for the concrete documents: the number times 100000000, rounded
down. -/
def floorUnits (q : JsonNumber) : Nat := (q.mantissa.toNat * 100000000) / 10 ^ q.decimals

/-- A document of height 7 with a coinbase transaction (one output with a single cash address,
one without address) and a transaction with one input and an output listing two addresses. -/
def sampleDocument : BlockDocument :=
  { height := some 7, time := some 70, hash := some "h7"
    tx := some [
      { txid := some "c0"
        vin := some [{ coinbase := some "04ffff", sequence := some 1 }]
        vout := some [{ value := some { mantissa := 125, decimals := 1 }, addresses := some ["bitcoincash:qa"] },
                      { value := some {}, addresses := some [] }] },
      { txid := some "c1"
        vin := some [{ txid := some "p9", vout := some 3, scriptSig := some "sig",
                       sequence := some 2 }]
        vout := some [{ value := some { mantissa := 1 }, addresses := some ["qb", "qc"] },
                      { value := some { mantissa := 2 }, addresses := some ["qd"] }] }] }

/-- The claim's wording "with the prefix removed": the text without its leading `lead`, if it
starts with it, and the text itself otherwise. -/
def withoutLeading (s lead : String) : String :=
  if lead.data.isPrefixOf s.data then ⟨s.data.drop lead.data.length⟩ else s

/-- A document whose only output lists one address that starts with "bitcoincash:" twice. -/
def doubledLeadDocument : BlockDocument :=
  { height := some 7, time := some 70
    tx := some [{ txid := some "c0"
                  vin := some [{ coinbase := some "04ffff" }]
                  vout := some [{ value := some { mantissa := 1 }
                                  addresses := some ["bitcoincash:bitcoincash:q"] }] }] }

/-- A document without the keys `height` and `tx`. -/
def bareDocument : BlockDocument :=
  { time := some 70, hash := some "h" }

/-- A document whose first transaction has an input without a coinbase payload, referring to the
output `("p9", 3)`. -/
def spendingFirstDocument : BlockDocument :=
  { height := some 7, time := some 70
    tx := some [{ txid := some "c0"
                  vin := some [{ txid := some "p9", vout := some 3, scriptSig := some "sig" }]
                  vout := some [{ value := some { mantissa := 1 }
                                  addresses := some ["qa"] }] }] }

/-- The origin reference of an input: origin transaction-id, origin output-index and unlocking
script. -/
def originReference (v : VIn) : String × Int × String :=
  (v.TxIDOrigin, v.VOutNumberOrigin, v.ScriptSignature)

/-! ## `updateTransactionVersion`

A statement built by the function is kept as its parts: the `WHEN 'id' THEN v` clauses of
`sqlUpdate` and the entries of the `IN (...)` list of `sqlUpdate2`, each in the order in which
they are appended. -/

/-- One `UPDATE bsv_transaction SET version = CASE tx_id ... END WHERE tx_id IN (...)`
statement. -/
structure VersionUpdate where
  whens : List (String × Int) := []
  ins : List String := []
deriving DecidableEq, Repr

/-- Text of a statement, as `sqlUpdate + sqlUpdate2 + ")"` spells it. -/
def VersionUpdate.text (u : VersionUpdate) : String :=
  "UPDATE bsv_transaction SET version=CASE tx_id" ++
    String.join (u.whens.map (fun w => " WHEN '" ++ w.1 ++ "' THEN " ++ toString w.2)) ++
    " END WHERE tx_id IN (" ++ String.intercalate "," (u.ins.map (fun i => "'" ++ i ++ "'")) ++
    ")"

/-- The variables of the loop of `updateTransactionVersion` and the statements executed so
far. -/
structure VersionLoop where
  count : Nat := 0
  sqlUpdate : List (String × Int) := []
  sqlUpdate2 : List String := []
  executed : List VersionUpdate := []
deriving DecidableEq, Repr

/-- Body of the loop of `updateTransactionVersion` for the transaction id `id` and version
`v`. -/
def versionStep (st : VersionLoop) (id : String) (v : Int) : VersionLoop :=
  if st.count = 0 then
    { st with sqlUpdate := [(id, v)], sqlUpdate2 := [id], count := st.count + 1 }
  else
    let st1 : VersionLoop :=
      { st with sqlUpdate := st.sqlUpdate ++ [(id, v)], sqlUpdate2 := st.sqlUpdate2 ++ [id],
                count := st.count + 1 }
    if st1.count ≥ 1000 then
      { st1 with count := 0
                 executed := st1.executed ++ [{ whens := st1.sqlUpdate, ins := st1.sqlUpdate2 }] }
    else st1

/-- The loop `for k, v := range txVersion` from index `k` on; `none` is the run-time panic of
`data.Transactions[k]` with `k` out of range. -/
def versionLoop (txs : List Transaction) : Nat → List Int → VersionLoop → Option VersionLoop
  | _, [], st => some st
  | k, v :: vs, st =>
    match txs[k]? with
    | none => none
    | some t => versionLoop txs (k + 1) vs (versionStep st t.TxID v)

/-- Model of `updateTransactionVersion`: the statements executed, in order, and the returned
error; `none` is the run-time panic. -/
def updateTransactionVersion (txVersion : List Int) (data : BSVBlockData) :
    Option (List VersionUpdate × Err) :=
  match versionLoop data.Transactions 0 txVersion {} with
  | none => none
  | some st =>
    if st.count ≠ 0 then
      some (st.executed ++ [{ whens := st.sqlUpdate, ins := st.sqlUpdate2 }], none)
    else some (st.executed, none)

/-- The statements executed once the loop ends in state `st`: those already executed and, when
`count` is not 0, the pending one. -/
def versionStatements (st : VersionLoop) : List VersionUpdate :=
  if st.count ≠ 0 then st.executed ++ [{ whens := st.sqlUpdate, ins := st.sqlUpdate2 }]
  else st.executed

/-- What the loop of `updateTransactionVersion` keeps true: fewer than 1000 clauses are pending,
`count` counts them, and every executed statement has between 1 and 1000 clauses and lists in
`IN (...)` the ids of its clauses. -/
def VersionInv (st : VersionLoop) : Prop :=
  st.count < 1000 ∧
  (st.count ≠ 0 → st.sqlUpdate.length = st.count ∧ st.sqlUpdate2 = st.sqlUpdate.map Prod.fst) ∧
  ∀ u ∈ st.executed, u.whens.length ≤ 1000 ∧ u.whens ≠ [] ∧ u.ins = u.whens.map Prod.fst

/-- A decoded block of height 2 whose transaction of ordinal 1 has no input and one output of
2^64 - 2048 minor units. -/
def wrapFeeBlock : BSVBlockData :=
  { Block := { Height := 2, Timestamp := 20, TxCount := 2 }
    Transactions := [{ TxID := "t1", Number := 0, VInCount := 1, VOutCount := 1, VOutValue := 50,
                       BlockHeight := 2, Timestamp := 20 },
                     { TxID := "t2", Number := 1, VInCount := 0, VOutCount := 1,
                       VOutValue := 18446744073709549568, BlockHeight := 2, Timestamp := 20 }]
    VIns := [{ TxID := "t1", Number := 0, Coinbase := "04ffff", BlockHeight := 2,
               Timestamp := 20 }]
    VOuts := [{ TxID := "t1", Number := 0, Value := 50, Address := "M", BlockHeight := 2,
                Timestamp := 20, IsCoinbase := 1 },
              { TxID := "t2", Number := 0, Value := 18446744073709549568, Address := "B",
                BlockHeight := 2, Timestamp := 20 }] }

/-- A store in which two output rows carry the identity `("t0", 0)`. -/
def twinOriginStore : Store :=
  { vout := [{ TxID := "t0", Number := 0, Value := 50, Address := "A", BlockHeight := 1,
               Timestamp := 10, IsCoinbase := 1 },
             { TxID := "t0", Number := 0, Value := 38, Address := "C", BlockHeight := 1,
               Timestamp := 10, IsCoinbase := 1 }] }

/-- A decoded block of height 2: a coinbase transaction and one transaction whose only input
refers to the output `("t0", 0)`. -/
def twinOriginBlock : BSVBlockData :=
  { Block := { Height := 2, Timestamp := 20, TxCount := 2 }
    Transactions := [{ TxID := "t1", Number := 0, VInCount := 1, VOutCount := 1, VOutValue := 55,
                       BlockHeight := 2, Timestamp := 20 },
                     { TxID := "t2", Number := 1, VInCount := 1, VOutCount := 1, VOutValue := 30,
                       BlockHeight := 2, Timestamp := 20 }]
    VIns := [{ TxID := "t1", Number := 0, Coinbase := "04ffff", BlockHeight := 2,
               Timestamp := 20 },
             { TxID := "t2", Number := 0, TxIDOrigin := "t0", VOutNumberOrigin := 0,
               BlockHeight := 2, Timestamp := 20 }]
    VOuts := [{ TxID := "t1", Number := 0, Value := 55, Address := "M", BlockHeight := 2,
                Timestamp := 20, IsCoinbase := 1 },
              { TxID := "t2", Number := 0, Value := 30, Address := "B", BlockHeight := 2,
                Timestamp := 20 }] }

/-- The sums of `addressValueMap` taken in exact integers: per address, the values of the
block's outputs paid to it minus the origin values of the block's inputs spent from it. -/
def addressDeltas (data : BSVBlockData) : List (String × Int) :=
  data.VIns.foldl (fun m v => mapAdd m v.AddressOrigin (-v.ValueOrigin))
    (data.VOuts.foldl (fun m v => mapAdd m v.Address (v.Value : Int)) [])

/-- A store to which `wrapBlock` has been written: no address has a record yet. -/
def wrapStore : Store :=
  { vout := [{ TxID := "t2", Number := 0, Value := 9223372036854775808, Address := "A",
               BlockHeight := 2, Timestamp := 20, IsCoinbase := 1 }]
    vin := [{ TxID := "t2", Number := 0, Coinbase := "04ffff", BlockHeight := 2,
              Timestamp := 20 }]
    block := [{ Height := 2, Timestamp := 20 }] }

/-- A block of height 2 whose coinbase transaction pays 2^63 minor units to "A". -/
def wrapBlock : BSVBlockData :=
  { Block := { Height := 2, Timestamp := 20, TxCount := 1 }
    Transactions := [{ TxID := "t2", Number := 0, VInCount := 1, VOutCount := 1,
                       VOutValue := 9223372036854775808, BlockHeight := 2, Timestamp := 20 }]
    VIns := [{ TxID := "t2", Number := 0, Coinbase := "04ffff", BlockHeight := 2,
               Timestamp := 20 }]
    VOuts := [{ TxID := "t2", Number := 0, Value := 9223372036854775808, Address := "A",
                BlockHeight := 2, Timestamp := 20, IsCoinbase := 1 }] }

/-- A store in which "A" holds the output of height 1, worth 100, and to which no row of
height 2 has been written. -/
def strayStore : Store :=
  { vout := [{ TxID := "t0", Number := 0, Value := 100, Address := "A", BlockHeight := 1,
               Timestamp := 10, IsCoinbase := 1 }]
    vin := [{ TxID := "t0", Number := 0, Coinbase := "04ffff", BlockHeight := 1,
              Timestamp := 10 }]
    address := [{ Address := "A", Value := 100, BirthTimestamp := 10, LatestTxTimestamp := 10 }]
    block := [{ Height := 1, Timestamp := 10 }] }

/-- A block of height 2, not written to `strayStore`, whose only input spends 50 from "A" and
whose only output pays 50 to "B". -/
def strayBlock : BSVBlockData :=
  { Block := { Height := 2, Timestamp := 20, TxCount := 1 }
    Transactions := [{ TxID := "t2", Number := 0, VInCount := 1, VOutCount := 1, VOutValue := 50,
                       VInValue := 50, BlockHeight := 2, Timestamp := 20 }]
    VIns := [{ TxID := "t2", Number := 0, TxIDOrigin := "t0", VOutNumberOrigin := 0,
               AddressOrigin := "A", ValueOrigin := 50, BlockHeight := 2, Timestamp := 20 }]
    VOuts := [{ TxID := "t2", Number := 0, Value := 50, Address := "B", BlockHeight := 2,
                Timestamp := 20 }] }

/-- A block of height 2, not written to `strayStore`, whose only output pays 30 to "A". -/
def strayCreditBlock : BSVBlockData :=
  { Block := { Height := 2, Timestamp := 20, TxCount := 1 }
    Transactions := [{ TxID := "t2", Number := 0, VOutCount := 1, VOutValue := 30,
                       BlockHeight := 2, Timestamp := 20 }]
    VOuts := [{ TxID := "t2", Number := 0, Value := 30, Address := "A", BlockHeight := 2,
                Timestamp := 20, IsCoinbase := 1 }] }

/-- A block of height 2 whose coinbase transaction pays "A" two outputs of 2^63 minor units. -/
def twiceWrapBlock : BSVBlockData :=
  { Block := { Height := 2, Timestamp := 20, TxCount := 1 }
    Transactions := [{ TxID := "t2", Number := 0, VInCount := 1, VOutCount := 2, VOutValue := 0,
                       BlockHeight := 2, Timestamp := 20 }]
    VIns := [{ TxID := "t2", Number := 0, Coinbase := "04ffff", BlockHeight := 2,
               Timestamp := 20 }]
    VOuts := [{ TxID := "t2", Number := 0, Value := 9223372036854775808, Address := "A",
                BlockHeight := 2, Timestamp := 20, IsCoinbase := 1 },
              { TxID := "t2", Number := 1, Value := 9223372036854775808, Address := "A",
                BlockHeight := 2, Timestamp := 20, IsCoinbase := 1 }] }

/-- A store in which "A" holds 5 and to which `twiceWrapBlock` has been written. -/
def twiceWrapStore : Store :=
  { vout := twiceWrapBlock.VOuts
    vin := twiceWrapBlock.VIns
    address := [{ Address := "A", Value := 5, BirthTimestamp := 10, LatestTxTimestamp := 10 }]
    block := [{ Height := 2, Timestamp := 20 }] }

/-- A block of height 2 whose coinbase transaction has two outputs of 2^63 minor units, both
without an address. -/
def twiceBlankBlock : BSVBlockData :=
  { Block := { Height := 2, Timestamp := 20, TxCount := 1 }
    Transactions := [{ TxID := "t2", Number := 0, VInCount := 1, VOutCount := 2, VOutValue := 0,
                       BlockHeight := 2, Timestamp := 20 }]
    VIns := [{ TxID := "t2", Number := 0, Coinbase := "04ffff", BlockHeight := 2,
               Timestamp := 20 }]
    VOuts := [{ TxID := "t2", Number := 0, Value := 9223372036854775808, Address := "",
                BlockHeight := 2, Timestamp := 20, IsCoinbase := 1 },
              { TxID := "t2", Number := 1, Value := 9223372036854775808, Address := "",
                BlockHeight := 2, Timestamp := 20, IsCoinbase := 1 }] }

/-- A store in which the empty address holds 7 and to which `twiceBlankBlock` has been
written. -/
def twiceBlankStore : Store :=
  { vout := twiceBlankBlock.VOuts
    vin := twiceBlankBlock.VIns
    address := [{ Address := "", Value := 7, BirthTimestamp := 5, LatestTxTimestamp := 5 }]
    block := [{ Height := 2, Timestamp := 20 }] }

/-- A store in which the empty address holds 7 and to which no row of height 2 has been
written. -/
def strayBlankStore : Store :=
  { address := [{ Address := "", Value := 7, BirthTimestamp := 5, LatestTxTimestamp := 5 }]
    block := [{ Height := 1, Timestamp := 10 }] }

/-- A block of height 2, not written to `strayBlankStore`, whose only output is worth 5 and has
no address. -/
def strayBlankBlock : BSVBlockData :=
  { Block := { Height := 2, Timestamp := 20, TxCount := 1 }
    Transactions := [{ TxID := "t2", Number := 0, VOutCount := 1, VOutValue := 5,
                       BlockHeight := 2, Timestamp := 20 }]
    VOuts := [{ TxID := "t2", Number := 0, Value := 5, Address := "", BlockHeight := 2,
                Timestamp := 20, IsCoinbase := 1 }] }

/-- A document whose only transaction has two outputs of 100000000000 coins, which are 10^19
minor units, each. -/
def wrapTotalDocument : BlockDocument :=
  { height := some 7, time := some 70
    tx := some [{ txid := some "c0"
                  vin := some [{ coinbase := some "04ffff" }]
                  vout := some [{ value := some { mantissa := 100000000000 }
                                  addresses := some ["qa"] },
                                { value := some { mantissa := 100000000000 }
                                  addresses := some ["qb"] }] }] }

/-- A document whose two transactions carry the same transaction id. -/
def twinIdDocument : BlockDocument :=
  { height := some 7, time := some 70
    tx := some [{ txid := some "c0"
                  vin := some [{ coinbase := some "04ffff" }]
                  vout := some [{ value := some { mantissa := 1 }, addresses := some ["qa"] }] },
                { txid := some "c0"
                  vin := some [{ txid := some "p9", vout := some 3 }]
                  vout := some [{ value := some { mantissa := 2 }
                                  addresses := some ["qb"] }] }] }

/-! # Properties -/

/-! ## Spend marking: `updateVOutIsUsed` -/

theorem newVOut_eq (a : VOut) : newVOut a = { a with IsUsed := 1 } := by
  cases a; rfl

theorem newVOut_of_used (a : VOut) (h : a.IsUsed = 1) : newVOut a = a := by
  cases a; simp only [newVOut] at *; subst h; rfl

theorem isSpentAt_newVOut (s : Store) (height : Int) (a : VOut) :
    isSpentAt s height (newVOut a) = isSpentAt s height a := by
  simp [isSpentAt, spends, newVOut]

theorem mem_spentJoin (s : Store) (height : Int) (a : VOut) :
    a ∈ spentJoin s height ↔ a ∈ s.vout ∧ isSpentAt s height a = true := by
  simp only [spentJoin, isSpentAt, List.mem_flatMap, List.mem_map, List.mem_filter,
    List.any_eq_true]
  constructor
  · rintro ⟨x, hx, b, ⟨hb, hs⟩, rfl⟩
    exact ⟨hx, b, hb, hs⟩
  · rintro ⟨ha, b, hb, hs⟩
    exact ⟨a, ha, b, ⟨hb, hs⟩, rfl⟩

theorem spent_marked_updateVOutIsUsed (height : Int) (s : Store) :
    ∀ a ∈ (updateVOutIsUsed height s).1.vout, isSpentAt s height a = true → a.IsUsed = 1 := by
  intro a ha hs
  simp only [updateVOutIsUsed, List.mem_append, List.mem_map, List.mem_filter] at ha
  rcases ha with ⟨_, hn⟩ | ⟨x, _, rfl⟩
  · simp [hs] at hn
  · rfl

/-- C4, refuted as stated: in `doubleSpendStore` the output `("t0", 0)` has `is_used = 1` and the
block of height 2 has an input whose origin is that output, yet `updateVOutIsUsed 2` and
`UpdateBlock` both return no error. -/
theorem updateVOutIsUsed_accepts_spent_output :
    (∃ a ∈ doubleSpendStore.vout, a.IsUsed = 1 ∧
      ∃ b ∈ doubleSpendBlock.VIns, b ∈ vinsAt doubleSpendStore 2 ∧ spends b a = true) ∧
    (updateVOutIsUsed 2 doubleSpendStore).2 = none ∧
    (UpdateBlock doubleSpendBlock doubleSpendStore).2 = none := by
  decide

/-- C4, amended: `updateVOutIsUsed` never returns an error; an output already marked
`is_used = 1` that an input of the height refers to stays in the relation as it is, and every
output an input of the height refers to has `is_used = 1` afterwards. -/
theorem updateVOutIsUsed_never_fails (height : Int) (s : Store) :
    (updateVOutIsUsed height s).2 = none ∧
    (∀ a ∈ s.vout, isSpentAt s height a = true → a.IsUsed = 1 →
      a ∈ (updateVOutIsUsed height s).1.vout) ∧
    (∀ a ∈ (updateVOutIsUsed height s).1.vout, isSpentAt s height a = true → a.IsUsed = 1) := by
  refine ⟨rfl, ?_, ?_⟩
  · intro a ha hs hu
    simp only [updateVOutIsUsed, List.mem_append, List.mem_map]
    exact Or.inr ⟨a, (mem_spentJoin s height a).2 ⟨ha, hs⟩, newVOut_of_used a hu⟩
  · intro a ha hs
    simp only [updateVOutIsUsed, List.mem_append, List.mem_map, List.mem_filter] at ha
    rcases ha with ⟨_, hn⟩ | ⟨x, _, rfl⟩
    · simp [hs] at hn
    · rfl

/-! ## Spend resolution: `updateVInAddressAndValue` -/

theorem resolveRow_foldl_fst (rows : List (String × Int)) (v : VIn) (m : List (String × Int)) :
    (rows.foldl resolveRow (v, m)).1 =
      rows.foldl (fun w row => { w with AddressOrigin := row.1, ValueOrigin := row.2 }) v := by
  induction rows generalizing v m with
  | nil => rfl
  | cons row rows ih => simp only [List.foldl_cons, resolveRow, ih]

theorem resolveVIn_foldl_fst (s : Store) (vs : List VIn) (acc : List VIn)
    (m : List (String × Int)) :
    (vs.foldl (resolveVIn s) (acc, m)).1 = acc ++ vs.map (resolvedVIn s) := by
  induction vs generalizing acc m with
  | nil => simp
  | cons v vs ih =>
    simp only [List.foldl_cons, resolveVIn, ih, resolveRow_foldl_fst, List.map_cons,
      List.append_assoc, List.singleton_append, resolvedVIn]

theorem updateVInAddressAndValue_VIns (s : Store) (data : BSVBlockData) :
    (updateVInAddressAndValue s data).1.VIns = data.VIns.map (resolvedVIn s) := by
  simp [updateVInAddressAndValue, resolveVIn_foldl_fst]

/-- C5, refuted as stated: the second input of `danglingBlock` is not a coinbase input and its
origin `("zz", 3)` matches no output of the store, yet `updateVInAddressAndValue` returns no
error and leaves the input with origin value 0 and an empty origin address. -/
theorem updateVInAddressAndValue_accepts_unresolved :
    (∃ v ∈ danglingBlock.VIns, v.Coinbase = "" ∧ originRows emptyStore v = []) ∧
    (updateVInAddressAndValue emptyStore danglingBlock).2 = none ∧
    (updateVInAddressAndValue emptyStore danglingBlock).1.VIns = danglingBlock.VIns ∧
    (∀ v ∈ (updateVInAddressAndValue emptyStore danglingBlock).1.VIns,
      v.ValueOrigin = 0 ∧ v.AddressOrigin = "") := by
  decide

/-- C5, amended: `updateVInAddressAndValue` never returns an error; the resulting inputs are
the block's inputs, in order, each one resolved on its own, and an input whose origin matches no
output of the store is left exactly as it was. -/
theorem updateVInAddressAndValue_never_fails (s : Store) (data : BSVBlockData) :
    (updateVInAddressAndValue s data).2 = none ∧
    (updateVInAddressAndValue s data).1.VIns = data.VIns.map (resolvedVIn s) ∧
    (∀ v : VIn, originRows s v = [] → resolvedVIn s v = v) := by
  refine ⟨rfl, updateVInAddressAndValue_VIns s data, ?_⟩
  intro v hv
  simp [resolvedVIn, hv]

/-! ## Pool attribution: `GetBlockMiner` -/

/-- C10, refuted as stated: the first output of `noAddressBlock` has an empty address, and
`GetBlockMiner` leaves the pool name empty instead of setting it to "UNKNOWN". -/
theorem GetBlockMiner_empty_address_pool :
    noAddressBlock.VOuts.head?.map (fun v => v.Address) = some "" ∧
    (GetBlockMiner noAddressBlock emptyStore).2 = none ∧
    (GetBlockMiner noAddressBlock emptyStore).1.Block.PoolName = "" ∧
    (GetBlockMiner noAddressBlock emptyStore).1.Block.PoolName ≠ "UNKNOWN" := by
  decide

/-- C10, amended: for a block with at least one output, `GetBlockMiner` returns no error and
sets the pool name to the pool name of the miner record stored for the first output's address,
or to the empty string when the store has no such record (whether or not that address is
empty); nothing else of the block data changes. -/
theorem GetBlockMiner_first_output (data : BSVBlockData) (s : Store) (first : VOut)
    (rest : List VOut) (h : data.VOuts = first :: rest) :
    (GetBlockMiner data s).2 = none ∧
    (GetBlockMiner data s).1.Block.PoolName =
      (match getMiner s.mining first.Address with
       | some found => found.PoolName
       | none => "") ∧
    (GetBlockMiner data s).1 =
      { data with Block := { data.Block with
          PoolName := (GetBlockMiner data s).1.Block.PoolName } } := by
  unfold GetBlockMiner
  rw [h]
  rcases hm : getMiner s.mining first.Address with _ | found <;> simp [hm]

/-- Witness of `GetBlockMiner_first_output`: a block paying a recorded miner. -/
theorem GetBlockMiner_first_output_witness :
    (GetBlockMiner minedBlock oneMinerStore).2 = none ∧
    (GetBlockMiner minedBlock oneMinerStore).1.Block.PoolName = "pool-a" :=
  have h := GetBlockMiner_first_output minedBlock oneMinerStore
    { TxID := "t1", Value := 50, Address := "A", BlockHeight := 2, Timestamp := 20,
      IsCoinbase := 1 } [] rfl
  ⟨h.1, h.2.1⟩

/-! ## Miner counts: `updateCoinbaseAddressCount` -/

theorem getMiner_countCoinbase_self (ms : List Mining) (x : String) (hx : x ≠ "") :
    getMiner (countCoinbase ms x) x =
      some { minerOf ms x with CoinbaseTimes := (minerOf ms x).CoinbaseTimes + 1 } := by
  unfold countCoinbase minerOf
  rw [if_neg hx]
  rcases hm : getMiner ms x with _ | found
  · have hnone : List.find? (fun r => r.Address == x) ms = none := hm
    simp only [getMiner, List.find?_append, hnone]
    simp
  · have hfx : found.Address = x := by
      have := List.find?_some hm
      simpa using this
    simp only [getMiner, List.find?_append]
    have : List.find? (fun r => r.Address == x)
        (List.filter (fun r => !(r.Address == x)) ms) = none := by
      simp [List.find?_eq_none]
    rw [this]
    simp [hfx]

theorem getMiner_filter_ne (ms : List Mining) (x a : String) (hxa : x ≠ a) :
    getMiner (ms.filter (fun r => !(r.Address == x))) a = getMiner ms a := by
  induction ms with
  | nil => rfl
  | cons r ms ih =>
    unfold getMiner at ih ⊢
    by_cases hr : r.Address = a
    · have hax : ¬ a = x := fun h => hxa h.symm
      simp [List.filter_cons, hr, hax]
    · by_cases hrx : r.Address = x
      · simp [List.filter_cons, hrx, hr, hxa, ih]
      · simp [List.filter_cons, hrx, hr, ih]

theorem getMiner_append_other (ms : List Mining) (r : Mining) (a : String)
    (hr : r.Address ≠ a) : getMiner (ms ++ [r]) a = getMiner ms a := by
  simp [getMiner, List.find?_append, hr]

theorem getMiner_countCoinbase_other (ms : List Mining) (x a : String) (hxa : x ≠ a) :
    getMiner (countCoinbase ms x) a = getMiner ms a := by
  unfold countCoinbase
  split
  · rfl
  · rcases hm : getMiner ms x with _ | found
    · exact getMiner_append_other ms _ a hxa
    · have hfx : found.Address = x := by
        have := List.find?_some hm
        simpa using this
      show getMiner (_ ++ [_]) a = _
      rw [getMiner_append_other _ _ a (by simpa [hfx] using hxa), getMiner_filter_ne ms x a hxa]

theorem minerOf_countCoinbase (ms : List Mining) (x a : String) :
    minerOf (countCoinbase ms x) a =
      if x ≠ "" ∧ x = a then
        { minerOf ms a with CoinbaseTimes := (minerOf ms a).CoinbaseTimes + 1 }
      else minerOf ms a := by
  by_cases hxa : x = a
  · subst hxa
    by_cases hx : x = ""
    · simp [hx, countCoinbase]
    · simp only [ne_eq, hx, not_false_eq_true, and_self, if_true]
      conv_lhs => unfold minerOf
      rw [getMiner_countCoinbase_self ms x hx]
  · simp only [hxa, and_false, if_false]
    unfold minerOf
    rw [getMiner_countCoinbase_other ms x a hxa]

theorem minerOf_foldl_countCoinbase (xs : List String) (ms : List Mining) (a : String) :
    minerOf (xs.foldl countCoinbase ms) a =
      { minerOf ms a with
        CoinbaseTimes := (minerOf ms a).CoinbaseTimes + ((xs.filter (fun x => x != "")).count a : Nat) } := by
  induction xs generalizing ms with
  | nil => simp
  | cons x xs ih =>
    rw [List.foldl_cons, ih, minerOf_countCoinbase]
    by_cases hx : x = ""
    · simp [hx]
    · by_cases hxa : x = a
      · subst hxa
        simp [hx, List.filter_cons, List.count_cons]
        ring
      · simp [hx, hxa, List.filter_cons, List.count_cons]

theorem getMiner_isSome_countCoinbase (ms : List Mining) (x a : String)
    (h : (getMiner ms a).isSome = true) : (getMiner (countCoinbase ms x) a).isSome = true := by
  by_cases hxa : x = a
  · subst hxa
    by_cases hx : x = ""
    · simpa [countCoinbase, hx] using h
    · rw [getMiner_countCoinbase_self ms x hx]; rfl
  · rw [getMiner_countCoinbase_other ms x a hxa]; exact h

theorem getMiner_isSome_foldl (xs : List String) (ms : List Mining) (a : String)
    (h : (getMiner ms a).isSome = true) :
    (getMiner (xs.foldl countCoinbase ms) a).isSome = true := by
  induction xs generalizing ms with
  | nil => exact h
  | cons x xs ih => exact ih _ (getMiner_isSome_countCoinbase ms x a h)

theorem getMiner_isSome_of_counted (xs : List String) (ms : List Mining) (a : String)
    (h : a ∈ xs.filter (fun x => x != "")) :
    (getMiner (xs.foldl countCoinbase ms) a).isSome = true := by
  induction xs generalizing ms with
  | nil => simp at h
  | cons x xs ih =>
    rw [List.foldl_cons]
    by_cases hxa : x = a
    · subst hxa
      have hx : x ≠ "" := by
        have := (List.mem_filter.1 h).2
        simpa using this
      apply getMiner_isSome_foldl
      rw [getMiner_countCoinbase_self ms x hx]; rfl
    · apply ih
      rw [List.filter_cons] at h
      split at h
      · rcases List.mem_cons.1 h with h | h
        · exact absurd h.symm hxa
        · exact h
      · exact h

/-- C9, refuted as stated: at height 2 of `twoPayoutStore` the coinbase transaction's first
output has the non-empty address "A", and `updateCoinbaseAddressCount 2` raises the count of the
other miner address "B" from 5 to 6 as well. -/
theorem updateCoinbaseAddressCount_counts_every_output :
    (twoPayoutStore.vout.find? (fun v => v.BlockHeight == 2 && v.IsCoinbase == 1 &&
        v.Number == 0)).map (fun v => v.Address) = some "A" ∧
    (updateCoinbaseAddressCount 2 twoPayoutStore).2 = none ∧
    coinbaseTimes (updateCoinbaseAddressCount 2 twoPayoutStore).1.mining "A" = 1 ∧
    coinbaseTimes twoPayoutStore.mining "B" = 5 ∧
    coinbaseTimes (updateCoinbaseAddressCount 2 twoPayoutStore).1.mining "B" = 6 := by
  decide

/-- C9, amended: `updateCoinbaseAddressCount` returns no error and raises the coinbase count of
every address by the number of coinbase outputs of the height that carry it, counting only
non-empty addresses (so by exactly 1 for an address paid by exactly one coinbase output, and by
0 for an address paid by none); the pool name recorded for an address is kept, an address that
was counted has a record afterwards, and no other relation changes. -/
theorem updateCoinbaseAddressCount_counts (height : Int) (s : Store) (a : String) :
    (updateCoinbaseAddressCount height s).2 = none ∧
    coinbaseTimes (updateCoinbaseAddressCount height s).1.mining a =
      coinbaseTimes s.mining a + ((countedAddresses s height).count a : Nat) ∧
    poolName (updateCoinbaseAddressCount height s).1.mining a = poolName s.mining a ∧
    (a ∈ countedAddresses s height →
      (getMiner (updateCoinbaseAddressCount height s).1.mining a).isSome = true) ∧
    (updateCoinbaseAddressCount height s).1 =
      { s with mining := (updateCoinbaseAddressCount height s).1.mining } := by
  refine ⟨rfl, ?_, ?_, ?_, rfl⟩
  · simp only [updateCoinbaseAddressCount, coinbaseTimes, countedAddresses,
      minerOf_foldl_countCoinbase]
  · simp only [updateCoinbaseAddressCount, poolName, minerOf_foldl_countCoinbase]
  · intro h
    exact getMiner_isSome_of_counted _ _ a h

/-- Witness of `updateCoinbaseAddressCount_counts`: in `twoPayoutStore` the address "A" is
counted and gets a record. -/
theorem updateCoinbaseAddressCount_counts_witness :
    "A" ∈ countedAddresses twoPayoutStore 2 ∧
    (getMiner (updateCoinbaseAddressCount 2 twoPayoutStore).1.mining "A").isSome = true :=
  ⟨by decide, (updateCoinbaseAddressCount_counts 2 twoPayoutStore "A").2.2.2.1 (by decide)⟩

theorem map_const_filter_of_length_le_one (bs : List VIn) (q : VIn → Bool) (a : VOut)
    (h : (bs.filter q).length ≤ 1) :
    (bs.filter q).map (fun _ => a) = if bs.any q then [a] else [] := by
  have hany : bs.any q = !(bs.filter q).isEmpty := by
    induction bs with
    | nil => rfl
    | cons b bs ih =>
      by_cases hb : q b = true
      · simp [List.filter_cons, hb]
      · simp only [Bool.not_eq_true] at hb
        have h' : (bs.filter q).length ≤ 1 := by simpa [List.filter_cons, hb] using h
        simp [List.filter_cons, hb, ih h']
  rw [hany]
  match hf : bs.filter q, h with
  | [], _ => simp
  | [b], _ => simp
  | _ :: _ :: _, h => simp [hf] at h

theorem flatMap_join_eq_filter (bs : List VIn) (l : List VOut)
    (h : ∀ a ∈ l, ((bs.filter (fun b => spends b a))).length ≤ 1) :
    l.flatMap (fun a => (bs.filter (fun b => spends b a)).map (fun _ => a)) =
      l.filter (fun a => bs.any (fun b => spends b a)) := by
  induction l with
  | nil => rfl
  | cons a l ih =>
    have ha := h a (List.mem_cons_self a l)
    have hl := ih (fun x hx => h x (List.mem_cons_of_mem a hx))
    rw [List.flatMap_cons, hl, map_const_filter_of_length_le_one _ _ a ha, List.filter_cons]
    by_cases hp : bs.any (fun b => spends b a) = true
    · simp [hp]
    · simp [hp]

theorem spentJoin_eq_filter (s : Store) (height : Int)
    (h : ∀ a ∈ s.vout, ((vinsAt s height).filter (fun b => spends b a)).length ≤ 1) :
    spentJoin s height = s.vout.filter (fun a => isSpentAt s height a) :=
  flatMap_join_eq_filter (vinsAt s height) s.vout h

theorem filter_not_append_map_perm {α : Type} (p : α → Bool) (g : α → α) (l : List α) :
    List.Perm (l.filter (fun a => !p a) ++ (l.filter p).map g)
      (l.map (fun a => if p a then g a else a)) := by
  induction l with
  | nil => exact List.Perm.refl _
  | cons a l ih =>
    by_cases hp : p a = true
    · simp only [List.filter_cons, hp, Bool.not_true, Bool.false_eq_true, if_false, if_true,
        List.map_cons]
      exact List.perm_middle.trans (List.Perm.cons _ ih)
    · simp only [Bool.not_eq_true] at hp
      simp only [List.filter_cons, hp, Bool.not_false, if_true, Bool.false_eq_true, if_false,
        List.map_cons, List.cons_append]
      exact List.Perm.cons _ ih

theorem updateVOutIsUsed_unspent_rows (height : Int) (s : Store) :
    (updateVOutIsUsed height s).1.vout.filter (fun a => !isSpentAt s height a) =
      s.vout.filter (fun a => !isSpentAt s height a) := by
  simp only [updateVOutIsUsed, List.filter_append, List.filter_filter, Bool.and_self]
  have : List.filter (fun a => !isSpentAt s height a) ((spentJoin s height).map newVOut) = [] := by
    rw [List.filter_eq_nil_iff]
    intro a ha
    rcases List.mem_map.1 ha with ⟨x, hx, rfl⟩
    simp [isSpentAt_newVOut, ((mem_spentJoin s height x).1 hx).2]
  rw [this, List.append_nil]

/-- C8, refuted as stated: two inputs of height 2 in `sharedOriginStore` refer to the single
output row `("t0", 0)`; after `updateVOutIsUsed 2` the output relation holds that identity
twice. -/
theorem updateVOutIsUsed_duplicates_shared_origin :
    (sharedOriginStore.vout.filter (fun a => a.TxID == "t0" && a.Number == 0)).length = 1 ∧
    ((vinsAt sharedOriginStore 2).filter (fun b => b.TxIDOrigin == "t0" &&
        b.VOutNumberOrigin == 0)).length = 2 ∧
    (updateVOutIsUsed 2 sharedOriginStore).2 = none ∧
    ((updateVOutIsUsed 2 sharedOriginStore).1.vout.filter
        (fun a => a.TxID == "t0" && a.Number == 0)).length = 2 := by
  decide

/-- C8, amended: when no output is referred to by more than one input of the height,
`updateVOutIsUsed` returns no error and the output relation afterwards is, up to the order of
rows, the old one with `is_used` set to 1 on exactly the rows an input of the height refers to
(every other column of every row is preserved, every identity occurs as often as before); the
rows no input refers to are unchanged, in their old order, and no other relation changes. -/
theorem updateVOutIsUsed_sets_flag_only (height : Int) (s : Store)
    (h : ∀ a ∈ s.vout, ((vinsAt s height).filter (fun b => spends b a)).length ≤ 1) :
    (updateVOutIsUsed height s).2 = none ∧
    List.Perm (updateVOutIsUsed height s).1.vout
      (s.vout.map (fun a => if isSpentAt s height a then { a with IsUsed := 1 } else a)) ∧
    (updateVOutIsUsed height s).1.vout.filter (fun a => !isSpentAt s height a) =
      s.vout.filter (fun a => !isSpentAt s height a) ∧
    (updateVOutIsUsed height s).1 = { s with vout := (updateVOutIsUsed height s).1.vout } := by
  refine ⟨rfl, ?_, updateVOutIsUsed_unspent_rows height s, rfl⟩
  have hperm := filter_not_append_map_perm (fun a => isSpentAt s height a) newVOut s.vout
  simp only [updateVOutIsUsed, spentJoin_eq_filter s height h]
  simpa only [newVOut_eq] using hperm

/-- Witness of `updateVOutIsUsed_sets_flag_only`: in `singleSpendStore` the output `("t0", 0)`
is marked and `("t0", 1)` is kept. -/
theorem updateVOutIsUsed_sets_flag_only_witness :
    List.Perm (updateVOutIsUsed 2 singleSpendStore).1.vout
      [{ TxID := "t0", Number := 0, Value := 50, Address := "A", BlockHeight := 1,
         Timestamp := 10, IsUsed := 1 },
       { TxID := "t0", Number := 1, Value := 9, Address := "C", BlockHeight := 1,
         Timestamp := 10 }] :=
  (updateVOutIsUsed_sets_flag_only 2 singleSpendStore (by decide)).2.1

/-! ## Failure of `UpdateBlock` -/

theorem mem_updateVOutIsUsed (height : Int) (s : Store) (v : VOut) :
    v ∈ (updateVOutIsUsed height s).1.vout ↔
      ∃ a ∈ s.vout, v = if isSpentAt s height a then newVOut a else a := by
  simp only [updateVOutIsUsed, List.mem_append, List.mem_filter, List.mem_map, mem_spentJoin]
  constructor
  · rintro (⟨hv, hn⟩ | ⟨a, ⟨ha, hs⟩, rfl⟩)
    · refine ⟨v, hv, ?_⟩
      have : isSpentAt s height v = false := by simpa using hn
      simp [this]
    · exact ⟨a, ha, by simp [hs]⟩
  · rintro ⟨a, ha, rfl⟩
    by_cases hs : isSpentAt s height a = true
    · exact Or.inr ⟨a, ⟨ha, hs⟩, by simp [hs]⟩
    · simp only [Bool.not_eq_true] at hs
      exact Or.inl (by simp [hs, ha])

theorem vinsAt_updateVOutIsUsed (height h : Int) (s : Store) :
    vinsAt (updateVOutIsUsed height s).1 h = vinsAt s h := rfl

theorem mem_voutsAt_address_updateVOutIsUsed (height h : Int) (s : Store) (x : String) :
    x ∈ (voutsAt (updateVOutIsUsed height s).1 h).map (fun v => v.Address) ↔
      x ∈ (voutsAt s h).map (fun v => v.Address) := by
  simp only [voutsAt, List.mem_map, List.mem_filter, mem_updateVOutIsUsed]
  constructor
  · rintro ⟨v, ⟨⟨a, ha, rfl⟩, hh⟩, rfl⟩
    refine ⟨a, ⟨ha, ?_⟩, ?_⟩
    · by_cases hs : isSpentAt s height a = true
      · simpa [hs, newVOut] using hh
      · simpa [hs] using hh
    · by_cases hs : isSpentAt s height a = true
      · simp [hs, newVOut]
      · simp [hs]
  · rintro ⟨a, ⟨ha, hh⟩, rfl⟩
    refine ⟨_, ⟨⟨a, ha, rfl⟩, ?_⟩, ?_⟩
    · by_cases hs : isSpentAt s height a = true
      · simpa [hs, newVOut] using hh
      · simpa [hs] using hh
    · by_cases hs : isSpentAt s height a = true
      · simp [hs, newVOut]
      · simp [hs]

theorem contains_string_iff (l : List String) (x : String) : l.contains x = true ↔ x ∈ l := by
  simp

theorem contains_touched_updateVOutIsUsed (height h : Int) (s : Store) (x : String) :
    (touchedAddresses (updateVOutIsUsed height s).1 h).contains x =
      (touchedAddresses s h).contains x := by
  rw [Bool.eq_iff_iff]
  simp only [touchedAddresses, contains_string_iff, List.mem_append,
    mem_voutsAt_address_updateVOutIsUsed, vinsAt_updateVOutIsUsed]

theorem untouchedRows_updateVOutIsUsed (height h : Int) (s : Store) :
    untouchedRows (updateVOutIsUsed height s).1 h = untouchedRows s h := by
  simp only [untouchedRows, contains_touched_updateVOutIsUsed]
  rfl

theorem touchedRows_updateVOutIsUsed (height h : Int) (s : Store) :
    touchedRows (updateVOutIsUsed height s).1 h = touchedRows s h := by
  simp only [touchedRows, contains_touched_updateVOutIsUsed]
  rfl

theorem addressList_updateVOutIsUsed (height : Int) (data : BSVBlockData) (s : Store) :
    addressList data (updateVOutIsUsed height s).1 = addressList data s := by
  simp only [addressList, touchedRows_updateVOutIsUsed]

theorem updateAddressTable_of_neg (data : BSVBlockData) (s : Store)
    (h : (addressList data s).any (fun v => decide (v.Value < 0)) = true) :
    updateAddressTable data s =
      ({ s with address := untouchedRows s data.Block.Height }, some "Value < 0 ") := by
  unfold updateAddressTable
  simp only [h, if_true]

theorem updateAddressTable_of_nonneg (data : BSVBlockData) (s : Store)
    (h : (addressList data s).any (fun v => decide (v.Value < 0)) = false) :
    updateAddressTable data s =
      ({ s with address := untouchedRows s data.Block.Height ++ addressList data s },
        none) := by
  unfold updateAddressTable
  simp only [h, Bool.false_eq_true, if_false]

theorem UpdateBlock_eq (data : BSVBlockData) (s : Store) :
    UpdateBlock data s =
      if (addressList data (updateVOutIsUsed data.Block.Height s).1).any
          (fun v => decide (v.Value < 0)) then
        ((updateAddressTable data (updateVOutIsUsed data.Block.Height s).1).1, some "Value < 0 ")
      else
        updateCoinbaseAddressCount data.Block.Height
          (updateAddressTable data (updateVOutIsUsed data.Block.Height s).1).1 := by
  have h1 : UpdateBlock data s =
      match updateAddressTable data (updateVOutIsUsed data.Block.Height s).1 with
      | (s2, some err) => (s2, some err)
      | (s2, none) => updateCoinbaseAddressCount data.Block.Height s2 := rfl
  rw [h1]
  by_cases hneg : (addressList data (updateVOutIsUsed data.Block.Height s).1).any
      (fun v => decide (v.Value < 0)) = true
  · rw [if_pos hneg, updateAddressTable_of_neg _ _ hneg]
  · rw [if_neg hneg]
    simp only [Bool.not_eq_true] at hneg
    rw [updateAddressTable_of_nonneg _ _ hneg]

/-- C3, refuted as stated: `UpdateBlock` fails on `overdrawnBlock` with the negative-balance
error, and the store seen through the transaction handle after the call differs from the one
before it: the output `("t0", 0)` is marked spent and the record of address "A" is gone. -/
theorem UpdateBlock_error_leaves_changes :
    (UpdateBlock overdrawnBlock overdrawnStore).2 = some "Value < 0 " ∧
    (UpdateBlock overdrawnBlock overdrawnStore).1 ≠ overdrawnStore ∧
    (UpdateBlock overdrawnBlock overdrawnStore).1.address = [] ∧
    ((UpdateBlock overdrawnBlock overdrawnStore).1.vout.filter
        (fun a => a.TxID == "t0" && a.Number == 0)).map (fun a => a.IsUsed) = [1] := by
  decide

/-- C3, amended: when `UpdateBlock` returns the negative-balance error of `updateAddressTable`,
the store seen through the transaction handle is the old one with the statements issued so far
applied and not undone: the outputs are as `updateVOutIsUsed` left them (those an input of the
height refers to are marked spent) and the records of all addresses touched at the height are
deleted; the miner, input and block relations are unchanged. -/
theorem UpdateBlock_error_state (data : BSVBlockData) (s : Store)
    (h : (UpdateBlock data s).2 = some "Value < 0 ") :
    (UpdateBlock data s).1.vout = (updateVOutIsUsed data.Block.Height s).1.vout ∧
    (∀ a ∈ (UpdateBlock data s).1.vout, isSpentAt s data.Block.Height a = true → a.IsUsed = 1) ∧
    (UpdateBlock data s).1.address = untouchedRows s data.Block.Height ∧
    (∀ r ∈ (UpdateBlock data s).1.address,
      r.Address ∉ touchedAddresses s data.Block.Height) ∧
    (UpdateBlock data s).1.mining = s.mining ∧
    (UpdateBlock data s).1.vin = s.vin ∧
    (UpdateBlock data s).1.block = s.block := by
  rw [UpdateBlock_eq] at h ⊢
  split at h
  · rename_i hneg
    rw [if_pos hneg, updateAddressTable_of_neg _ _ hneg]
    refine ⟨rfl, ?_, untouchedRows_updateVOutIsUsed _ _ s, ?_, rfl, rfl, rfl⟩
    · intro a ha hs
      exact (spent_marked_updateVOutIsUsed data.Block.Height s) a ha hs
    · intro r hr
      have hr' : r ∈ untouchedRows s data.Block.Height := by
        rw [← untouchedRows_updateVOutIsUsed data.Block.Height data.Block.Height s]
        exact hr
      have := (List.mem_filter.1 hr').2
      simpa using this
  · simp [updateCoinbaseAddressCount] at h

/-- Witness of `UpdateBlock_error_state` on `overdrawnBlock`. -/
theorem UpdateBlock_error_state_witness :
    (UpdateBlock overdrawnBlock overdrawnStore).2 = some "Value < 0 " ∧
    (UpdateBlock overdrawnBlock overdrawnStore).1.address =
      untouchedRows overdrawnStore overdrawnBlock.Block.Height ∧
    (UpdateBlock overdrawnBlock overdrawnStore).1.mining = overdrawnStore.mining :=
  ⟨by decide, (UpdateBlock_error_state overdrawnBlock overdrawnStore (by decide)).2.2.1,
    (UpdateBlock_error_state overdrawnBlock overdrawnStore (by decide)).2.2.2.2.1⟩

/-! ## Machine integers -/

theorem int64_of_inInt64 (x : Int) (h : InInt64 x) : int64 x = x := by
  unfold int64
  unfold InInt64 at h
  omega

theorem inInt64_int64 (x : Int) : InInt64 (int64 x) := by
  unfold int64 InInt64
  omega

theorem int64_int64 (x : Int) : int64 (int64 x) = int64 x := by
  unfold int64
  omega

theorem int64_add_int64_left (x y : Int) : int64 (int64 x + y) = int64 (x + y) := by
  unfold int64
  omega

theorem int64_add_int64_right (x y : Int) : int64 (x + int64 y) = int64 (x + y) := by
  unfold int64
  omega

theorem int64_sub_int64_right (x y : Int) : int64 (x - int64 y) = int64 (x - y) := by
  unfold int64
  omega

theorem int64_zero : int64 0 = 0 := by decide

/-! ## Go maps -/

theorem mapGet_mapAdd (m : List (String × Int)) (k k' : String) (x : Int) :
    mapGet (mapAdd m k x) k' = mapGet m k' + if k = k' then x else 0 := by
  induction m with
  | nil => by_cases h : k = k' <;> simp [mapAdd, mapGet, h]
  | cons kv m ih =>
    obtain ⟨k0, v0⟩ := kv
    by_cases h0 : k0 = k
    · subst h0
      by_cases h : k0 = k' <;> simp [mapAdd, mapGet, h]
    · by_cases h : k0 = k'
      · subst h
        simp [mapAdd, mapGet, h0, Ne.symm h0]
      · simp [mapAdd, mapGet, h0, h, ih]

theorem mapGet_mapAdd64 (m : List (String × Int)) (k k' : String) (x : Int) :
    mapGet (mapAdd64 m k x) k' = if k = k' then int64 (mapGet m k' + x) else mapGet m k' := by
  induction m with
  | nil => by_cases h : k = k' <;> simp [mapAdd64, mapGet, h]
  | cons kv m ih =>
    obtain ⟨k0, v0⟩ := kv
    by_cases h0 : k0 = k
    · subst h0
      by_cases h : k0 = k' <;> simp [mapAdd64, mapGet, h]
    · by_cases h : k0 = k'
      · subst h
        simp [mapAdd64, mapGet, h0, Ne.symm h0]
      · simp [mapAdd64, mapGet, h0, h, ih]

theorem int64_values_mapAdd64 (m : List (String × Int)) (k : String) (x : Int)
    (h : ∀ kv ∈ m, int64 kv.2 = kv.2) : ∀ kv ∈ mapAdd64 m k x, int64 kv.2 = kv.2 := by
  induction m with
  | nil =>
    intro kv hkv
    simp only [mapAdd64, List.mem_singleton] at hkv
    subst hkv
    exact int64_int64 _
  | cons kv0 m ih =>
    obtain ⟨k0, v0⟩ := kv0
    intro kv hkv
    by_cases h0 : k0 = k
    · simp only [mapAdd64, h0, if_true, List.mem_cons] at hkv
      rcases hkv with rfl | hkv
      · exact int64_int64 _
      · exact h kv (List.mem_cons_of_mem _ hkv)
    · simp only [mapAdd64, h0, if_false, List.mem_cons] at hkv
      rcases hkv with rfl | hkv
      · exact h _ (List.mem_cons_self _ _)
      · exact ih (fun q hq => h q (List.mem_cons_of_mem _ hq)) kv hkv

theorem int64_mapGet (m : List (String × Int)) (k : String)
    (h : ∀ kv ∈ m, int64 kv.2 = kv.2) : int64 (mapGet m k) = mapGet m k := by
  induction m with
  | nil => exact int64_zero
  | cons kv0 m ih =>
    obtain ⟨k0, v0⟩ := kv0
    by_cases h0 : k0 = k
    · simp only [mapGet, h0, if_true]
      exact h (k0, v0) (List.mem_cons_self _ _)
    · simp only [mapGet, h0, if_false]
      exact ih (fun q hq => h q (List.mem_cons_of_mem _ hq))

/-! ## Fee accounting: `updateVInAddressAndValue` -/

theorem resolveRow_foldl_TxID (rows : List (String × Int)) (v : VIn)
    (m : List (String × Int)) : (rows.foldl resolveRow (v, m)).1.TxID = v.TxID := by
  induction rows generalizing v m with
  | nil => rfl
  | cons row rows ih => rw [List.foldl_cons, resolveRow, ih]

theorem int64_values_resolveRow_foldl (rows : List (String × Int)) (v : VIn)
    (m : List (String × Int)) (h : ∀ kv ∈ m, int64 kv.2 = kv.2) :
    ∀ kv ∈ (rows.foldl resolveRow (v, m)).2, int64 kv.2 = kv.2 := by
  induction rows generalizing v m with
  | nil => exact h
  | cons row rows ih =>
    rw [List.foldl_cons, resolveRow]
    exact ih _ _ (int64_values_mapAdd64 m _ _ h)

theorem int64_values_resolveVIn_foldl (s : Store) (vs : List VIn) (acc : List VIn)
    (m : List (String × Int)) (h : ∀ kv ∈ m, int64 kv.2 = kv.2) :
    ∀ kv ∈ (vs.foldl (resolveVIn s) (acc, m)).2, int64 kv.2 = kv.2 := by
  induction vs generalizing acc m with
  | nil => exact h
  | cons v vs ih =>
    rw [List.foldl_cons, resolveVIn]
    exact ih _ _ (int64_values_resolveRow_foldl _ v m h)

theorem mapGet_resolveRow_foldl (rows : List (String × Int)) (v : VIn)
    (m : List (String × Int)) (k : String) :
    int64 (mapGet (rows.foldl resolveRow (v, m)).2 k) =
      int64 (mapGet m k + if v.TxID = k then (rows.map (fun r => r.2)).sum else 0) := by
  induction rows generalizing v m with
  | nil => simp
  | cons row rows ih =>
    rw [List.foldl_cons, resolveRow, ih]
    simp only [mapGet_mapAdd64, List.map_cons, List.sum_cons]
    by_cases h : v.TxID = k
    · simp only [h, if_true, int64_add_int64_left, add_assoc]
    · simp only [h, if_false]

theorem mapGet_resolveVIn_foldl (s : Store) (vs : List VIn) (acc : List VIn)
    (m : List (String × Int)) (k : String) :
    int64 (mapGet (vs.foldl (resolveVIn s) (acc, m)).2 k) =
      int64 (mapGet m k + ((vs.filter (fun v => v.TxID == k)).map
        (fun v => ((originRows s v).map (fun r => r.2)).sum)).sum) := by
  induction vs generalizing acc m with
  | nil => simp
  | cons v vs ih =>
    rw [List.foldl_cons, resolveVIn, ih, ← int64_add_int64_left, mapGet_resolveRow_foldl,
      int64_add_int64_left]
    by_cases h : v.TxID = k <;> simp [h, List.filter_cons, add_assoc]

theorem resolvedVIn_TxID (s : Store) (v : VIn) : (resolvedVIn s v).TxID = v.TxID := by
  unfold resolvedVIn
  generalize originRows s v = rows
  induction rows generalizing v with
  | nil => rfl
  | cons row rows ih => rw [List.foldl_cons, ih]

theorem resolvedVIn_ValueOrigin (s : Store) (v : VIn) (h0 : v.ValueOrigin = 0)
    (h1 : (originRows s v).length ≤ 1) :
    (resolvedVIn s v).ValueOrigin = ((originRows s v).map (fun r => r.2)).sum := by
  unfold resolvedVIn
  match hr : originRows s v, h1 with
  | [], _ => simpa using h0
  | [r], _ => simp
  | _ :: _ :: _, h => simp [hr] at h

theorem inputValue_map_resolvedVIn (s : Store) (vs : List VIn) (k : String)
    (h0 : ∀ v ∈ vs, v.ValueOrigin = 0) (h1 : ∀ v ∈ vs, (originRows s v).length ≤ 1) :
    inputValue (vs.map (resolvedVIn s)) k =
      ((vs.filter (fun v => v.TxID == k)).map
        (fun v => ((originRows s v).map (fun r => r.2)).sum)).sum := by
  induction vs with
  | nil => rfl
  | cons v vs ih =>
    have ihv := ih (fun x hx => h0 x (List.mem_cons_of_mem v hx))
      (fun x hx => h1 x (List.mem_cons_of_mem v hx))
    have hv := resolvedVIn_ValueOrigin s v (h0 v (List.mem_cons_self v vs))
      (h1 v (List.mem_cons_self v vs))
    unfold inputValue at ihv ⊢
    by_cases h : v.TxID = k
    · simp [List.filter_cons, resolvedVIn_TxID, h, hv, ihv]
    · simp [List.filter_cons, resolvedVIn_TxID, h, ihv]

/-- C6, refuted as stated: `wrapFeeBlock` is decoded and its transaction of ordinal 1 has no
input and `VOutValue = 2^64 - 2048`; `updateVInAddressAndValue` succeeds and sets its fee to
2048, which is not `VInValue - VOutValue`.  And in `twinOriginStore` two output rows carry the
identity `("t0", 0)`, with values 50 and 38: the transaction of `twinOriginBlock` that spends
`("t0", 0)` gets `VInValue = 88` while its only input is resolved to the origin value 38. -/
theorem updateVInAddressAndValue_fee_not_exact :
    (Decoded wrapFeeBlock ∧
      (updateVInAddressAndValue emptyStore wrapFeeBlock).2 = none ∧
      (updateVInAddressAndValue emptyStore wrapFeeBlock).1.Transactions.map
          (fun t => (t.Number, t.VInValue, t.VOutValue, t.Fee)) =
        [(0, 0, 50, 0), (1, 0, 18446744073709549568, 2048)] ∧
      ∃ t ∈ (updateVInAddressAndValue emptyStore wrapFeeBlock).1.Transactions,
        t.Number ≠ 0 ∧ t.Fee ≠ t.VInValue - (t.VOutValue : Int)) ∧
    (Decoded twinOriginBlock ∧
      (updateVInAddressAndValue twinOriginStore twinOriginBlock).2 = none ∧
      (updateVInAddressAndValue twinOriginStore twinOriginBlock).1.VIns.map
          (fun v => (v.TxID, v.ValueOrigin)) = [("t1", 0), ("t2", 38)] ∧
      (updateVInAddressAndValue twinOriginStore twinOriginBlock).1.Transactions.map
          (fun t => (t.TxID, t.Number, t.VInValue)) = [("t1", 0, 0), ("t2", 1, 88)] ∧
      ∃ t ∈ (updateVInAddressAndValue twinOriginStore twinOriginBlock).1.Transactions,
        t.Number ≠ 0 ∧ t.VInValue ≠
          inputValue (updateVInAddressAndValue twinOriginStore twinOriginBlock).1.VIns
            t.TxID) := by
  unfold Decoded
  decide

/-- C6, amended: on a decoded block whose origin references each match at most one stored
output, `updateVInAddressAndValue` succeeds and every transaction with ordinal number other than
0 has `VInValue` equal to the `int64` sum of the resolved origin values of the inputs carrying
its tx-id and `Fee` equal to the `int64` difference `VInValue - VOutValue`: these are the exact
sum and the exact difference whenever those lie in the `int64` range.  A transaction with
ordinal number 0 has `Fee = 0`. -/
theorem updateVInAddressAndValue_fee (s : Store) (data : BSVBlockData)
    (hdec : Decoded data) (huniq : OriginsUnique s data) :
    (updateVInAddressAndValue s data).2 = none ∧
    ∀ t ∈ (updateVInAddressAndValue s data).1.Transactions,
      (t.Number ≠ 0 →
        t.VInValue = int64 (inputValue (updateVInAddressAndValue s data).1.VIns t.TxID) ∧
        t.Fee = int64 (t.VInValue - (t.VOutValue : Int)) ∧
        (InInt64 (inputValue (updateVInAddressAndValue s data).1.VIns t.TxID) →
          t.VInValue = inputValue (updateVInAddressAndValue s data).1.VIns t.TxID ∧
          (InInt64 (t.VInValue - (t.VOutValue : Int)) →
            t.Fee = t.VInValue - (t.VOutValue : Int)))) ∧
      (t.Number = 0 → t.Fee = 0) := by
  refine ⟨rfl, ?_⟩
  intro t ht
  rw [updateVInAddressAndValue_VIns,
    inputValue_map_resolvedVIn s data.VIns t.TxID (fun v hv => (hdec.1 v hv).2) huniq]
  simp only [updateVInAddressAndValue, List.mem_map] at ht
  obtain ⟨t0, ht0, rfl⟩ := ht
  by_cases hn : t0.Number = 0
  · have hfee := (hdec.2 t0 ht0).2
    simp [setFee, hn, hfee]
  · have hin : mapGet (data.VIns.foldl (resolveVIn s) ([], [])).2 t0.TxID =
        int64 (((data.VIns.filter (fun v => v.TxID == t0.TxID)).map
          (fun v => ((originRows s v).map (fun r => r.2)).sum)).sum) := by
      rw [← int64_mapGet _ _ (int64_values_resolveVIn_foldl s data.VIns [] []
        (fun kv hkv => absurd hkv (List.not_mem_nil kv))), mapGet_resolveVIn_foldl]
      simp [mapGet]
    have hset : setFee (data.VIns.foldl (resolveVIn s) ([], [])).2 t0 =
        { t0 with
          VInValue := mapGet (data.VIns.foldl (resolveVIn s) ([], [])).2 t0.TxID
          Fee := int64 (mapGet (data.VIns.foldl (resolveVIn s) ([], [])).2 t0.TxID -
            int64 (t0.VOutValue : Int)) } := by
      simp [setFee, hn]
    rw [hset]
    refine ⟨fun _ => ⟨hin, ?_, fun hr => ⟨?_, fun hr' => ?_⟩⟩, fun h0 => absurd h0 hn⟩
    · exact int64_sub_int64_right _ _
    · show mapGet (data.VIns.foldl (resolveVIn s) ([], [])).2 t0.TxID = _
      rw [hin]
      exact int64_of_inInt64 _ hr
    · show int64 (mapGet (data.VIns.foldl (resolveVIn s) ([], [])).2 t0.TxID -
        int64 (t0.VOutValue : Int)) = _
      rw [int64_sub_int64_right]
      exact int64_of_inInt64 _ hr'

/-- Witness of `updateVInAddressAndValue_fee` on `feeBlock`: the fee of its second transaction
is 50 + 30 - 75. -/
theorem updateVInAddressAndValue_fee_witness :
    Decoded feeBlock ∧ OriginsUnique feeStore feeBlock ∧
    (updateVInAddressAndValue feeStore feeBlock).1.Transactions.map (fun t => t.Fee) = [0, 5] ∧
    ∀ t ∈ (updateVInAddressAndValue feeStore feeBlock).1.Transactions,
      (t.Number ≠ 0 →
        t.VInValue = int64 (inputValue (updateVInAddressAndValue feeStore feeBlock).1.VIns
          t.TxID) ∧
        t.Fee = int64 (t.VInValue - (t.VOutValue : Int)) ∧
        (InInt64 (inputValue (updateVInAddressAndValue feeStore feeBlock).1.VIns t.TxID) →
          t.VInValue = inputValue (updateVInAddressAndValue feeStore feeBlock).1.VIns t.TxID ∧
          (InInt64 (t.VInValue - (t.VOutValue : Int)) →
            t.Fee = t.VInValue - (t.VOutValue : Int)))) ∧
      (t.Number = 0 → t.Fee = 0) :=
  have hdec : Decoded feeBlock := by unfold Decoded; decide
  have huniq : OriginsUnique feeStore feeBlock := by unfold OriginsUnique; decide
  ⟨hdec, huniq, by decide, (updateVInAddressAndValue_fee feeStore feeBlock hdec huniq).2⟩

/-! ## Go maps and grouped sums -/

theorem keys_mapAdd (m : List (String × Int)) (k : String) (x : Int) (k' : String) :
    k' ∈ (mapAdd m k x).map Prod.fst ↔ k' = k ∨ k' ∈ m.map Prod.fst := by
  induction m with
  | nil => simp [mapAdd]
  | cons kv m ih =>
    obtain ⟨k0, v0⟩ := kv
    by_cases h0 : k0 = k
    · subst h0
      simp [mapAdd]
    · simp only [mapAdd, h0, if_false, List.map_cons, List.mem_cons, ih]
      tauto

theorem nodup_keys_mapAdd (m : List (String × Int)) (k : String) (x : Int)
    (h : (m.map Prod.fst).Nodup) : ((mapAdd m k x).map Prod.fst).Nodup := by
  induction m with
  | nil => simp [mapAdd]
  | cons kv m ih =>
    obtain ⟨k0, v0⟩ := kv
    simp only [List.map_cons, List.nodup_cons] at h
    by_cases h0 : k0 = k
    · subst h0
      simpa [mapAdd] using h
    · simp only [mapAdd, h0, if_false, List.map_cons, List.nodup_cons, keys_mapAdd]
      refine ⟨?_, ih h.2⟩
      simpa [h0] using h.1

theorem mapGet_of_mem (m : List (String × Int)) (k : String) (v : Int)
    (hnd : (m.map Prod.fst).Nodup) (h : (k, v) ∈ m) : mapGet m k = v := by
  induction m with
  | nil => simp at h
  | cons kv m ih =>
    obtain ⟨k0, v0⟩ := kv
    simp only [List.map_cons, List.nodup_cons] at hnd
    rcases List.mem_cons.1 h with h | h
    · cases h
      simp [mapGet]
    · have hne : k0 ≠ k := by
        intro he
        subst he
        exact hnd.1 (List.mem_map.2 ⟨(k0, v), h, rfl⟩)
      simp [mapGet, hne, ih hnd.2 h]

theorem mem_of_mem_keys (m : List (String × Int)) (k : String)
    (h : k ∈ m.map Prod.fst) : (k, mapGet m k) ∈ m := by
  induction m with
  | nil => simp at h
  | cons kv m ih =>
    obtain ⟨k0, v0⟩ := kv
    by_cases h0 : k0 = k
    · subst h0
      simp [mapGet]
    · have : k ∈ m.map Prod.fst := by
        simp only [List.map_cons, List.mem_cons] at h
        exact h.resolve_left (fun he => h0 he.symm)
      simp only [mapGet, h0, if_false]
      exact List.mem_cons_of_mem _ (ih this)

theorem keys_foldl_mapAdd {α : Type} (f : α → String) (g : α → Int) (l : List α)
    (m : List (String × Int)) (k : String) :
    k ∈ (l.foldl (fun m v => mapAdd m (f v) (g v)) m).map Prod.fst ↔
      k ∈ l.map f ∨ k ∈ m.map Prod.fst := by
  induction l generalizing m with
  | nil => simp
  | cons v l ih =>
    rw [List.foldl_cons, ih, keys_mapAdd]
    simp only [List.map_cons, List.mem_cons]
    tauto

theorem nodup_keys_foldl_mapAdd {α : Type} (f : α → String) (g : α → Int) (l : List α)
    (m : List (String × Int)) (h : (m.map Prod.fst).Nodup) :
    ((l.foldl (fun m v => mapAdd m (f v) (g v)) m).map Prod.fst).Nodup := by
  induction l generalizing m with
  | nil => exact h
  | cons v l ih => exact ih _ (nodup_keys_mapAdd m (f v) (g v) h)

theorem mapGet_foldl_mapAdd {α : Type} (f : α → String) (g : α → Int) (l : List α)
    (m : List (String × Int)) (k : String) :
    mapGet (l.foldl (fun m v => mapAdd m (f v) (g v)) m) k =
      mapGet m k + ((l.filter (fun v => f v == k)).map g).sum := by
  induction l generalizing m with
  | nil => simp
  | cons v l ih =>
    rw [List.foldl_cons, ih, mapGet_mapAdd]
    by_cases h : f v = k <;> simp [h, List.filter_cons, add_assoc]

theorem int64_add_congr (v x y : Int) (h : int64 x = int64 y) :
    int64 (int64 v + x) = int64 (v + y) := by
  unfold int64 at *
  omega

theorem mapAdd64_map_int64 (m : List (String × Int)) (k : String) (x y : Int)
    (h : int64 x = int64 y) :
    mapAdd64 (m.map (fun kv => (kv.1, int64 kv.2))) k x =
      (mapAdd m k y).map (fun kv => (kv.1, int64 kv.2)) := by
  induction m with
  | nil => simp [mapAdd64, mapAdd, h]
  | cons kv m ih =>
    obtain ⟨k0, v0⟩ := kv
    by_cases h0 : k0 = k
    · simp [mapAdd64, mapAdd, h0, int64_add_congr v0 x y h]
    · simp [mapAdd64, mapAdd, h0, ih]

theorem foldl_mapAdd64_map_int64 {α : Type} (f : α → String) (g' g : α → Int)
    (hg : ∀ v, int64 (g' v) = int64 (g v)) (l : List α) (m : List (String × Int)) :
    l.foldl (fun m v => mapAdd64 m (f v) (g' v)) (m.map (fun kv => (kv.1, int64 kv.2))) =
      (l.foldl (fun m v => mapAdd m (f v) (g v)) m).map (fun kv => (kv.1, int64 kv.2)) := by
  induction l generalizing m with
  | nil => rfl
  | cons v l ih =>
    rw [List.foldl_cons, List.foldl_cons, mapAdd64_map_int64 m (f v) _ _ (hg v), ih]

theorem mapGet_map_int64 (m : List (String × Int)) (k : String) :
    mapGet (m.map (fun kv => (kv.1, int64 kv.2))) k = int64 (mapGet m k) := by
  induction m with
  | nil => exact int64_zero.symm
  | cons kv m ih =>
    obtain ⟨k0, v0⟩ := kv
    by_cases h0 : k0 = k
    · simp [mapGet, h0]
    · simp [mapGet, h0, ih]

theorem addressValueMap_eq (data : BSVBlockData) :
    addressValueMap data = (addressDeltas data).map (fun kv => (kv.1, int64 kv.2)) := by
  have h1 := foldl_mapAdd64_map_int64 (fun v : VOut => v.Address)
    (fun v => int64 (v.Value : Int)) (fun v => (v.Value : Int)) (fun v => int64_int64 _)
    data.VOuts []
  have h2 := foldl_mapAdd64_map_int64 (fun v : VIn => v.AddressOrigin)
    (fun v => -(int64 v.ValueOrigin)) (fun v => -v.ValueOrigin)
    (fun v => by
      show int64 (-(int64 v.ValueOrigin)) = int64 (-v.ValueOrigin)
      unfold int64
      omega) data.VIns
    (data.VOuts.foldl (fun m v => mapAdd m v.Address (v.Value : Int)) [])
  unfold addressValueMap addressDeltas
  rw [← h2, ← h1]
  rfl

theorem mapGet_addressDeltas (data : BSVBlockData) (a : String) :
    mapGet (addressDeltas data) a = credit data.VOuts a - debit data.VIns a := by
  unfold addressDeltas credit debit
  rw [mapGet_foldl_mapAdd (fun v : VIn => v.AddressOrigin) (fun v => -v.ValueOrigin),
    mapGet_foldl_mapAdd (fun v : VOut => v.Address) (fun v => (v.Value : Int))]
  have hneg : ∀ l : List VIn, (l.map (fun v => -v.ValueOrigin)).sum =
      -(l.map (fun v => v.ValueOrigin)).sum := by
    intro l
    induction l with
    | nil => rfl
    | cons v l ih => simp only [List.map_cons, List.sum_cons, ih]; ring
  rw [hneg]
  simp [mapGet]
  ring

theorem mapGet_addressValueMap (data : BSVBlockData) (a : String) :
    mapGet (addressValueMap data) a = int64 (credit data.VOuts a - debit data.VIns a) := by
  rw [addressValueMap_eq, mapGet_map_int64, mapGet_addressDeltas]

theorem keys_addressValueMap (data : BSVBlockData) (a : String) :
    a ∈ (addressValueMap data).map Prod.fst ↔ a ∈ blockAddresses data := by
  rw [addressValueMap_eq, List.map_map]
  show a ∈ (addressDeltas data).map Prod.fst ↔ _
  unfold addressDeltas blockAddresses
  rw [keys_foldl_mapAdd (fun v : VIn => v.AddressOrigin) (fun v => -v.ValueOrigin),
    keys_foldl_mapAdd (fun v : VOut => v.Address) (fun v => (v.Value : Int))]
  simp only [List.map_nil, List.not_mem_nil, or_false, List.mem_append]
  tauto

theorem nodup_keys_addressValueMap (data : BSVBlockData) :
    ((addressValueMap data).map Prod.fst).Nodup := by
  rw [addressValueMap_eq, List.map_map]
  show ((addressDeltas data).map Prod.fst).Nodup
  unfold addressDeltas
  exact nodup_keys_foldl_mapAdd _ _ _ _ (nodup_keys_foldl_mapAdd _ _ _ _ List.nodup_nil)


/-! ## The address table: `updateAddressTable` -/

theorem filter_key_eq_find {α : Type} (key : α → String) (l : List α)
    (hnd : (l.map key).Nodup) (a : String) :
    l.filter (fun x => key x == a) = (l.find? (fun x => key x == a)).toList := by
  induction l with
  | nil => rfl
  | cons x l ih =>
    simp only [List.map_cons, List.nodup_cons] at hnd
    by_cases h : key x = a
    · have hnil : l.filter (fun y => key y == a) = [] := by
        rw [List.filter_eq_nil_iff]
        intro y hy hya
        have : key y = a := by simpa using hya
        exact hnd.1 (List.mem_map.2 ⟨y, hy, this.trans h.symm⟩)
      simp [List.filter_cons, h, hnil]
    · simp [List.filter_cons, h, ih hnd.2]

theorem getAddress_address (rows : List Address) (a : String) (r : Address)
    (h : getAddress rows a = some r) : r.Address = a := by
  have := List.find?_some h
  simpa using this

theorem getAddress_mem (rows : List Address) (a : String) (r : Address)
    (h : getAddress rows a = some r) : r ∈ rows :=
  List.mem_of_find?_eq_some h

theorem getAddress_eq_none (rows : List Address) (a : String)
    (h : getAddress rows a = none) : ∀ r ∈ rows, r.Address ≠ a := by
  intro r hr he
  have := List.find?_eq_none.1 h r hr
  simp [he] at this

theorem addressList_eq (data : BSVBlockData) (s : Store) :
    addressList data s =
      (touchedRows s data.Block.Height).map (fun r =>
        { Address := r.Address
          BirthTimestamp := r.BirthTimestamp
          LatestTxTimestamp := data.Block.Timestamp
          Value := int64 (r.Value + mapGet (addressValueMap data) r.Address) : Address }) ++
      ((addressValueMap data).filter (fun kv =>
          !((touchedRows s data.Block.Height).map (fun r => r.Address)).contains kv.1)).map
        (fun kv =>
          { Address := kv.1
            BirthTimestamp := data.Block.Timestamp
            LatestTxTimestamp := data.Block.Timestamp
            Value := kv.2 : Address }) := rfl

theorem untouchedRows_filter_touched (s : Store) (height : Int) (a : String)
    (ha : a ∈ touchedAddresses s height) :
    (untouchedRows s height).filter (fun r => r.Address == a) = [] := by
  rw [List.filter_eq_nil_iff]
  intro r hr hra
  have hra' : r.Address = a := by simpa using hra
  have := (List.mem_filter.1 hr).2
  simp [hra', ha] at this

theorem touchedRows_filter_touched (s : Store) (height : Int) (a : String)
    (ha : a ∈ touchedAddresses s height) (hkey : AddressKey s) :
    (touchedRows s height).filter (fun r => r.Address == a) =
      (getAddress s.address a).toList := by
  unfold touchedRows getAddress
  rw [List.filter_filter, ← filter_key_eq_find (fun r : Address => r.Address) s.address hkey a]
  apply List.filter_congr
  intro r _
  by_cases hra : r.Address = a
  · simp [hra, ha]
  · simp [hra]

theorem contains_touchedRows (s : Store) (height : Int) (a : String)
    (ha : a ∈ touchedAddresses s height) :
    ((touchedRows s height).map (fun r => r.Address)).contains a =
      (getAddress s.address a).isSome := by
  rw [Bool.eq_iff_iff, contains_string_iff]
  constructor
  · intro h
    rcases List.mem_map.1 h with ⟨r, hr, hra⟩
    rcases hg : getAddress s.address a with _ | r0
    · exact absurd hra (getAddress_eq_none _ _ hg r (List.mem_filter.1 hr).1)
    · rfl
  · intro h
    rcases hg : getAddress s.address a with _ | r0
    · simp [hg] at h
    · refine List.mem_map.2 ⟨r0, ?_, getAddress_address _ _ _ hg⟩
      refine List.mem_filter.2 ⟨getAddress_mem _ _ _ hg, ?_⟩
      simp [getAddress_address _ _ _ hg, ha]

theorem filter_address_applied (data : BSVBlockData) (s : Store) (a : String)
    (hst : AddressesStored s data) (hkey : AddressKey s) (ha : a ∈ blockAddresses data) :
    (untouchedRows s data.Block.Height ++ addressList data s).filter
      (fun r => r.Address == a) = [appliedRecord data s a] := by
  have hdb : a ∈ touchedAddresses s data.Block.Height := hst.2 ha
  have hm : (addressValueMap data).filter (fun kv => kv.1 == a) =
      [(a, mapGet (addressValueMap data) a)] := by
    rw [filter_key_eq_find (fun kv : String × Int => kv.1) _ (nodup_keys_addressValueMap data) a]
    have hmem := mem_of_mem_keys _ a ((keys_addressValueMap data a).2 ha)
    rcases hf : List.find? (fun kv : String × Int => kv.1 == a) (addressValueMap data)
      with _ | kv
    · have := List.find?_eq_none.1 hf _ hmem
      simp at this
    · have hk : kv.1 = a := by
        have := List.find?_some hf
        simpa using this
      have hv := mapGet_of_mem _ kv.1 kv.2 (nodup_keys_addressValueMap data)
        (List.mem_of_find?_eq_some hf)
      rw [hk] at hv
      simp only [Option.toList]
      congr 1
      exact Prod.ext hk hv.symm
  rw [List.filter_append, untouchedRows_filter_touched s _ a hdb, List.nil_append,
    addressList_eq, List.filter_append, List.filter_map, List.filter_map]
  have h1 : ((fun r : Address => r.Address == a) ∘ fun r : Address =>
      ({ Address := r.Address
         BirthTimestamp := r.BirthTimestamp
         LatestTxTimestamp := data.Block.Timestamp
         Value := int64 (r.Value + mapGet (addressValueMap data) r.Address) } : Address)) =
      fun r => r.Address == a := rfl
  have h2 : ((fun r : Address => r.Address == a) ∘ fun kv : String × Int =>
      ({ Address := kv.1
         BirthTimestamp := data.Block.Timestamp
         LatestTxTimestamp := data.Block.Timestamp
         Value := kv.2 } : Address)) = fun kv => kv.1 == a := rfl
  rw [h1, h2, touchedRows_filter_touched s _ a hdb hkey, List.filter_filter]
  have h3 : (addressValueMap data).filter (fun kv => kv.1 == a &&
      !((touchedRows s data.Block.Height).map (fun r => r.Address)).contains kv.1) =
      ((addressValueMap data).filter (fun kv => kv.1 == a)).filter (fun _ =>
        !(getAddress s.address a).isSome) := by
    rw [List.filter_filter]
    apply List.filter_congr
    intro kv _
    by_cases hk : kv.1 = a
    · rw [hk, contains_touchedRows s _ a hdb]
      simp
    · have hf : (kv.1 == a) = false := by simpa using hk
      simp only [hf, Bool.false_and, Bool.and_false]
  rw [h3, hm]
  unfold appliedRecord
  rcases getAddress s.address a with _ | r0 <;> simp


theorem mem_addressList_address (data : BSVBlockData) (s : Store) (hst : AddressesStored s data)
    (r : Address) (hr : r ∈ addressList data s) : r.Address ∈ blockAddresses data := by
  rw [addressList_eq] at hr
  rcases List.mem_append.1 hr with h | h
  · rcases List.mem_map.1 h with ⟨r0, hr0, rfl⟩
    apply hst.1
    have := (List.mem_filter.1 hr0).2
    simpa using this
  · rcases List.mem_map.1 h with ⟨kv, hkv, rfl⟩
    exact (keys_addressValueMap data kv.1).1
      (List.mem_map.2 ⟨kv, (List.mem_filter.1 hkv).1, rfl⟩)

theorem appliedRecord_value (data : BSVBlockData) (s : Store) (a : String) :
    (appliedRecord data s a).Value =
      int64 (balance s.address a + credit data.VOuts a - debit data.VIns a) := by
  unfold appliedRecord balance
  rcases hg : getAddress s.address a with _ | r0
  · simp only [mapGet_addressValueMap]
    congr 1
    ring
  · simp only [mapGet_addressValueMap, getAddress_address _ _ _ hg, int64_add_int64_right]
    congr 1
    ring

theorem updateAddressTable_snd (data : BSVBlockData) (s : Store) :
    (updateAddressTable data s).2 =
      if (addressList data s).any (fun v => decide (v.Value < 0)) then some "Value < 0 "
      else none := by
  unfold updateAddressTable
  simp only []
  split <;> rfl

theorem negative_iff (data : BSVBlockData) (s : Store) (hst : AddressesStored s data)
    (hkey : AddressKey s) :
    (addressList data s).any (fun v => decide (v.Value < 0)) = true ↔
      ∃ a ∈ blockAddresses data,
        int64 (balance s.address a + credit data.VOuts a - debit data.VIns a) < 0 := by
  rw [List.any_eq_true]
  constructor
  · rintro ⟨r, hr, hneg⟩
    have ha := mem_addressList_address data s hst r hr
    refine ⟨r.Address, ha, ?_⟩
    have hmem : r ∈ (untouchedRows s data.Block.Height ++ addressList data s).filter
        (fun x => x.Address == r.Address) :=
      List.mem_filter.2 ⟨List.mem_append_right _ hr, by simp⟩
    rw [filter_address_applied data s r.Address hst hkey ha, List.mem_singleton] at hmem
    rw [← appliedRecord_value, ← hmem]
    simpa using hneg
  · rintro ⟨a, ha, hneg⟩
    have hmem : appliedRecord data s a ∈
        (untouchedRows s data.Block.Height ++ addressList data s).filter
          (fun x => x.Address == a) := by
      rw [filter_address_applied data s a hst hkey ha]
      exact List.mem_singleton_self _
    rcases List.mem_filter.1 hmem with ⟨hin, hadr⟩
    have hadr' : (appliedRecord data s a).Address = a := by simpa using hadr
    refine ⟨appliedRecord data s a, ?_, ?_⟩
    · rcases List.mem_append.1 hin with h | h
      · have := (List.mem_filter.1 h).2
        simp [hadr', hst.2 ha] at this
      · exact h
    · rw [← appliedRecord_value] at hneg
      simpa using hneg

/-- C2, refuted as stated.  `wrapBlock` is written to `wrapStore`, which has no negative
balance, and pays 2^63 minor units to "A": no touched address has a negative previous balance
plus credits minus debits, yet `updateAddressTable` returns the negative-balance error, the
`int64` sum having wrapped around.  And `strayBlock`, whose rows are not in `strayStore`, spends
50 of the 100 that "A" holds there: no sum is negative, yet the error is returned, the record of
"A" not being among the rows selected for the block's height. -/
theorem updateAddressTable_error_without_overdraft :
    ((∀ r ∈ wrapStore.address, 0 ≤ r.Value) ∧
      AddressesStored wrapStore wrapBlock ∧ AddressKey wrapStore ∧
      (updateAddressTable wrapBlock wrapStore).2 = some "Value < 0 " ∧
      ¬ ∃ a ∈ blockAddresses wrapBlock,
          balance wrapStore.address a + credit wrapBlock.VOuts a -
            debit wrapBlock.VIns a < 0) ∧
    ((∀ r ∈ strayStore.address, 0 ≤ r.Value) ∧ AddressKey strayStore ∧
      (updateAddressTable strayBlock strayStore).2 = some "Value < 0 " ∧
      ¬ ∃ a ∈ blockAddresses strayBlock,
          balance strayStore.address a + credit strayBlock.VOuts a -
            debit strayBlock.VIns a < 0) := by
  unfold AddressesStored AddressKey
  decide

/-- C2, amended: from a store without negative balances `updateAddressTable` either returns the
negative-balance error or leaves a store in which every balance is at least 0.  When the block
has been written to the store and addresses are keys of `bsv_address`, it returns the error
exactly when, for some address touched by the block, the `int64` value of the previous balance
plus the block's credits minus the block's debits is negative; that is the sign of the exact sum
when the sums of all touched addresses lie in the `int64` range. -/
theorem updateAddressTable_no_negative_balance (data : BSVBlockData) (s : Store)
    (hbal : ∀ r ∈ s.address, 0 ≤ r.Value) :
    ((updateAddressTable data s).2 = some "Value < 0 " ∨
      ((updateAddressTable data s).2 = none ∧
        ∀ r ∈ (updateAddressTable data s).1.address, 0 ≤ r.Value)) ∧
    (AddressesStored s data → AddressKey s →
      ((updateAddressTable data s).2 ≠ none ↔
        ∃ a ∈ blockAddresses data,
          int64 (balance s.address a + credit data.VOuts a - debit data.VIns a) < 0) ∧
      ((∀ a ∈ blockAddresses data,
          InInt64 (balance s.address a + credit data.VOuts a - debit data.VIns a)) →
        ((updateAddressTable data s).2 ≠ none ↔
          ∃ a ∈ blockAddresses data,
            balance s.address a + credit data.VOuts a - debit data.VIns a < 0))) := by
  have hexact : (∀ a ∈ blockAddresses data,
        InInt64 (balance s.address a + credit data.VOuts a - debit data.VIns a)) →
      ((∃ a ∈ blockAddresses data,
          int64 (balance s.address a + credit data.VOuts a - debit data.VIns a) < 0) ↔
        ∃ a ∈ blockAddresses data,
          balance s.address a + credit data.VOuts a - debit data.VIns a < 0) := by
    intro hr
    constructor
    · rintro ⟨a, ha, h⟩
      rw [int64_of_inInt64 _ (hr a ha)] at h
      exact ⟨a, ha, h⟩
    · rintro ⟨a, ha, h⟩
      refine ⟨a, ha, ?_⟩
      rw [int64_of_inInt64 _ (hr a ha)]
      exact h
  by_cases hneg : (addressList data s).any (fun v => decide (v.Value < 0)) = true
  · rw [updateAddressTable_of_neg data s hneg]
    refine ⟨Or.inl rfl, fun hst hkey => ⟨?_, fun hr => ?_⟩⟩
    · rw [← negative_iff data s hst hkey]
      simp [hneg]
    · rw [← hexact hr, ← negative_iff data s hst hkey]
      simp [hneg]
  · have hneg' : (addressList data s).any (fun v => decide (v.Value < 0)) = false := by
      simpa using hneg
    rw [updateAddressTable_of_nonneg data s hneg']
    refine ⟨Or.inr ⟨rfl, ?_⟩, fun hst hkey => ⟨?_, fun hr => ?_⟩⟩
    · intro r hr
      rcases List.mem_append.1 hr with h | h
      · exact hbal r (List.mem_filter.1 h).1
      · have := (List.any_eq_false.1 hneg') r h
        simpa using this
    · rw [← negative_iff data s hst hkey]
      simp [hneg]
    · rw [← hexact hr, ← negative_iff data s hst hkey]
      simp [hneg]

/-- Witness of `updateAddressTable_no_negative_balance` on `ledgerStore` and `ledgerBlock`
(success, no overdrawn address) and on `overdrawnStore` and `overdrawnBlock` (the error, address
"A" overdrawn). -/
theorem updateAddressTable_no_negative_balance_witness :
    ((updateAddressTable ledgerBlock ledgerStore).2 = none ∧
      ¬ ∃ a ∈ blockAddresses ledgerBlock,
          balance ledgerStore.address a + credit ledgerBlock.VOuts a -
            debit ledgerBlock.VIns a < 0) ∧
    ((updateAddressTable overdrawnBlock overdrawnStore).2 ≠ none ∧
      ∃ a ∈ blockAddresses overdrawnBlock,
          balance overdrawnStore.address a + credit overdrawnBlock.VOuts a -
            debit overdrawnBlock.VIns a < 0) :=
  have h := updateAddressTable_no_negative_balance ledgerBlock ledgerStore (by decide)
  have h' := updateAddressTable_no_negative_balance overdrawnBlock overdrawnStore (by decide)
  have hok : (updateAddressTable ledgerBlock ledgerStore).2 = none := by decide
  have herr : (updateAddressTable overdrawnBlock overdrawnStore).2 ≠ none := by decide
  ⟨⟨hok, fun hex => (((h.2 (by unfold AddressesStored; decide)
      (by unfold AddressKey; decide)).2 (by decide)).2 hex) hok⟩,
    ⟨herr, ((h'.2 (by unfold AddressesStored; decide) (by unfold AddressKey; decide)).2
      (by decide)).1 herr⟩⟩

/-- C7, refuted as stated.  `twiceWrapBlock` is written to `twiceWrapStore`, where "A" holds 5,
and pays "A" two outputs of 2^63 minor units: `updateAddressTable` succeeds and the record of
"A" still holds 5, not 5 + 2^64, the `int64` sum of the two outputs being 0.  And
`strayCreditBlock`, whose rows are not in `strayStore`, pays 30 to "A", which holds 100 there:
`updateAddressTable` succeeds and leaves two records for "A", with balances 100 and 30. -/
theorem updateAddressTable_balance_not_exact :
    (AddressesStored twiceWrapStore twiceWrapBlock ∧ AddressKey twiceWrapStore ∧
      (updateAddressTable twiceWrapBlock twiceWrapStore).2 = none ∧
      balance twiceWrapStore.address "A" = 5 ∧
      credit twiceWrapBlock.VOuts "A" = 18446744073709551616 ∧
      debit twiceWrapBlock.VIns "A" = 0 ∧
      ((updateAddressTable twiceWrapBlock twiceWrapStore).1.address.filter
          (fun x => x.Address == "A")).map (fun r => r.Value) = [5]) ∧
    (AddressKey strayStore ∧
      (updateAddressTable strayCreditBlock strayStore).2 = none ∧
      ((updateAddressTable strayCreditBlock strayStore).1.address.filter
          (fun x => x.Address == "A")).map (fun r => r.Value) = [100, 30]) := by
  unfold AddressesStored AddressKey
  decide

/-- C7, amended: when `updateAddressTable` succeeds on a store with address keys to which the
block has been written, every address touched by the block has exactly one record afterwards,
whose balance is the `int64` value of the previous balance (0 without a record) plus the block's
output values paid to it minus the origin values of the block's inputs spent from it (the exact
sum when that lies in the `int64` range) and whose birth timestamp is the previous one if a
record existed and the block's timestamp otherwise; the records of all other addresses, and the
other relations, are unchanged. -/
theorem updateAddressTable_balances (data : BSVBlockData) (s : Store)
    (hst : AddressesStored s data) (hkey : AddressKey s)
    (hok : (updateAddressTable data s).2 = none) :
    (∀ a ∈ blockAddresses data, ∃ r : Address,
      (updateAddressTable data s).1.address.filter (fun x => x.Address == a) = [r] ∧
      r.Value = int64 (balance s.address a + credit data.VOuts a - debit data.VIns a) ∧
      (InInt64 (balance s.address a + credit data.VOuts a - debit data.VIns a) →
        r.Value = balance s.address a + credit data.VOuts a - debit data.VIns a) ∧
      r.BirthTimestamp =
        (match getAddress s.address a with
         | some r0 => r0.BirthTimestamp
         | none => data.Block.Timestamp)) ∧
    (updateAddressTable data s).1.address.filter
        (fun x => !(blockAddresses data).contains x.Address) =
      s.address.filter (fun x => !(blockAddresses data).contains x.Address) ∧
    (updateAddressTable data s).1 =
      { s with address := (updateAddressTable data s).1.address } := by
  have hneg : (addressList data s).any (fun v => decide (v.Value < 0)) = false := by
    rw [updateAddressTable_snd] at hok
    by_contra hc
    simp only [Bool.not_eq_false] at hc
    simp [hc] at hok
  rw [updateAddressTable_of_nonneg data s hneg]
  refine ⟨?_, ?_, rfl⟩
  · intro a ha
    refine ⟨appliedRecord data s a, filter_address_applied data s a hst hkey ha,
      appliedRecord_value data s a, ?_, ?_⟩
    · intro hr
      rw [appliedRecord_value, int64_of_inInt64 _ hr]
    · unfold appliedRecord
      rcases getAddress s.address a with _ | r0 <;> rfl
  · show (untouchedRows s data.Block.Height ++ addressList data s).filter _ = _
    rw [List.filter_append]
    have h1 : (addressList data s).filter
        (fun x => !(blockAddresses data).contains x.Address) = [] := by
      rw [List.filter_eq_nil_iff]
      intro r hr
      simp [mem_addressList_address data s hst r hr]
    rw [h1, List.append_nil]
    unfold untouchedRows
    rw [List.filter_filter]
    apply List.filter_congr
    intro r _
    by_cases hb : r.Address ∈ blockAddresses data
    · simp [hb]
    · have : r.Address ∉ touchedAddresses s data.Block.Height := fun h => hb (hst.1 h)
      simp [hb, this]

/-- Witness of `updateAddressTable_balances` on `ledgerStore` and `ledgerBlock`: address "A"
ends with balance 50 + 0 - 50. -/
theorem updateAddressTable_balances_witness :
    (updateAddressTable ledgerBlock ledgerStore).2 = none ∧
    ∃ r : Address,
      (updateAddressTable ledgerBlock ledgerStore).1.address.filter
        (fun x => x.Address == "A") = [r] ∧
      r.Value = int64 (balance ledgerStore.address "A" + credit ledgerBlock.VOuts "A" -
        debit ledgerBlock.VIns "A") ∧
      (InInt64 (balance ledgerStore.address "A" + credit ledgerBlock.VOuts "A" -
          debit ledgerBlock.VIns "A") →
        r.Value = balance ledgerStore.address "A" + credit ledgerBlock.VOuts "A" -
          debit ledgerBlock.VIns "A") ∧
      r.BirthTimestamp =
        (match getAddress ledgerStore.address "A" with
         | some r0 => r0.BirthTimestamp
         | none => ledgerBlock.Block.Timestamp) :=
  have hok : (updateAddressTable ledgerBlock ledgerStore).2 = none := by decide
  ⟨hok, (updateAddressTable_balances ledgerBlock ledgerStore
    (by unfold AddressesStored; decide) (by unfold AddressKey; decide) hok).1 "A" (by decide)⟩

/-! ## Revert of the address table -/

theorem mapGet_of_not_mem_keys (m : List (String × Int)) (k : String)
    (h : k ∉ m.map Prod.fst) : mapGet m k = 0 := by
  induction m with
  | nil => rfl
  | cons kv m ih =>
    obtain ⟨k0, v0⟩ := kv
    simp only [List.map_cons, List.mem_cons, not_or] at h
    simp [mapGet, Ne.symm h.1, ih h.2]

theorem filter_group_eq (groups : List (String × Int)) (hg : (groups.map Prod.fst).Nodup)
    (k : String) :
    groups.filter (fun g => k == g.1) =
      if k ∈ groups.map Prod.fst then [(k, mapGet groups k)] else [] := by
  have hswap : groups.filter (fun g => k == g.1) = groups.filter (fun g => g.1 == k) := by
    apply List.filter_congr
    intro g _
    by_cases h : g.1 = k
    · simp [h]
    · simp [h, Ne.symm h]
  rw [hswap, filter_key_eq_find (fun kv : String × Int => kv.1) groups hg k]
  by_cases hk : k ∈ groups.map Prod.fst
  · rw [if_pos hk]
    have hmem := mem_of_mem_keys groups k hk
    rcases hf : List.find? (fun kv : String × Int => kv.1 == k) groups with _ | kv
    · have := List.find?_eq_none.1 hf _ hmem
      simp at this
    · have hk1 : kv.1 = k := by
        have := List.find?_some hf
        simpa using this
      have hv := mapGet_of_mem groups kv.1 kv.2 hg (List.mem_of_find?_eq_some hf)
      rw [hk1] at hv
      simp only [Option.toList]
      congr 1
      exact Prod.ext hk1 hv.symm
  · rw [if_neg hk]
    rcases hf : List.find? (fun kv : String × Int => kv.1 == k) groups with _ | kv
    · rfl
    · have hk1 : kv.1 = k := by
        have := List.find?_some hf
        simpa using this
      exact absurd (List.mem_map.2 ⟨kv, List.mem_of_find?_eq_some hf, hk1⟩) hk

theorem foldl_setAddressValue_join (groups : List (String × Int))
    (hg : (groups.map Prod.fst).Nodup) (sign : Int) (table : List Address)
    (ht : (table.map (fun r => r.Address)).Nodup) (current : List Address) :
    (joinAddress table groups sign).foldl setAddressValue current =
      current.map (fun r =>
        match table.find? (fun a => a.Address == r.Address) with
        | some a =>
          if a.Address ∈ groups.map Prod.fst then
            { r with Value := a.Value + sign * mapGet groups a.Address }
          else r
        | none => r) := by
  induction table generalizing current with
  | nil => simp [joinAddress]
  | cons a table ih =>
    simp only [List.map_cons, List.nodup_cons] at ht
    have hstep : joinAddress (a :: table) groups sign =
        (if a.Address ∈ groups.map Prod.fst then
          [(a.Address, a.Value + sign * mapGet groups a.Address)] else []) ++
        joinAddress table groups sign := by
      unfold joinAddress
      rw [List.flatMap_cons, filter_group_eq groups hg a.Address]
      split <;> rfl
    rw [hstep, List.foldl_append, ih ht.2]
    have hnone : ∀ r : Address, r.Address = a.Address →
        table.find? (fun x => x.Address == r.Address) = none := by
      intro r hr
      rw [List.find?_eq_none]
      intro x hx hxa
      have : x.Address = a.Address := by
        have : x.Address = r.Address := by simpa using hxa
        exact this.trans hr
      exact ht.1 (List.mem_map.2 ⟨x, hx, this⟩)
    by_cases hk : a.Address ∈ groups.map Prod.fst
    · rw [if_pos hk]
      simp only [List.foldl_cons, List.foldl_nil, setAddressValue, List.map_map]
      apply List.map_congr_left
      intro r _
      by_cases hr : r.Address = a.Address
      · simp [hr, hnone r hr, hk, hnone a rfl]
      · simp [hr, Ne.symm hr, List.find?_cons]
    · rw [if_neg hk]
      simp only [List.foldl_nil]
      apply List.map_congr_left
      intro r _
      by_cases hr : r.Address = a.Address
      · simp [hr, hk, hnone a rfl, List.find?_cons]
      · simp [hr, Ne.symm hr, List.find?_cons]

theorem find_self_of_nodup (table : List Address)
    (ht : (table.map (fun r => r.Address)).Nodup) (r : Address) (hr : r ∈ table) :
    table.find? (fun a => a.Address == r.Address) = some r := by
  induction table with
  | nil => simp at hr
  | cons a table ih =>
    simp only [List.map_cons, List.nodup_cons] at ht
    rcases List.mem_cons.1 hr with h | h
    · subst h
      simp [List.find?_cons]
    · have hne : a.Address ≠ r.Address := by
        intro he
        exact ht.1 (List.mem_map.2 ⟨r, h, he.symm⟩)
      simp [List.find?_cons, hne, ih ht.2 h]

theorem foldl_setAddressValue_self (groups : List (String × Int))
    (hg : (groups.map Prod.fst).Nodup) (sign : Int) (table : List Address)
    (ht : (table.map (fun r => r.Address)).Nodup) :
    (joinAddress table groups sign).foldl setAddressValue table =
      table.map (fun r => { r with Value := r.Value + sign * mapGet groups r.Address }) := by
  rw [foldl_setAddressValue_join groups hg sign table ht table]
  apply List.map_congr_left
  intro r hr
  rw [find_self_of_nodup table ht r hr]
  by_cases hk : r.Address ∈ groups.map Prod.fst
  · simp [hk]
  · have h0 := mapGet_of_not_mem_keys groups r.Address hk
    simp only [hk, if_false, h0, mul_zero, add_zero]

theorem nodup_keys_groupSum (rows : List (String × Int)) :
    ((groupSum rows).map Prod.fst).Nodup :=
  nodup_keys_foldl_mapAdd _ _ _ _ List.nodup_nil

theorem mapGet_groupSum (rows : List (String × Int)) (k : String) :
    mapGet (groupSum rows) k = sumFor rows k := by
  unfold groupSum sumFor
  rw [mapGet_foldl_mapAdd (fun kv : String × Int => kv.1) (fun kv => kv.2)]
  simp [mapGet]


theorem sumFor_perm (l₁ l₂ : List (String × Int)) (h : List.Perm l₁ l₂) (k : String) :
    sumFor l₁ k = sumFor l₂ k :=
  ((h.filter _).map _).sum_eq

theorem sumFor_vout_pairs (vouts : List VOut) (a : String) :
    sumFor (vouts.map (fun v => (v.Address, (v.Value : Int)))) a = credit vouts a := by
  unfold sumFor credit
  rw [List.filter_map, List.map_map]
  rfl

theorem sumFor_vin_pairs (vins : List VIn) (a : String) :
    sumFor (vins.map (fun v => (v.AddressOrigin, v.ValueOrigin))) a = debit vins a := by
  unfold sumFor debit
  rw [List.filter_map, List.map_map]
  rfl

theorem revertAddressTable_eq (height ts : Int) (s : Store)
    (hb : (s.block.filter (fun b => b.Height == height)).map (fun b => b.Timestamp) = [ts])
    (hk : ((s.address.filter (fun r => !(r.BirthTimestamp == ts))).map
      (fun r => r.Address)).Nodup) :
    revertAddressTable height s =
      ({ s with address := revertedRows height ts s }, none) := by
  have hcontains : (fun r : Address => !([ts] : List Int).contains r.BirthTimestamp) =
      fun r => !(r.BirthTimestamp == ts) := by
    funext r
    by_cases h : r.BirthTimestamp = ts <;> simp [h]
  unfold revertAddressTable revertedRows
  rw [hb]
  simp only [hcontains]
  rw [foldl_setAddressValue_self _ (nodup_keys_groupSum _) 1 _ hk]
  have hk1 : (((s.address.filter (fun r => !(r.BirthTimestamp == ts))).map
      (fun r => { r with Value := r.Value + 1 * mapGet (groupSum ((vinsAt s height).map
        (fun v : VIn => (v.AddressOrigin, v.ValueOrigin)))) r.Address })).map
      (fun r => r.Address)).Nodup := by
    rw [List.map_map]
    exact hk
  rw [foldl_setAddressValue_self _ (nodup_keys_groupSum _) (-1) _ hk1, List.map_map]
  congr 2
  apply List.map_congr_left
  intro r _
  simp only [Function.comp, mapGet_groupSum, sumFor_vout_pairs, sumFor_vin_pairs]
  congr 1
  ring


/-! ## Round trip: `UpdateBlock` then `revertBlock` -/

theorem isSpentAt_congr_vin (s s' : Store) (height : Int) (a : VOut) (h : s'.vin = s.vin) :
    isSpentAt s' height a = isSpentAt s height a := by
  unfold isSpentAt vinsAt
  rw [h]

theorem isSpentAt_setUsed (s : Store) (height : Int) (a : VOut) (u : Int) :
    isSpentAt s height { a with IsUsed := u } = isSpentAt s height a := rfl

theorem voutsAt_map (f : VOut → VOut) (hf : ∀ v, (f v).BlockHeight = v.BlockHeight)
    (l : List VOut) (height : Int) :
    (l.map f).filter (fun a => a.BlockHeight == height) =
      (l.filter (fun a => a.BlockHeight == height)).map f := by
  rw [List.filter_map]
  congr 1
  apply List.filter_congr
  intro v _
  simp [hf v]

theorem credit_map (f : VOut → VOut)
    (hf : ∀ v, (f v).Address = v.Address ∧ (f v).Value = v.Value) (l : List VOut)
    (a : String) : credit (l.map f) a = credit l a := by
  unfold credit
  induction l with
  | nil => rfl
  | cons v l ih =>
    by_cases h : v.Address = a
    · simp [List.filter_cons, (hf v).1, (hf v).2, h, ih]
    · simp [List.filter_cons, (hf v).1, h, ih]

theorem credit_perm (l₁ l₂ : List VOut) (h : List.Perm l₁ l₂) (a : String) :
    credit l₁ a = credit l₂ a :=
  ((h.filter _).map _).sum_eq

theorem coinbaseAddresses_map (f : VOut → VOut)
    (hf : ∀ v, (f v).Address = v.Address ∧ (f v).BlockHeight = v.BlockHeight ∧
      (f v).IsCoinbase = v.IsCoinbase) (s : Store) (height : Int) :
    coinbaseAddresses { s with vout := s.vout.map f } height = coinbaseAddresses s height := by
  unfold coinbaseAddresses
  simp only [List.filter_map, List.map_map]
  have h1 : ((fun v : VOut => v.BlockHeight == height && v.IsCoinbase == 1) ∘ f) =
      fun v => v.BlockHeight == height && v.IsCoinbase == 1 := by
    funext v
    simp [(hf v).2.1, (hf v).2.2]
  have h2 : ((fun v : VOut => v.Address) ∘ f) = fun v => v.Address := by
    funext v
    simp [(hf v).1]
  rw [h1, h2]

theorem updateVOutIsUsed_perm (height : Int) (s : Store)
    (h : ∀ a ∈ s.vout, ((vinsAt s height).filter (fun b => spends b a)).length ≤ 1) :
    List.Perm (updateVOutIsUsed height s).1.vout
      (s.vout.map (fun a => if isSpentAt s height a then newVOut a else a)) := by
  have hperm := filter_not_append_map_perm (fun a => isSpentAt s height a) newVOut s.vout
  simpa only [updateVOutIsUsed, spentJoin_eq_filter s height h] using hperm

theorem credit_voutsAt_updateVOutIsUsed (height : Int) (s : Store)
    (h : ∀ a ∈ s.vout, ((vinsAt s height).filter (fun b => spends b a)).length ≤ 1)
    (a : String) :
    credit (voutsAt (updateVOutIsUsed height s).1 height) a = credit (voutsAt s height) a := by
  have hp : List.Perm (voutsAt (updateVOutIsUsed height s).1 height)
      ((voutsAt s height).map (fun a => if isSpentAt s height a then newVOut a else a)) := by
    unfold voutsAt
    rw [← voutsAt_map _ (fun v => by split <;> rfl)]
    exact (updateVOutIsUsed_perm height s h).filter _
  rw [credit_perm _ _ hp, credit_map _ (fun v => by split <;> exact ⟨rfl, rfl⟩)]

theorem revert_vout_perm (height : Int) (s : Store) (hfresh : SpendsFresh s height) :
    List.Perm (revertSelectVInValueAndAddress height (updateVOutIsUsed height s).1).1.vout
      s.vout := by
  have hp := (updateVOutIsUsed_perm height s (fun a ha => (hfresh a ha).2)).map
    (fun a => if isSpentAt (updateVOutIsUsed height s).1 height a then { a with IsUsed := 0 }
      else a)
  refine hp.trans ?_
  rw [List.map_map]
  have hid : s.vout.map ((fun a => if isSpentAt (updateVOutIsUsed height s).1 height a then
      { a with IsUsed := 0 } else a) ∘
      (fun a => if isSpentAt s height a then newVOut a else a)) = s.vout.map id := by
    apply List.map_congr_left
    intro a ha
    have hs : ∀ v, isSpentAt (updateVOutIsUsed height s).1 height v = isSpentAt s height v :=
      fun v => rfl
    by_cases hsp : isSpentAt s height a = true
    · have hu := (hfresh a ha).1 hsp
      simp only [Function.comp, hsp, if_true, hs, isSpentAt_newVOut, id]
      cases a
      simp only [newVOut] at hu ⊢
      subst hu
      rfl
    · simp only [Function.comp, hsp, if_false, hs, id]
      simp [hsp]
  rw [hid, List.map_id]

theorem getMiner_uncountCoinbase (ms : List Mining) (x a : String) :
    getMiner (uncountCoinbase ms x) a =
      (getMiner ms a).map (fun r =>
        if x = a then { r with CoinbaseTimes := r.CoinbaseTimes - 1 } else r) := by
  unfold getMiner uncountCoinbase
  rw [List.find?_map]
  have hcomp : ((fun r : Mining => r.Address == a) ∘ fun r : Mining =>
      if r.Address == x then { r with CoinbaseTimes := r.CoinbaseTimes - 1 } else r) =
      fun r => r.Address == a := by
    funext r
    simp only [Function.comp]
    split <;> rfl
  rw [hcomp]
  rcases hf : List.find? (fun r : Mining => r.Address == a) ms with _ | r
  · rfl
  · have hra : r.Address = a := by simpa using List.find?_some hf
    simp only [Option.map_some', hra]
    by_cases hx : x = a
    · simp [hx]
    · simp [hx, Ne.symm hx]

theorem getMiner_foldl_uncountCoinbase (xs : List String) (ms : List Mining) (a : String) :
    getMiner (xs.foldl uncountCoinbase ms) a =
      (getMiner ms a).map (fun r =>
        { r with CoinbaseTimes := r.CoinbaseTimes - (xs.count a : Nat) }) := by
  induction xs generalizing ms with
  | nil =>
    simp only [List.foldl_nil]
    cases getMiner ms a <;> simp
  | cons x xs ih =>
    rw [List.foldl_cons, ih, getMiner_uncountCoinbase]
    rcases getMiner ms a with _ | r
    · rfl
    · by_cases hx : x = a
      · simp only [Option.map_some', hx, if_true, List.count_cons_self, Nat.cast_add,
          Nat.cast_one]
        congr 2
        ring
      · simp [hx, List.count_cons]

theorem minerOf_count_uncount (xs : List String) (ms : List Mining) (a : String)
    (ha : a ≠ "") :
    minerOf (xs.foldl uncountCoinbase (xs.foldl countCoinbase ms)) a = minerOf ms a := by
  have hcount : (xs.filter (fun x => x != "")).count a = xs.count a := by
    rw [List.count_filter]
    simpa using ha
  have hap := minerOf_foldl_countCoinbase xs ms a
  rw [hcount] at hap
  generalize minerOf ms a = m at hap ⊢
  unfold minerOf at hap ⊢
  rw [getMiner_foldl_uncountCoinbase]
  rcases hg : getMiner (xs.foldl countCoinbase ms) a with _ | r
  · have hnot : a ∉ xs.filter (fun x => x != "") := by
      intro hin
      have := getMiner_isSome_of_counted xs ms a hin
      rw [hg] at this
      exact absurd this (by simp)
    have h0 : xs.count a = 0 := by
      rw [← hcount]
      exact List.count_eq_zero.2 hnot
    simp only [hg, h0] at hap
    simp only [Option.map_none']
    rw [hap]
    cases m
    simp
  · simp only [hg] at hap
    simp only [Option.map_some']
    rw [hap]
    cases m
    simp


theorem UpdateBlock_of_nonneg (data : BSVBlockData) (s : Store)
    (hneg : (addressList data s).any (fun v => decide (v.Value < 0)) = false) :
    UpdateBlock data s =
      ({ vout := (updateVOutIsUsed data.Block.Height s).1.vout
         vin := s.vin
         address := untouchedRows s data.Block.Height ++ addressList data s
         mining := (coinbaseAddresses (updateVOutIsUsed data.Block.Height s).1
           data.Block.Height).foldl countCoinbase s.mining
         block := s.block }, none) := by
  have hneg1 : (addressList data (updateVOutIsUsed data.Block.Height s).1).any
      (fun v => decide (v.Value < 0)) = false := by
    rw [addressList_updateVOutIsUsed]
    exact hneg
  rw [UpdateBlock_eq, if_neg (by simp [hneg1]), updateAddressTable_of_nonneg _ _ hneg1,
    untouchedRows_updateVOutIsUsed, addressList_updateVOutIsUsed]
  rfl

theorem UpdateBlock_ok_nonneg (data : BSVBlockData) (s : Store)
    (hok : (UpdateBlock data s).2 = none) :
    (addressList data s).any (fun v => decide (v.Value < 0)) = false := by
  by_contra hc
  simp only [Bool.not_eq_false] at hc
  rw [UpdateBlock_eq, addressList_updateVOutIsUsed, if_pos hc] at hok
  simp at hok

theorem revertedRows_revertSelect (height ts : Int) (s : Store) :
    revertedRows height ts (revertSelectVInValueAndAddress height s).1 =
      revertedRows height ts s := by
  unfold revertedRows
  apply List.map_congr_left
  intro r _
  have hv : voutsAt (revertSelectVInValueAndAddress height s).1 height =
      (voutsAt s height).map (fun a =>
        if isSpentAt s height a then { a with IsUsed := 0 } else a) :=
    voutsAt_map _ (fun v => by split <;> rfl) s.vout height
  rw [hv, credit_map _ (fun v => by split <;> exact ⟨rfl, rfl⟩)]
  rfl

theorem coinbaseAddresses_revertSelect (height : Int) (s : Store) :
    coinbaseAddresses (revertSelectVInValueAndAddress height s).1 height =
      coinbaseAddresses s height :=
  coinbaseAddresses_map _ (fun v => by split <;> exact ⟨rfl, rfl, rfl⟩) s height

theorem revertBlock_eq (height ts : Int) (s : Store)
    (hb : (s.block.filter (fun b => b.Height == height)).map (fun b => b.Timestamp) = [ts])
    (hk : ((s.address.filter (fun r => !(r.BirthTimestamp == ts))).map
      (fun r => r.Address)).Nodup) :
    revertBlock height s =
      ({ vout := (revertSelectVInValueAndAddress height s).1.vout
         vin := s.vin
         address := revertedRows height ts s
         mining := (coinbaseAddresses s height).foldl uncountCoinbase s.mining
         block := s.block }, none) := by
  have h1 : revertBlock height s =
      match revertAddressTable height (revertSelectVInValueAndAddress height s).1 with
      | (s2, some err) => (s2, some err)
      | (s2, none) => revertCoinbaseAddressCount height s2 := rfl
  rw [h1, revertAddressTable_eq height ts (revertSelectVInValueAndAddress height s).1 hb hk,
    revertedRows_revertSelect]
  simp only [revertCoinbaseAddressCount]
  have h2 : coinbaseAddresses
      { (revertSelectVInValueAndAddress height s).1 with
        address := revertedRows height ts s } height = coinbaseAddresses s height :=
    coinbaseAddresses_revertSelect height s
  rw [h2]
  rfl

theorem AddressesStored_of_RowsStored (s : Store) (data : BSVBlockData)
    (h : RowsStored s data) : AddressesStored s data := by
  have h1 := (h.1.map Prod.fst)
  have h2 := (h.2.1.map Prod.fst)
  simp only [List.map_map] at h1 h2
  have e1 : (Prod.fst ∘ fun v : VOut => (v.Address, (v.Value : Int))) = fun v => v.Address :=
    rfl
  have e2 : (Prod.fst ∘ fun v : VIn => (v.AddressOrigin, v.ValueOrigin)) =
      fun v => v.AddressOrigin := rfl
  rw [e1] at h1
  rw [e2] at h2
  unfold AddressesStored touchedAddresses blockAddresses
  constructor
  · intro a ha
    rcases List.mem_append.1 ha with ha | ha
    · exact List.mem_append_left _ (h1.subset ha)
    · exact List.mem_append_right _ (h2.subset ha)
  · intro a ha
    rcases List.mem_append.1 ha with ha | ha
    · exact List.mem_append_left _ (h1.symm.subset ha)
    · exact List.mem_append_right _ (h2.symm.subset ha)

theorem credit_stored (s : Store) (data : BSVBlockData) (h : RowsStored s data) (a : String) :
    credit (voutsAt s data.Block.Height) a = credit data.VOuts a := by
  rw [← sumFor_vout_pairs, ← sumFor_vout_pairs, sumFor_perm _ _ h.1]

theorem debit_stored (s : Store) (data : BSVBlockData) (h : RowsStored s data) (a : String) :
    debit (vinsAt s data.Block.Height) a = debit data.VIns a := by
  rw [← sumFor_vin_pairs, ← sumFor_vin_pairs, sumFor_perm _ _ h.2.1]

theorem credit_untouched (s : Store) (height : Int) (a : String)
    (h : a ∉ touchedAddresses s height) : credit (voutsAt s height) a = 0 := by
  unfold credit
  have : (voutsAt s height).filter (fun v => v.Address == a) = [] := by
    rw [List.filter_eq_nil_iff]
    intro v hv hva
    apply h
    have : v.Address = a := by simpa using hva
    exact List.mem_append_left _ (List.mem_map.2 ⟨v, hv, this⟩)
  rw [this]
  rfl

theorem debit_untouched (s : Store) (height : Int) (a : String)
    (h : a ∉ touchedAddresses s height) : debit (vinsAt s height) a = 0 := by
  unfold debit
  have : (vinsAt s height).filter (fun v => v.AddressOrigin == a) = [] := by
    rw [List.filter_eq_nil_iff]
    intro v hv hva
    apply h
    have : v.AddressOrigin = a := by simpa using hva
    exact List.mem_append_right _ (List.mem_map.2 ⟨v, hv, this⟩)
  rw [this]
  rfl


theorem filter_birth_applied (data : BSVBlockData) (s : Store)
    (hbirth : ∀ r ∈ s.address, r.BirthTimestamp ≠ data.Block.Timestamp) :
    (untouchedRows s data.Block.Height ++ addressList data s).filter
        (fun r => !(r.BirthTimestamp == data.Block.Timestamp)) =
      untouchedRows s data.Block.Height ++
        (touchedRows s data.Block.Height).map (fun r =>
          { Address := r.Address
            BirthTimestamp := r.BirthTimestamp
            LatestTxTimestamp := data.Block.Timestamp
            Value := int64 (r.Value + mapGet (addressValueMap data) r.Address) : Address }) := by
  rw [addressList_eq, List.filter_append, List.filter_append]
  have h1 : (untouchedRows s data.Block.Height).filter
      (fun r => !(r.BirthTimestamp == data.Block.Timestamp)) =
      untouchedRows s data.Block.Height := by
    rw [List.filter_eq_self]
    intro r hr
    simpa using hbirth r (List.mem_filter.1 hr).1
  have h2 : ∀ l : List Address, (∀ r ∈ l, r ∈ s.address) →
      (l.map (fun r =>
        { Address := r.Address
          BirthTimestamp := r.BirthTimestamp
          LatestTxTimestamp := data.Block.Timestamp
          Value := int64 (r.Value + mapGet (addressValueMap data) r.Address) : Address })).filter
        (fun r => !(r.BirthTimestamp == data.Block.Timestamp)) =
      l.map (fun r =>
        { Address := r.Address
          BirthTimestamp := r.BirthTimestamp
          LatestTxTimestamp := data.Block.Timestamp
          Value := int64 (r.Value + mapGet (addressValueMap data) r.Address) : Address }) := by
    intro l hl
    rw [List.filter_eq_self]
    intro r hr
    rcases List.mem_map.1 hr with ⟨r0, hr0, rfl⟩
    simpa using hbirth r0 (hl r0 hr0)
  have h3 : ∀ l : List (String × Int), (l.map (fun kv =>
        { Address := kv.1
          BirthTimestamp := data.Block.Timestamp
          LatestTxTimestamp := data.Block.Timestamp
          Value := kv.2 : Address })).filter
        (fun r => !(r.BirthTimestamp == data.Block.Timestamp)) = [] := by
    intro l
    rw [List.filter_eq_nil_iff]
    intro r hr
    rcases List.mem_map.1 hr with ⟨kv, _, rfl⟩
    simp
  rw [h1, h2 (touchedRows s data.Block.Height) (fun r hr => (List.mem_filter.1 hr).1), h3,
    List.append_nil]

theorem nodup_keys_applied (data : BSVBlockData) (s : Store) (hkey : AddressKey s) :
    ((untouchedRows s data.Block.Height ++
        (touchedRows s data.Block.Height).map (fun r =>
          { Address := r.Address
            BirthTimestamp := r.BirthTimestamp
            LatestTxTimestamp := data.Block.Timestamp
            Value := int64 (r.Value + mapGet (addressValueMap data) r.Address) : Address })).map
      (fun r => r.Address)).Nodup := by
  rw [List.map_append, List.map_map]
  have hp : List.Perm (untouchedRows s data.Block.Height ++ touchedRows s data.Block.Height)
      s.address :=
    List.perm_append_comm.trans (List.filter_append_perm _ _)
  have hp' := hp.map (fun r : Address => r.Address)
  rw [List.map_append] at hp'
  exact hp'.nodup_iff.2 hkey

theorem revertedRows_congr (height ts : Int) (s s' : Store)
    (hv : s'.vin = s.vin)
    (hc : ∀ a, credit (voutsAt s' height) a = credit (voutsAt s height) a) :
    revertedRows height ts s' =
      (s'.address.filter (fun r => !(r.BirthTimestamp == ts))).map (fun r =>
        { r with Value := r.Value + debit (vinsAt s height) r.Address
            - credit (voutsAt s height) r.Address }) := by
  unfold revertedRows
  apply List.map_congr_left
  intro r _
  have hd : vinsAt s' height = vinsAt s height := by
    unfold vinsAt
    rw [hv]
  rw [hd, hc]

/-- C1, refuted as stated: `ledgerBlock` is stored in `ledgerStore`, `UpdateBlock` and then
`revertBlock 2` both succeed, and the resulting store is not `ledgerStore`: the record of
address "A" keeps the block's timestamp as latest activity (20 instead of 10) and the miner
record created for "B" remains, with count 0. -/
theorem revertBlock_UpdateBlock_not_identity :
    (UpdateBlock ledgerBlock ledgerStore).2 = none ∧
    (revertBlock 2 (UpdateBlock ledgerBlock ledgerStore).1).2 = none ∧
    (revertBlock 2 (UpdateBlock ledgerBlock ledgerStore).1).1 ≠ ledgerStore ∧
    getAddress ledgerStore.address "A" =
      some { Address := "A", Value := 50, BirthTimestamp := 10, LatestTxTimestamp := 10 } ∧
    getAddress (revertBlock 2 (UpdateBlock ledgerBlock ledgerStore).1).1.address "A" =
      some { Address := "A", Value := 50, BirthTimestamp := 10, LatestTxTimestamp := 20 } ∧
    getMiner ledgerStore.mining "B" = none ∧
    getMiner (revertBlock 2 (UpdateBlock ledgerBlock ledgerStore).1).1.mining "B" =
      some { Address := "B", PoolName := "", CoinbaseTimes := 0 } := by
  decide

/-- C1, amended: let a block be stored in a store with address keys in which no address record
was born at the block's timestamp, no input of the block's height refers to an output already
marked spent and no output is referred to by two inputs of that height.  If `UpdateBlock`
succeeds, `revertBlock` of the block's height succeeds too and restores, up to the order of
rows, the output relation (every `is_used` flag included), the input and block relations, the
pool name and coinbase count recorded for every non-empty miner address (a miner record created
by the apply remains, with count 0) and, when for every address the block touches the previous
balance plus the block's credits minus the block's debits lies in the `int64` range (the sums of
`updateAddressTable` are `int64`, those of the revert statements are the database's), the
address records except that a record touched by the block keeps the block's timestamp as its
latest-activity timestamp (address, balance and birth timestamp are restored, and no record is
added or lost). -/
theorem revertBlock_UpdateBlock (data : BSVBlockData) (s : Store)
    (hst : RowsStored s data) (hkey : AddressKey s)
    (hfresh : SpendsFresh s data.Block.Height)
    (hbirth : ∀ r ∈ s.address, r.BirthTimestamp ≠ data.Block.Timestamp)
    (hok : (UpdateBlock data s).2 = none) :
    (revertBlock data.Block.Height (UpdateBlock data s).1).2 = none ∧
    List.Perm (revertBlock data.Block.Height (UpdateBlock data s).1).1.vout s.vout ∧
    (revertBlock data.Block.Height (UpdateBlock data s).1).1.vin = s.vin ∧
    (revertBlock data.Block.Height (UpdateBlock data s).1).1.block = s.block ∧
    ((∀ a ∈ blockAddresses data,
        InInt64 (balance s.address a + credit data.VOuts a - debit data.VIns a)) →
      List.Perm (revertBlock data.Block.Height (UpdateBlock data s).1).1.address
        (s.address.map (fun r =>
          if (blockAddresses data).contains r.Address then
            { r with LatestTxTimestamp := data.Block.Timestamp }
          else r))) ∧
    ∀ a : String, a ≠ "" →
      minerOf (revertBlock data.Block.Height (UpdateBlock data s).1).1.mining a =
        minerOf s.mining a := by
  have hneg := UpdateBlock_ok_nonneg data s hok
  have hads := AddressesStored_of_RowsStored s data hst
  have hfilter := filter_birth_applied data s hbirth
  have hfst : (UpdateBlock data s).1 =
      (⟨(updateVOutIsUsed data.Block.Height s).1.vout, s.vin,
        untouchedRows s data.Block.Height ++ addressList data s,
        (coinbaseAddresses (updateVOutIsUsed data.Block.Height s).1
           data.Block.Height).foldl countCoinbase s.mining, s.block⟩ : Store) := by
    rw [UpdateBlock_of_nonneg data s hneg]
  rw [hfst]
  generalize hS : (⟨(updateVOutIsUsed data.Block.Height s).1.vout, s.vin,
        untouchedRows s data.Block.Height ++ addressList data s,
        (coinbaseAddresses (updateVOutIsUsed data.Block.Height s).1
           data.Block.Height).foldl countCoinbase s.mining, s.block⟩ : Store) = S'
  have hvout : S'.vout = (updateVOutIsUsed data.Block.Height s).1.vout := by rw [← hS]
  have hvin : S'.vin = s.vin := by rw [← hS]
  have hblock : S'.block = s.block := by rw [← hS]
  have haddr : S'.address = untouchedRows s data.Block.Height ++ addressList data s := by
    rw [← hS]
  have hmining : S'.mining = (coinbaseAddresses S' data.Block.Height).foldl countCoinbase
      s.mining := by
    rw [← hS]
    rfl
  have hb' : (S'.block.filter (fun b => b.Height == data.Block.Height)).map
      (fun b => b.Timestamp) = [data.Block.Timestamp] := by
    rw [hblock]
    exact hst.2.2
  have hk' : ((S'.address.filter (fun r => !(r.BirthTimestamp == data.Block.Timestamp))).map
      (fun r => r.Address)).Nodup := by
    rw [haddr, hfilter]
    exact nodup_keys_applied data s hkey
  rw [revertBlock_eq data.Block.Height data.Block.Timestamp S' hb' hk']
  refine ⟨rfl, ?_, hvin, hblock, ?_, ?_⟩
  · have := revert_vout_perm data.Block.Height s hfresh
    have he : (revertSelectVInValueAndAddress data.Block.Height S').1.vout =
        (revertSelectVInValueAndAddress data.Block.Height
          (updateVOutIsUsed data.Block.Height s).1).1.vout := by
      unfold revertSelectVInValueAndAddress
      simp only [hvout]
      apply List.map_congr_left
      intro v _
      rw [isSpentAt_congr_vin _ S' _ _ hvin]
      rfl
    show List.Perm (revertSelectVInValueAndAddress data.Block.Height S').1.vout s.vout
    rw [he]
    exact this
  · intro hrange
    show List.Perm (revertedRows data.Block.Height data.Block.Timestamp S') _
    rw [revertedRows_congr data.Block.Height data.Block.Timestamp s S' hvin
      (fun a => by
        have hv : voutsAt S' data.Block.Height =
            voutsAt (updateVOutIsUsed data.Block.Height s).1 data.Block.Height := by
          unfold voutsAt
          rw [hvout]
        rw [hv]
        exact credit_voutsAt_updateVOutIsUsed data.Block.Height s
          (fun v hv => (hfresh v hv).2) a)]
    rw [haddr]
    simp only [hfilter]
    rw [List.map_append, List.map_map]
    have h1 : (untouchedRows s data.Block.Height).map (fun r =>
        { r with Value := r.Value + debit (vinsAt s data.Block.Height) r.Address
            - credit (voutsAt s data.Block.Height) r.Address }) =
        untouchedRows s data.Block.Height := by
      conv_rhs => rw [← List.map_id (untouchedRows s data.Block.Height)]
      apply List.map_congr_left
      intro r hr
      have hnt : r.Address ∉ touchedAddresses s data.Block.Height := by
        have := (List.mem_filter.1 hr).2
        simpa using this
      rw [credit_untouched s _ _ hnt, debit_untouched s _ _ hnt]
      simp
    have h2 : (touchedRows s data.Block.Height).map
        ((fun r : Address =>
          { r with Value := r.Value + debit (vinsAt s data.Block.Height) r.Address
            - credit (voutsAt s data.Block.Height) r.Address }) ∘
         (fun r : Address =>
          { Address := r.Address
            BirthTimestamp := r.BirthTimestamp
            LatestTxTimestamp := data.Block.Timestamp
            Value := int64 (r.Value + mapGet (addressValueMap data) r.Address) : Address })) =
        (touchedRows s data.Block.Height).map
          (fun r => { r with LatestTxTimestamp := data.Block.Timestamp }) := by
      apply List.map_congr_left
      intro r hr
      have hrs : r ∈ s.address := (List.mem_filter.1 hr).1
      have hra : r.Address ∈ blockAddresses data := by
        apply hads.1
        have := (List.mem_filter.1 hr).2
        simpa using this
      have hbalance : balance s.address r.Address = r.Value := by
        unfold balance getAddress
        rw [find_self_of_nodup s.address hkey r hrs]
      have hexact : int64 (r.Value + mapGet (addressValueMap data) r.Address) =
          r.Value + credit data.VOuts r.Address - debit data.VIns r.Address := by
        have hin := hrange r.Address hra
        rw [hbalance] at hin
        rw [mapGet_addressValueMap, int64_add_int64_right,
          ← int64_of_inInt64 _ hin]
        congr 1
        ring
      simp only [Function.comp, hexact, credit_stored s data hst, debit_stored s data hst]
      congr 1
      ring
    rw [h1, h2]
    have hperm := filter_not_append_map_perm
      (fun r : Address => (touchedAddresses s data.Block.Height).contains r.Address)
      (fun r => { r with LatestTxTimestamp := data.Block.Timestamp }) s.address
    have hcongr : s.address.map (fun r =>
        if (touchedAddresses s data.Block.Height).contains r.Address then
          { r with LatestTxTimestamp := data.Block.Timestamp } else r) =
        s.address.map (fun r =>
          if (blockAddresses data).contains r.Address then
            { r with LatestTxTimestamp := data.Block.Timestamp } else r) := by
      apply List.map_congr_left
      intro r _
      have : (touchedAddresses s data.Block.Height).contains r.Address =
          (blockAddresses data).contains r.Address := by
        rw [Bool.eq_iff_iff, contains_string_iff, contains_string_iff]
        exact ⟨fun h => hads.1 h, fun h => hads.2 h⟩
      rw [this]
    rw [← hcongr]
    exact hperm
  · intro a ha
    show minerOf ((coinbaseAddresses S' data.Block.Height).foldl uncountCoinbase S'.mining) a = _
    rw [hmining]
    exact minerOf_count_uncount _ s.mining a ha

/-- Witness of `revertBlock_UpdateBlock` on `ledgerStore` and `ledgerBlock`. -/
theorem revertBlock_UpdateBlock_witness :
    RowsStored ledgerStore ledgerBlock ∧ AddressKey ledgerStore ∧ SpendsFresh ledgerStore 2 ∧
    (UpdateBlock ledgerBlock ledgerStore).2 = none ∧
    List.Perm (revertBlock 2 (UpdateBlock ledgerBlock ledgerStore).1).1.vout
      ledgerStore.vout ∧
    List.Perm (revertBlock 2 (UpdateBlock ledgerBlock ledgerStore).1).1.address
      (ledgerStore.address.map (fun r =>
        if (blockAddresses ledgerBlock).contains r.Address then
          { r with LatestTxTimestamp := ledgerBlock.Block.Timestamp }
        else r)) ∧
    minerOf (revertBlock 2 (UpdateBlock ledgerBlock ledgerStore).1).1.mining "A" =
      minerOf ledgerStore.mining "A" :=
  have hst : RowsStored ledgerStore ledgerBlock := by unfold RowsStored; decide
  have hkey : AddressKey ledgerStore := by unfold AddressKey; decide
  have hfresh : SpendsFresh ledgerStore 2 := by unfold SpendsFresh; decide
  have hok : (UpdateBlock ledgerBlock ledgerStore).2 = none := by decide
  have h := revertBlock_UpdateBlock ledgerBlock ledgerStore hst hkey hfresh (by decide) hok
  ⟨hst, hkey, hfresh, hok, h.2.1, h.2.2.2.2.1 (by decide), h.2.2.2.2.2 "A" (by decide)⟩

/-! ## `revertAddressTable` on its own -/

theorem revertAddressTable_snd (height : Int) (s : Store) :
    (revertAddressTable height s).2 = none ↔ (blockStamps s height).length ≤ 1 := by
  unfold revertAddressTable blockStamps
  generalize (s.block.filter (fun b => b.Height == height)).map (fun b => b.Timestamp) = stamps
  rcases stamps with _ | ⟨t, _ | ⟨t', l⟩⟩ <;> simp

theorem revert_two_updates (height : Int) (s : Store) (table : List Address)
    (hnd : (table.map (fun r => r.Address)).Nodup) :
    (joinAddress
        ((joinAddress table (groupSum ((vinsAt s height).map
          (fun v : VIn => (v.AddressOrigin, v.ValueOrigin)))) 1).foldl setAddressValue table)
        (groupSum ((voutsAt s height).map (fun v : VOut => (v.Address, (v.Value : Int)))))
        (-1)).foldl setAddressValue
      ((joinAddress table (groupSum ((vinsAt s height).map
          (fun v : VIn => (v.AddressOrigin, v.ValueOrigin)))) 1).foldl setAddressValue table) =
    table.map (fun r =>
      { r with Value := r.Value + debit (vinsAt s height) r.Address
          - credit (voutsAt s height) r.Address }) := by
  rw [foldl_setAddressValue_self _ (nodup_keys_groupSum _) 1 _ hnd]
  have hk1 : ((table.map
      (fun r => { r with Value := r.Value + 1 * mapGet (groupSum ((vinsAt s height).map
        (fun v : VIn => (v.AddressOrigin, v.ValueOrigin)))) r.Address })).map
      (fun r => r.Address)).Nodup := by
    rw [List.map_map]
    exact hnd
  rw [foldl_setAddressValue_self _ (nodup_keys_groupSum _) (-1) _ hk1, List.map_map]
  apply List.map_congr_left
  intro r _
  simp only [Function.comp, mapGet_groupSum, sumFor_vout_pairs, sumFor_vin_pairs]
  congr 1
  ring

theorem revertAddressTable_ok (height : Int) (s : Store)
    (hlen : (blockStamps s height).length ≤ 1)
    (hk : ((survivingRows s height).map (fun r => r.Address)).Nodup) :
    (revertAddressTable height s).1.address =
      (survivingRows s height).map (fun r =>
        { r with Value := r.Value + debit (vinsAt s height) r.Address
            - credit (voutsAt s height) r.Address }) := by
  unfold survivingRows at hk ⊢
  unfold revertAddressTable
  unfold blockStamps at hlen hk ⊢
  generalize (s.block.filter (fun b => b.Height == height)).map (fun b => b.Timestamp) = stamps
    at hlen hk ⊢
  rcases stamps with _ | ⟨t, _ | ⟨t', l⟩⟩
  · exact revert_two_updates height s _ hk
  · exact revert_two_updates height s _ hk
  · simp at hlen

theorem revertAddressTable_frame (height : Int) (s : Store) :
    (revertAddressTable height s).1.vout = s.vout ∧
    (revertAddressTable height s).1.vin = s.vin ∧
    (revertAddressTable height s).1.mining = s.mining ∧
    (revertAddressTable height s).1.block = s.block := by
  unfold revertAddressTable
  generalize (s.block.filter (fun b => b.Height == height)).map (fun b => b.Timestamp) = stamps
  rcases stamps with _ | ⟨t, _ | ⟨t', l⟩⟩ <;> exact ⟨rfl, rfl, rfl, rfl⟩

/-- C11: on a store with address keys, after `revertAddressTable` succeeds the address relation
holds the records that were not deleted, each with its previous balance minus the values of the
outputs of the height paid to its address plus the origin values of the inputs of the height
spent from its address; a record whose address has no output and no input at the height is
kept as it was. -/
theorem revertAddressTable_balances (height : Int) (s : Store) (hkey : AddressKey s)
    (hok : (revertAddressTable height s).2 = none) :
    (revertAddressTable height s).1.address =
      (survivingRows s height).map (fun r =>
        { r with Value := r.Value - credit (voutsAt s height) r.Address
            + debit (vinsAt s height) r.Address }) ∧
    (∀ r ∈ survivingRows s height, r.Address ∉ touchedAddresses s height →
      r ∈ (revertAddressTable height s).1.address) := by
  have hlen := (revertAddressTable_snd height s).1 hok
  have hk : ((survivingRows s height).map (fun r => r.Address)).Nodup :=
    (List.Sublist.map _ (List.filter_sublist _)).nodup hkey
  have heq := revertAddressTable_ok height s hlen hk
  constructor
  · rw [heq]
    apply List.map_congr_left
    intro r _
    congr 1
    ring
  · intro r hr hnt
    rw [heq]
    refine List.mem_map.2 ⟨r, hr, ?_⟩
    rw [credit_untouched s height _ hnt, debit_untouched s height _ hnt]
    simp

/-- Witness of `revertAddressTable_balances`: reverting height 2 of `appliedLedgerStore` gives
"A" its 50 back, keeps "Z" and removes the records born in the block. -/
theorem revertAddressTable_balances_witness :
    (revertAddressTable 2 appliedLedgerStore).2 = none ∧
    (revertAddressTable 2 appliedLedgerStore).1.address =
      [{ Address := "Z", Value := 7, BirthTimestamp := 5, LatestTxTimestamp := 5 },
       { Address := "A", Value := 50, BirthTimestamp := 10, LatestTxTimestamp := 20 }] :=
  have hok : (revertAddressTable 2 appliedLedgerStore).2 = none := by decide
  ⟨hok, ((revertAddressTable_balances 2 appliedLedgerStore (by unfold AddressKey; decide)
    hok).1).trans (by decide)⟩

theorem setAddressValue_identity (table : List Address) (kv : String × Int) :
    (setAddressValue table kv).map (fun r => (r.Address, r.BirthTimestamp, r.LatestTxTimestamp)) =
      table.map (fun r => (r.Address, r.BirthTimestamp, r.LatestTxTimestamp)) := by
  unfold setAddressValue
  rw [List.map_map]
  apply List.map_congr_left
  intro r _
  simp only [Function.comp]
  split <;> rfl

theorem foldl_setAddressValue_identity (updates : List (String × Int)) (table : List Address) :
    (updates.foldl setAddressValue table).map
        (fun r => (r.Address, r.BirthTimestamp, r.LatestTxTimestamp)) =
      table.map (fun r => (r.Address, r.BirthTimestamp, r.LatestTxTimestamp)) := by
  induction updates generalizing table with
  | nil => rfl
  | cons u us ih => rw [List.foldl_cons, ih, setAddressValue_identity]

theorem revertAddressTable_identity (height : Int) (s : Store)
    (hlen : (blockStamps s height).length ≤ 1) :
    (revertAddressTable height s).1.address.map
        (fun r => (r.Address, r.BirthTimestamp, r.LatestTxTimestamp)) =
      (survivingRows s height).map
        (fun r => (r.Address, r.BirthTimestamp, r.LatestTxTimestamp)) := by
  unfold survivingRows revertAddressTable
  unfold blockStamps at hlen ⊢
  generalize (s.block.filter (fun b => b.Height == height)).map (fun b => b.Timestamp) = stamps
    at hlen ⊢
  rcases stamps with _ | ⟨t, _ | ⟨t', l⟩⟩
  · simp only [foldl_setAddressValue_identity]
  · simp only [foldl_setAddressValue_identity]
  · simp at hlen

/-- C12, refuted as stated: in `sameStampStore` address "Z" is neither the address of an output
nor the origin address of an input of height 2 (it was born in the block of height 3, which has
the same timestamp), yet `revertAddressTable 2` succeeds and removes its record. -/
theorem revertAddressTable_deletes_untouched :
    (∃ r ∈ sameStampStore.address, r.Address = "Z") ∧
    "Z" ∉ touchedAddresses sameStampStore 2 ∧
    (revertAddressTable 2 sameStampStore).2 = none ∧
    ¬ ∃ r ∈ (revertAddressTable 2 sameStampStore).1.address, r.Address = "Z" := by
  decide

/-- C12, amended: when `revertAddressTable` succeeds, the records it removes are exactly the
records whose birth timestamp is the timestamp of the block row of the height, whether or not
the block touched them; every record with another birth timestamp is still present, in its
old position, with its address, birth timestamp and latest-activity timestamp. -/
theorem revertAddressTable_deletes_by_birth (height : Int) (s : Store)
    (hok : (revertAddressTable height s).2 = none) :
    (revertAddressTable height s).1.address.map
        (fun r => (r.Address, r.BirthTimestamp, r.LatestTxTimestamp)) =
      (survivingRows s height).map
        (fun r => (r.Address, r.BirthTimestamp, r.LatestTxTimestamp)) ∧
    (∀ r ∈ s.address, r ∈ survivingRows s height ↔
      r.BirthTimestamp ∉ blockStamps s height) := by
  refine ⟨revertAddressTable_identity height s ((revertAddressTable_snd height s).1 hok), ?_⟩
  intro r hr
  simp [survivingRows, hr]

/-- Witness of `revertAddressTable_deletes_by_birth` on `sameStampStore`: only "Y", born at
another timestamp, is left. -/
theorem revertAddressTable_deletes_by_birth_witness :
    (revertAddressTable 2 sameStampStore).2 = none ∧
    (revertAddressTable 2 sameStampStore).1.address.map
        (fun r => (r.Address, r.BirthTimestamp, r.LatestTxTimestamp)) = [("Y", 10, 10)] :=
  have hok : (revertAddressTable 2 sameStampStore).2 = none := by decide
  ⟨hok, ((revertAddressTable_deletes_by_birth 2 sameStampStore hok).1).trans (by decide)⟩

/-! ## `revertBlock` and `revertCoinbaseAddressCount` on their own -/

theorem revertBlock_snd (height : Int) (s : Store) :
    (revertBlock height s).2 = none ↔ (blockStamps s height).length ≤ 1 := by
  have h1 : revertBlock height s =
      match revertAddressTable height (revertSelectVInValueAndAddress height s).1 with
      | (s2, some err) => (s2, some err)
      | (s2, none) => revertCoinbaseAddressCount height s2 := rfl
  have h2 := revertAddressTable_snd height (revertSelectVInValueAndAddress height s).1
  have h3 : blockStamps (revertSelectVInValueAndAddress height s).1 height =
      blockStamps s height := rfl
  rw [h3] at h2
  rw [h1, ← h2]
  rcases revertAddressTable height (revertSelectVInValueAndAddress height s).1 with ⟨s2, _ | e⟩
  · simp [revertCoinbaseAddressCount]
  · simp

/-- C13, the code at the failing input: in `emptyMinerStore` the miner record with the empty
address has count 3; `updateCoinbaseAddressCount 2` skips the address-less coinbase output and
leaves it at 3 (raising "A" from 1 to 2), `revertCoinbaseAddressCount 2` then takes "A" back to
1 and lowers the empty-address record to 2. -/
theorem revertCoinbaseAddressCount_empty_address :
    coinbaseAddresses emptyMinerStore 2 = ["A", ""] ∧
    coinbaseTimes emptyMinerStore.mining "" = 3 ∧
    coinbaseTimes (updateCoinbaseAddressCount 2 emptyMinerStore).1.mining "" = 3 ∧
    coinbaseTimes (updateCoinbaseAddressCount 2 emptyMinerStore).1.mining "A" = 2 ∧
    coinbaseTimes (revertCoinbaseAddressCount 2
      (updateCoinbaseAddressCount 2 emptyMinerStore).1).1.mining "A" = 1 ∧
    coinbaseTimes (revertCoinbaseAddressCount 2
      (updateCoinbaseAddressCount 2 emptyMinerStore).1).1.mining "" = 2 := by
  decide

/-- C14, refuted as stated: in `chainStore2` the blocks of heights 1 and 2 are both applied, and
`revertBlock 1` returns no error; it removes the record of address "A" (balance 20) and lowers
the coinbase count of "A" from 1 to 0. -/
theorem revertBlock_out_of_order_accepted :
    (UpdateBlock chainBlock1 (withRows {} chainBlock1)).2 = none ∧
    (UpdateBlock chainBlock2
      (withRows (UpdateBlock chainBlock1 (withRows {} chainBlock1)).1 chainBlock2)).2 = none ∧
    (revertBlock 1 chainStore2).2 = none ∧
    balance chainStore2.address "A" = 20 ∧
    getAddress (revertBlock 1 chainStore2).1.address "A" = none ∧
    coinbaseTimes chainStore2.mining "A" = 1 ∧
    coinbaseTimes (revertBlock 1 chainStore2).1.mining "A" = 0 := by
  decide

/-- C14, amended: `revertBlock` makes no check of the heights that are applied: it returns an
error exactly when more than one block row is stored for the height it reverts, whatever
blocks of other heights are applied. -/
theorem revertBlock_no_order_check (height : Int) (s : Store) :
    (revertBlock height s).2 = none ↔
      (s.block.filter (fun b => b.Height == height)).length ≤ 1 := by
  rw [revertBlock_snd]
  simp [blockStamps]

/-! ## The empty address in `updateAddressTable` -/

/-- C19, refuted as stated.  `twiceBlankBlock` is written to `twiceBlankStore`, where the empty
address holds 7, and has two outputs of 2^63 minor units without an address:
`updateAddressTable` succeeds and the record of the empty address still holds 7, the `int64` sum
of the two outputs being 0.  And `strayBlankBlock`, whose rows are not in `strayBlankStore`, has
an output of 5 without an address: `updateAddressTable` succeeds and leaves the record of the
empty address with its 7 next to a new record for the empty address holding 5. -/
theorem updateAddressTable_empty_address_not_exact :
    (AddressesStored twiceBlankStore twiceBlankBlock ∧ AddressKey twiceBlankStore ∧
      (∃ v ∈ twiceBlankBlock.VOuts, v.Address = "") ∧
      (updateAddressTable twiceBlankBlock twiceBlankStore).2 = none ∧
      balance twiceBlankStore.address "" = 7 ∧
      credit twiceBlankBlock.VOuts "" - debit twiceBlankBlock.VIns "" = 18446744073709551616 ∧
      ((updateAddressTable twiceBlankBlock twiceBlankStore).1.address.filter
          (fun x => x.Address == "")).map (fun r => r.Value) = [7]) ∧
    (AddressKey strayBlankStore ∧
      (∃ v ∈ strayBlankBlock.VOuts, v.Address = "") ∧
      (updateAddressTable strayBlankBlock strayBlankStore).2 = none ∧
      credit strayBlankBlock.VOuts "" - debit strayBlankBlock.VIns "" = 5 ∧
      ((updateAddressTable strayBlankBlock strayBlankStore).1.address.filter
          (fun x => x.Address == "")).map (fun r => r.Value) = [7, 5] ∧
      balance (updateAddressTable strayBlankBlock strayBlankStore).1.address "" = 7) := by
  unfold AddressesStored AddressKey
  decide

/-- C19, amended: when a block written to a store with address keys has an output without an
address or an input without an origin address, a successful `updateAddressTable` leaves exactly
one address record whose key is the empty string, and its balance is the `int64` value of the
previous balance of the empty address (0 without a record) plus the values of the block's
address-less outputs minus the origin values of the block's inputs without an origin address:
the exact sum when that lies in the `int64` range. -/
theorem updateAddressTable_empty_address (data : BSVBlockData) (s : Store)
    (hst : AddressesStored s data) (hkey : AddressKey s)
    (hok : (updateAddressTable data s).2 = none)
    (hempty : (∃ v ∈ data.VOuts, v.Address = "") ∨ (∃ v ∈ data.VIns, v.AddressOrigin = "")) :
    ∃ r : Address,
      (updateAddressTable data s).1.address.filter (fun x => x.Address == "") = [r] ∧
      r.Address = "" ∧
      r.Value = int64 (balance s.address "" + credit data.VOuts "" - debit data.VIns "") ∧
      (InInt64 (balance s.address "" + credit data.VOuts "" - debit data.VIns "") →
        r.Value = balance s.address "" + credit data.VOuts "" - debit data.VIns "") := by
  have hneg : (addressList data s).any (fun v => decide (v.Value < 0)) = false := by
    rw [updateAddressTable_snd] at hok
    by_contra hc
    simp only [Bool.not_eq_false] at hc
    simp [hc] at hok
  have hmem : "" ∈ blockAddresses data := by
    unfold blockAddresses
    rcases hempty with ⟨v, hv, hva⟩ | ⟨v, hv, hva⟩
    · exact List.mem_append_left _ (List.mem_map.2 ⟨v, hv, hva⟩)
    · exact List.mem_append_right _ (List.mem_map.2 ⟨v, hv, hva⟩)
  have hfilter := filter_address_applied data s "" hst hkey hmem
  rw [updateAddressTable_of_nonneg data s hneg]
  refine ⟨appliedRecord data s "", hfilter, ?_, appliedRecord_value data s "", ?_⟩
  · have hin : appliedRecord data s "" ∈
        (untouchedRows s data.Block.Height ++ addressList data s).filter
          (fun x => x.Address == "") := by
      rw [hfilter]
      exact List.mem_singleton_self _
    simpa using (List.mem_filter.1 hin).2
  · intro hr
    rw [appliedRecord_value, int64_of_inInt64 _ hr]

/-- Witness of `updateAddressTable_empty_address` on `addresslessBlock`: the empty address gets
a record with balance 5. -/
theorem updateAddressTable_empty_address_witness :
    (updateAddressTable addresslessBlock (withRows {} addresslessBlock)).2 = none ∧
    ∃ r : Address,
      (updateAddressTable addresslessBlock (withRows {} addresslessBlock)).1.address.filter
        (fun x => x.Address == "") = [r] ∧
      r.Address = "" ∧
      r.Value = int64 (balance (withRows {} addresslessBlock).address "" +
        credit addresslessBlock.VOuts "" - debit addresslessBlock.VIns "") ∧
      (InInt64 (balance (withRows {} addresslessBlock).address "" +
          credit addresslessBlock.VOuts "" - debit addresslessBlock.VIns "") →
        r.Value = balance (withRows {} addresslessBlock).address "" +
          credit addresslessBlock.VOuts "" - debit addresslessBlock.VIns "") :=
  have hok : (updateAddressTable addresslessBlock (withRows {} addresslessBlock)).2 = none := by
    decide
  ⟨hok, updateAddressTable_empty_address addresslessBlock (withRows {} addresslessBlock)
    (by unfold AddressesStored; decide) (by unfold AddressKey; decide) hok
    (Or.inl (by decide))⟩

/-! ## The decoder `ParseBlock` -/

theorem enumFrom_map_of_snd {α β : Type} (f : α → β) (n : Nat) (l : List α) :
    (l.enumFrom n).map (fun p => f p.2) = l.map f := by
  induction l generalizing n with
  | nil => rfl
  | cons a l ih => simp [List.enumFrom_cons, ih]

theorem enumFrom_flatMap_of_snd {α β : Type} (g : α → List β) (n : Nat) (l : List α) :
    (l.enumFrom n).flatMap (fun p => g p.2) = l.flatMap g := by
  induction l generalizing n with
  | nil => rfl
  | cons a l ih => simp [List.enumFrom_cons, ih]

theorem enum_map_eq {α β : Type} (l : List α) (g : Nat × α → β) (f : α → β)
    (h : ∀ q, g q = f q.2) : l.enum.map g = l.map f := by
  rw [List.enum_eq_enumFrom, ← enumFrom_map_of_snd f 0 l]
  exact List.map_congr_left (fun q _ => h q)

theorem enum_flatMap_eq {α β : Type} (l : List α) (g : Nat × α → List β) (f : α → List β)
    (h : ∀ q, g q = f q.2) : l.enum.flatMap g = l.flatMap f := by
  rw [List.enum_eq_enumFrom, ← enumFrom_flatMap_of_snd f 0 l]
  congr 1
  funext q
  exact h q

theorem voutStep_foldl (units : JsonNumber → Nat) (b : Block) (txid : String) (txN : Nat)
    (l : List (Nat × VOutItem)) (acc : List VOut × Nat) :
    (l.foldl (voutStep units b txid txN) acc).1 =
      acc.1 ++ l.map (fun p => parseVOut units b txid txN p.1 p.2) := by
  induction l generalizing acc with
  | nil => simp
  | cons p l ih =>
    rw [List.foldl_cons, ih]
    simp [voutStep]

theorem voutStep_foldl_total (units : JsonNumber → Nat) (b : Block) (txid : String)
    (txN : Nat) (l : List (Nat × VOutItem)) (acc : List VOut × Nat)
    (h : uint64 acc.2 = acc.2) :
    (l.foldl (voutStep units b txid txN) acc).2 =
      uint64 (acc.2 + (l.map (fun p => (parseVOut units b txid txN p.1 p.2).Value)).sum) := by
  induction l generalizing acc with
  | nil => simpa using h.symm
  | cons p l ih =>
    rw [List.foldl_cons, ih _ (by simp only [voutStep]; unfold uint64; omega)]
    simp only [voutStep, List.map_cons, List.sum_cons]
    unfold uint64
    omega

theorem parseTx_vouts (units : JsonNumber → Nat) (b : Block) (txN : Nat) (item : TxItem) :
    (parseTx units b txN item).2.2 =
      (jsonArray item.vout).enum.map
        (fun p => parseVOut units b (jsonString item.txid) txN p.1 p.2) := by
  simp [parseTx, voutStep_foldl]

theorem parseTx_vins (units : JsonNumber → Nat) (b : Block) (txN : Nat) (item : TxItem) :
    (parseTx units b txN item).2.1 =
      (jsonArray item.vin).enum.map (fun p => parseVIn b (jsonString item.txid) p.1 p.2) :=
  rfl

theorem parseTx_VOutValue (units : JsonNumber → Nat) (b : Block) (txN : Nat)
    (item : TxItem) :
    (parseTx units b txN item).1.VOutValue =
      uint64 ((parseTx units b txN item).2.2.map (fun v => v.Value)).sum := by
  rw [parseTx_vouts, List.map_map]
  show ((jsonArray item.vout).enum.foldl
    (voutStep units b (jsonString item.txid) txN) ([], 0)).2 = _
  rw [voutStep_foldl_total _ _ _ _ _ _ (by decide), Nat.zero_add]
  rfl

theorem txStep_foldl (units : JsonNumber → Nat) (b : Block) (l : List (Nat × TxItem))
    (acc : BSVBlockData) :
    l.foldl (txStep units b) acc =
      { acc with
        Transactions := acc.Transactions ++ l.map (fun p => (parseTx units b p.1 p.2).1)
        VIns := acc.VIns ++ l.flatMap (fun p => (parseTx units b p.1 p.2).2.1)
        VOuts := acc.VOuts ++ l.flatMap (fun p => (parseTx units b p.1 p.2).2.2) } := by
  induction l generalizing acc with
  | nil => simp
  | cons p l ih =>
    rw [List.foldl_cons, ih]
    simp [txStep, List.append_assoc]

theorem ParseBlock_Transactions (units : JsonNumber → Nat) (doc : BlockDocument) :
    (ParseBlock units doc).1.Transactions =
      (jsonArray doc.tx).enum.map (fun p => (parseTx units (parseHeader doc) p.1 p.2).1) := by
  simp [ParseBlock, txStep_foldl]

theorem ParseBlock_VIns (units : JsonNumber → Nat) (doc : BlockDocument) :
    (ParseBlock units doc).1.VIns =
      (jsonArray doc.tx).enum.flatMap
        (fun p => (parseTx units (parseHeader doc) p.1 p.2).2.1) := by
  simp [ParseBlock, txStep_foldl]

theorem ParseBlock_VOuts (units : JsonNumber → Nat) (doc : BlockDocument) :
    (ParseBlock units doc).1.VOuts =
      (jsonArray doc.tx).enum.flatMap
        (fun p => (parseTx units (parseHeader doc) p.1 p.2).2.2) := by
  simp [ParseBlock, txStep_foldl]


theorem ParseBlock_Block (units : JsonNumber → Nat) (doc : BlockDocument) :
    (ParseBlock units doc).1.Block =
      { parseHeader doc with TxCount := ((jsonArray doc.tx).length : Nat) } := by
  simp [ParseBlock, txStep_foldl]

theorem parseVOut_Address (units : JsonNumber → Nat) (b : Block) (txid : String)
    (txN vOutN : Nat) (item : VOutItem) :
    (parseVOut units b txid txN vOutN item).Address =
      if (jsonArray item.addresses).length = 1 then
        removeAll ((jsonArray item.addresses).headD "") "bitcoincash:"
      else "" := by
  unfold parseVOut
  rcases jsonArray item.addresses with _ | ⟨a, _ | ⟨a', l⟩⟩ <;> simp

/-- C15, refuted as stated: the only output of `doubledLeadDocument` lists the single address
"bitcoincash:bitcoincash:q"; that address with its "bitcoincash:" prefix removed is
"bitcoincash:q", but `ParseBlock` sets the output's address to "q". -/
theorem ParseBlock_removes_every_occurrence :
    (jsonArray doubledLeadDocument.tx).flatMap
        (fun t => (jsonArray t.vout).map (fun item => jsonArray item.addresses)) =
      [["bitcoincash:bitcoincash:q"]] ∧
    withoutLeading "bitcoincash:bitcoincash:q" "bitcoincash:" = "bitcoincash:q" ∧
    (ParseBlock floorUnits doubledLeadDocument).1.VOuts.map (fun v => v.Address) = ["q"] := by
  decide

/-- C15, amended: the addresses of the outputs decoded by `ParseBlock` are, in document order,
one per output item: the single listed address with every occurrence of the text
"bitcoincash:" removed when `scriptPubKey.addresses` has exactly one element, and the empty
text when it has none or more than one. -/
theorem ParseBlock_addresses (units : JsonNumber → Nat) (doc : BlockDocument) :
    (ParseBlock units doc).1.VOuts.map (fun v => v.Address) =
      (jsonArray doc.tx).flatMap (fun t => (jsonArray t.vout).map (fun item =>
        if (jsonArray item.addresses).length = 1 then
          removeAll ((jsonArray item.addresses).headD "") "bitcoincash:"
        else "")) := by
  have hinner : ∀ p : Nat × TxItem,
      ((parseTx units (parseHeader doc) p.1 p.2).2.2).map (fun v => v.Address) =
        (jsonArray p.2.vout).map (fun item =>
          if (jsonArray item.addresses).length = 1 then
            removeAll ((jsonArray item.addresses).headD "") "bitcoincash:"
          else "") := by
    intro p
    rw [parseTx_vouts, List.map_map]
    have hfun : ((fun v : VOut => v.Address) ∘ fun q : Nat × VOutItem =>
        parseVOut units (parseHeader doc) (jsonString p.2.txid) p.1 q.1 q.2) =
        fun q => (fun item : VOutItem =>
          if (jsonArray item.addresses).length = 1 then
            removeAll ((jsonArray item.addresses).headD "") "bitcoincash:"
          else "") q.2 := by
      funext q
      exact parseVOut_Address units _ _ _ _ _
    rw [hfun]
    exact enumFrom_map_of_snd (fun item : VOutItem =>
      if (jsonArray item.addresses).length = 1 then
        removeAll ((jsonArray item.addresses).headD "") "bitcoincash:"
      else "") 0 _
  rw [ParseBlock_VOuts, List.map_flatMap]
  simp only [hinner]
  exact enumFrom_flatMap_of_snd (fun t : TxItem => (jsonArray t.vout).map (fun item =>
      if (jsonArray item.addresses).length = 1 then
        removeAll ((jsonArray item.addresses).headD "") "bitcoincash:"
      else "")) 0 _

/-- C16, refuted as stated: `bareDocument` has neither the key `height` nor the key `tx`, and
`ParseBlock` returns no error but a block of height 0 without transactions. -/
theorem ParseBlock_accepts_bare_document :
    bareDocument.height = none ∧ bareDocument.tx = none ∧
    (ParseBlock floorUnits bareDocument).2 = none ∧
    (ParseBlock floorUnits bareDocument).1.Block.Height = 0 ∧
    (ParseBlock floorUnits bareDocument).1.Transactions = [] := by
  decide

/-- C16, amended: `ParseBlock` returns a `nil` error for every document; a document without
the key `height` is decoded to a block of height 0, and a document without the key `tx` to a
block with transaction count 0 and no transactions, inputs or outputs. -/
theorem ParseBlock_never_fails (units : JsonNumber → Nat) (doc : BlockDocument) :
    (ParseBlock units doc).2 = none ∧
    (doc.height = none → (ParseBlock units doc).1.Block.Height = 0) ∧
    (doc.tx = none →
      (ParseBlock units doc).1.Block.TxCount = 0 ∧
      (ParseBlock units doc).1.Transactions = [] ∧
      (ParseBlock units doc).1.VIns = [] ∧
      (ParseBlock units doc).1.VOuts = []) := by
  refine ⟨rfl, ?_, ?_⟩
  · intro h
    rw [ParseBlock_Block]
    simp [parseHeader, jsonInt, h]
  · intro h
    rw [ParseBlock_Block, ParseBlock_Transactions, ParseBlock_VIns, ParseBlock_VOuts]
    simp [jsonArray, h]


theorem parseTx_Number (units : JsonNumber → Nat) (b : Block) (txN : Nat) (item : TxItem) :
    (parseTx units b txN item).1.Number = txN := rfl

theorem parseTx_TxID (units : JsonNumber → Nat) (b : Block) (txN : Nat) (item : TxItem) :
    (parseTx units b txN item).1.TxID = jsonString item.txid := rfl

/-- C17, refuted as stated: the first transaction of `spendingFirstDocument` has an input
without a coinbase payload; after `ParseBlock` that input, which belongs to the transaction of
ordinal 0, carries the origin reference `("p9", 3, "sig")`. -/
theorem ParseBlock_first_input_keeps_origin :
    (ParseBlock floorUnits spendingFirstDocument).1.Transactions.map
        (fun t => (t.TxID, t.Number)) = [("c0", 0)] ∧
    (ParseBlock floorUnits spendingFirstDocument).1.VIns.map
        (fun v => (v.TxID, originReference v)) = [("c0", ("p9", 3, "sig"))] := by
  decide

/-- C17, amended: `ParseBlock` gives each transaction the ordinal number equal to its position
in the `tx` array and flags the outputs of the transaction at position 0 with `IsCoinbase = 1`
and all others with 0.  Whatever the ordinal of its transaction, an input whose coinbase payload
is not empty carries no origin reference (empty origin transaction-id, origin index 0, empty
unlocking script), and an input whose payload is empty or missing carries the `txid`, `vout`
and `scriptSig` written in its item, each read as the empty text or 0 when the key is
missing. -/
theorem ParseBlock_coinbase_convention (units : JsonNumber → Nat) (doc : BlockDocument) :
    (∀ (n : Nat) (t : Transaction),
      (ParseBlock units doc).1.Transactions[n]? = some t → t.Number = n) ∧
    (ParseBlock units doc).1.VOuts.map (fun v => v.IsCoinbase) =
      (jsonArray doc.tx).enum.flatMap (fun p =>
        (jsonArray p.2.vout).map (fun _ => if p.1 = 0 then (1 : Int) else 0)) ∧
    (ParseBlock units doc).1.VIns.map (fun v => (v.Coinbase, originReference v)) =
      (jsonArray doc.tx).flatMap (fun t => (jsonArray t.vin).map (fun item =>
        (jsonString item.coinbase,
          if jsonString item.coinbase = "" then
            (jsonString item.txid, jsonInt item.vout, jsonString item.scriptSig)
          else ("", 0, "")))) ∧
    (∀ v ∈ (ParseBlock units doc).1.VIns, v.Coinbase ≠ "" → originReference v = ("", 0, "")) := by
  have hvins : (ParseBlock units doc).1.VIns.map (fun v => (v.Coinbase, originReference v)) =
      (jsonArray doc.tx).flatMap (fun t => (jsonArray t.vin).map (fun item =>
        (jsonString item.coinbase,
          if jsonString item.coinbase = "" then
            (jsonString item.txid, jsonInt item.vout, jsonString item.scriptSig)
          else ("", 0, "")))) := by
    have hinner : ∀ p : Nat × TxItem,
        ((parseTx units (parseHeader doc) p.1 p.2).2.1).map
            (fun v => (v.Coinbase, originReference v)) =
          (jsonArray p.2.vin).map (fun item =>
            (jsonString item.coinbase,
              if jsonString item.coinbase = "" then
                (jsonString item.txid, jsonInt item.vout, jsonString item.scriptSig)
              else ("", 0, ""))) := by
      intro p
      rw [parseTx_vins, List.map_map]
      have hfun : ((fun v : VIn => (v.Coinbase, originReference v)) ∘
          fun q : Nat × VInItem => parseVIn (parseHeader doc) (jsonString p.2.txid) q.1 q.2) =
          fun q => (fun item : VInItem =>
            (jsonString item.coinbase,
              if jsonString item.coinbase = "" then
                (jsonString item.txid, jsonInt item.vout, jsonString item.scriptSig)
              else ("", 0, ""))) q.2 := by
        funext q
        simp only [Function.comp, parseVIn, originReference]
        by_cases hc : jsonString q.2.coinbase = "" <;> simp [hc]
      rw [hfun]
      exact enum_map_eq _ _ _ (fun _ => rfl)
    rw [ParseBlock_VIns, List.map_flatMap]
    simp only [hinner]
    exact enumFrom_flatMap_of_snd (fun t : TxItem => (jsonArray t.vin).map (fun item =>
        (jsonString item.coinbase,
          if jsonString item.coinbase = "" then
            (jsonString item.txid, jsonInt item.vout, jsonString item.scriptSig)
          else ("", 0, "")))) 0 _
  refine ⟨?_, ?_, hvins, ?_⟩
  · intro n t ht
    rw [ParseBlock_Transactions, List.getElem?_map, List.getElem?_enum] at ht
    rcases hx : (jsonArray doc.tx)[n]? with _ | item
    · simp [hx] at ht
    · simp only [hx, Option.map_some', Option.some.injEq] at ht
      rw [← ht]
      rfl
  · rw [ParseBlock_VOuts, List.map_flatMap]
    congr 1
    funext p
    rw [parseTx_vouts, List.map_map]
    have hfun : ((fun v : VOut => v.IsCoinbase) ∘ fun q : Nat × VOutItem =>
        parseVOut units (parseHeader doc) (jsonString p.2.txid) p.1 q.1 q.2) =
        fun q => (fun _ : VOutItem => if p.1 = 0 then (1 : Int) else 0) q.2 := by
      funext q
      simp only [Function.comp, parseVOut]
      by_cases h0 : p.1 = 0
      · simp [h0]
      · have : p.1 > 0 := Nat.pos_of_ne_zero h0
        simp [h0, this]
    rw [hfun]
    exact enum_map_eq _ _ _ (fun _ => rfl)
  · intro v hv hc
    have hmem : (v.Coinbase, originReference v) ∈
        (ParseBlock units doc).1.VIns.map (fun v => (v.Coinbase, originReference v)) :=
      List.mem_map.2 ⟨v, hv, rfl⟩
    rw [hvins] at hmem
    rcases List.mem_flatMap.1 hmem with ⟨t, _, ht⟩
    rcases List.mem_map.1 ht with ⟨item, _, hitem⟩
    have h1 : jsonString item.coinbase = v.Coinbase := congrArg Prod.fst hitem
    have h2 := congrArg Prod.snd hitem
    simp only at h2
    rw [← h2, if_neg (by rw [h1]; exact hc)]


theorem parseVOut_TxID (units : JsonNumber → Nat) (b : Block) (txid : String)
    (txN vOutN : Nat) (item : VOutItem) :
    (parseVOut units b txid txN vOutN item).TxID = txid := rfl

theorem parseTx_vouts_TxID (units : JsonNumber → Nat) (b : Block) (txN : Nat) (item : TxItem)
    (v : VOut) (hv : v ∈ (parseTx units b txN item).2.2) : v.TxID = jsonString item.txid := by
  rw [parseTx_vouts] at hv
  rcases List.mem_map.1 hv with ⟨q, _, rfl⟩
  rfl

theorem sum_filter_flatMap_by_tag (units : JsonNumber → Nat) (b : Block)
    (l : List (Nat × TxItem)) (k : String) :
    (((l.flatMap (fun p => (parseTx units b p.1 p.2).2.2)).filter
        (fun v => v.TxID == k)).map (fun v => v.Value)).sum =
      ((l.filter (fun p => jsonString p.2.txid == k)).map
        (fun p => ((parseTx units b p.1 p.2).2.2.map (fun v => v.Value)).sum)).sum := by
  induction l with
  | nil => rfl
  | cons p l ih =>
    rw [List.flatMap_cons, List.filter_append, List.map_append, List.sum_append, ih]
    by_cases hk : jsonString p.2.txid = k
    · have hall : (parseTx units b p.1 p.2).2.2.filter (fun v => v.TxID == k) =
          (parseTx units b p.1 p.2).2.2 := by
        rw [List.filter_eq_self]
        intro v hv
        simp [parseTx_vouts_TxID units b p.1 p.2 v hv, hk]
      rw [hall]
      simp [List.filter_cons, hk]
    · have hnone : (parseTx units b p.1 p.2).2.2.filter (fun v => v.TxID == k) = [] := by
        rw [List.filter_eq_nil_iff]
        intro v hv
        simp [parseTx_vouts_TxID units b p.1 p.2 v hv, hk]
      rw [hnone]
      simp [List.filter_cons, hk]

theorem sum_filter_of_nodup_tag (units : JsonNumber → Nat) (b : Block)
    (l : List (Nat × TxItem)) (hnd : (l.map (fun p => jsonString p.2.txid)).Nodup)
    (p : Nat × TxItem) (hp : p ∈ l) :
    ((l.filter (fun q => jsonString q.2.txid == jsonString p.2.txid)).map
        (fun q => ((parseTx units b q.1 q.2).2.2.map (fun v => v.Value)).sum)).sum =
      ((parseTx units b p.1 p.2).2.2.map (fun v => v.Value)).sum := by
  induction l with
  | nil => simp at hp
  | cons q l ih =>
    simp only [List.map_cons, List.nodup_cons] at hnd
    rcases List.mem_cons.1 hp with rfl | hpl
    · have hnil : l.filter (fun q => jsonString q.2.txid == jsonString p.2.txid) = [] := by
        rw [List.filter_eq_nil_iff]
        intro x hx hxk
        have hxk' : jsonString x.2.txid = jsonString p.2.txid := by simpa using hxk
        exact hnd.1 (List.mem_map.2 ⟨x, hx, hxk'⟩)
      simp [List.filter_cons, hnil]
    · have hne : jsonString q.2.txid ≠ jsonString p.2.txid := by
        intro he
        exact hnd.1 (List.mem_map.2 ⟨p, hpl, he.symm⟩)
      simp [List.filter_cons, hne, ih hnd.2 hpl]

/-- C18, refuted as stated.  The only transaction of `wrapTotalDocument` has two outputs of
10^19 minor units each: its `VOutValue` is 1553255926290448384, the `uint64` sum, and not the
sum 2 * 10^19 of the values of the outputs tagged with it.  And the two transactions of
`twinIdDocument` carry the same transaction id "c0", with one output of 10^8 and one of
2 * 10^8 minor units: the outputs tagged "c0" sum to 3 * 10^8, the `VOutValue` of the first
transaction is 10^8. -/
theorem ParseBlock_total_not_tagged_sum :
    ((ParseBlock floorUnits wrapTotalDocument).1.VOuts.map (fun v => (v.TxID, v.Value)) =
        [("c0", 10000000000000000000), ("c0", 10000000000000000000)] ∧
      (ParseBlock floorUnits wrapTotalDocument).1.Transactions.map
          (fun t => (t.TxID, t.VOutValue)) = [("c0", 1553255926290448384)] ∧
      ∃ t ∈ (ParseBlock floorUnits wrapTotalDocument).1.Transactions,
        t.VOutValue ≠ (((ParseBlock floorUnits wrapTotalDocument).1.VOuts.filter
          (fun v => v.TxID == t.TxID)).map (fun v => v.Value)).sum) ∧
    ((ParseBlock floorUnits twinIdDocument).1.VOuts.map (fun v => (v.TxID, v.Value)) =
        [("c0", 100000000), ("c0", 200000000)] ∧
      (ParseBlock floorUnits twinIdDocument).1.Transactions.map
          (fun t => (t.TxID, t.VOutValue)) = [("c0", 100000000), ("c0", 200000000)] ∧
      ∃ t ∈ (ParseBlock floorUnits twinIdDocument).1.Transactions,
        t.VOutValue ≠ (((ParseBlock floorUnits twinIdDocument).1.VOuts.filter
          (fun v => v.TxID == t.TxID)).map (fun v => v.Value)).sum) := by
  decide

/-- C18, amended: in the result of `ParseBlock` the transactions are the items of the `tx` array
in order, `VInCount` and `VOutCount` are the lengths of the item's `vin` and `vout` arrays,
`TxCount` is the number of transactions, and the flat input and output sequences have the
lengths of the sums of `VInCount` and `VOutCount`.  The flat outputs are the outputs of the
transactions one after the other, and each transaction's `VOutValue` is the `uint64` sum (the
sum modulo 2^64) of the values of its own outputs; when the transaction ids of the document are
distinct that is the `uint64` sum of the values of the outputs tagged with its transaction id,
and the sum itself when it is below 2^64. -/
theorem ParseBlock_totals (units : JsonNumber → Nat) (doc : BlockDocument) :
    (ParseBlock units doc).1.Transactions.map (fun t => (t.VInCount, t.VOutCount)) =
      (jsonArray doc.tx).map (fun t => ((jsonArray t.vin).length, (jsonArray t.vout).length)) ∧
    (ParseBlock units doc).1.Block.TxCount = ((jsonArray doc.tx).length : Nat) ∧
    (ParseBlock units doc).1.Transactions.length = (jsonArray doc.tx).length ∧
    (ParseBlock units doc).1.VIns.length =
      ((ParseBlock units doc).1.Transactions.map (fun t => t.VInCount)).sum ∧
    (ParseBlock units doc).1.VOuts.length =
      ((ParseBlock units doc).1.Transactions.map (fun t => t.VOutCount)).sum ∧
    (∃ segments : List (List VOut),
      (ParseBlock units doc).1.VOuts = segments.flatten ∧
      (ParseBlock units doc).1.Transactions.map (fun t => t.VOutValue) =
        segments.map (fun seg => uint64 (seg.map (fun v => v.Value)).sum) ∧
      (ParseBlock units doc).1.Transactions.map (fun t => t.VOutCount) =
        segments.map (fun seg => seg.length)) ∧
    (((jsonArray doc.tx).map (fun t => jsonString t.txid)).Nodup →
      ∀ t ∈ (ParseBlock units doc).1.Transactions,
        t.VOutValue = uint64 (((ParseBlock units doc).1.VOuts.filter
          (fun v => v.TxID == t.TxID)).map (fun v => v.Value)).sum ∧
        ((((ParseBlock units doc).1.VOuts.filter
            (fun v => v.TxID == t.TxID)).map (fun v => v.Value)).sum < 18446744073709551616 →
          t.VOutValue = (((ParseBlock units doc).1.VOuts.filter
            (fun v => v.TxID == t.TxID)).map (fun v => v.Value)).sum)) := by
  have hcount : ∀ p : Nat × TxItem,
      ((parseTx units (parseHeader doc) p.1 p.2).1.VInCount,
        (parseTx units (parseHeader doc) p.1 p.2).1.VOutCount) =
      ((jsonArray p.2.vin).length, (jsonArray p.2.vout).length) := fun _ => rfl
  have hlenIn : ∀ p : Nat × TxItem, (parseTx units (parseHeader doc) p.1 p.2).2.1.length =
      (parseTx units (parseHeader doc) p.1 p.2).1.VInCount := by
    intro p
    rw [parseTx_vins, List.length_map, List.enum_length]
    rfl
  have hlenOut : ∀ p : Nat × TxItem, (parseTx units (parseHeader doc) p.1 p.2).2.2.length =
      (parseTx units (parseHeader doc) p.1 p.2).1.VOutCount := by
    intro p
    rw [parseTx_vouts, List.length_map, List.enum_length]
    rfl
  refine ⟨?_, ?_, ?_, ?_, ?_, ?_, ?_⟩
  · rw [ParseBlock_Transactions, List.map_map]
    exact enum_map_eq _ _ _ (fun q => hcount q)
  · rw [ParseBlock_Block]
  · rw [ParseBlock_Transactions, List.length_map, List.enum_length]
  · rw [ParseBlock_VIns, ParseBlock_Transactions, List.length_flatMap, List.map_map]
    congr 1
    apply List.map_congr_left
    intro p _
    exact hlenIn p
  · rw [ParseBlock_VOuts, ParseBlock_Transactions, List.length_flatMap, List.map_map]
    congr 1
    apply List.map_congr_left
    intro p _
    exact hlenOut p
  · refine ⟨(jsonArray doc.tx).enum.map
      (fun p => (parseTx units (parseHeader doc) p.1 p.2).2.2), ?_, ?_, ?_⟩
    · rw [ParseBlock_VOuts, List.flatMap_def]
    · rw [ParseBlock_Transactions, List.map_map, List.map_map]
      apply List.map_congr_left
      intro p _
      exact parseTx_VOutValue units _ p.1 p.2
    · rw [ParseBlock_Transactions, List.map_map, List.map_map]
      apply List.map_congr_left
      intro p _
      exact (hlenOut p).symm
  · intro hnd t ht
    rw [ParseBlock_Transactions] at ht
    rcases List.mem_map.1 ht with ⟨p, hp, rfl⟩
    have hnd' : ((jsonArray doc.tx).enum.map (fun p => jsonString p.2.txid)).Nodup := by
      rw [enum_map_eq _ _ (fun t : TxItem => jsonString t.txid) (fun _ => rfl)]
      exact hnd
    have htag : (((ParseBlock units doc).1.VOuts.filter (fun v => v.TxID ==
        (parseTx units (parseHeader doc) p.1 p.2).1.TxID)).map (fun v => v.Value)).sum =
        ((parseTx units (parseHeader doc) p.1 p.2).2.2.map (fun v => v.Value)).sum := by
      rw [ParseBlock_VOuts, parseTx_TxID, sum_filter_flatMap_by_tag,
        sum_filter_of_nodup_tag units _ _ hnd' p hp]
    rw [htag, parseTx_VOutValue]
    refine ⟨rfl, fun hlt => ?_⟩
    unfold uint64
    exact Nat.mod_eq_of_lt hlt

/-- Witness of `ParseBlock_totals` on `sampleDocument`, whose transaction ids are distinct. -/
theorem ParseBlock_totals_witness :
    ((jsonArray sampleDocument.tx).map (fun t => jsonString t.txid)).Nodup ∧
    (ParseBlock floorUnits sampleDocument).1.Transactions.map (fun t => t.VOutValue) =
      [1250000000, 300000000] ∧
    ∀ t ∈ (ParseBlock floorUnits sampleDocument).1.Transactions,
      t.VOutValue = uint64 (((ParseBlock floorUnits sampleDocument).1.VOuts.filter
        (fun v => v.TxID == t.TxID)).map (fun v => v.Value)).sum ∧
      ((((ParseBlock floorUnits sampleDocument).1.VOuts.filter
          (fun v => v.TxID == t.TxID)).map (fun v => v.Value)).sum < 18446744073709551616 →
        t.VOutValue = (((ParseBlock floorUnits sampleDocument).1.VOuts.filter
          (fun v => v.TxID == t.TxID)).map (fun v => v.Value)).sum) :=
  ⟨by decide, by decide,
    (ParseBlock_totals floorUnits sampleDocument).2.2.2.2.2.2 (by decide)⟩


theorem ParseBlock_Decoded (units : JsonNumber → Nat) (doc : BlockDocument) :
    Decoded (ParseBlock units doc).1 := by
  constructor
  · intro v hv
    rw [ParseBlock_VIns] at hv
    rcases List.mem_flatMap.1 hv with ⟨p, _, hp⟩
    rw [parseTx_vins] at hp
    rcases List.mem_map.1 hp with ⟨q, _, rfl⟩
    exact ⟨rfl, rfl⟩
  · intro t ht
    rw [ParseBlock_Transactions] at ht
    rcases List.mem_map.1 ht with ⟨p, _, rfl⟩
    exact ⟨rfl, rfl⟩

/-! ## Batching in `updateTransactionVersion` -/

theorem versionStep_inv (st : VersionLoop) (id : String) (v : Int) (h : VersionInv st) :
    VersionInv (versionStep st id v) ∧
    (versionStatements (versionStep st id v)).flatMap (fun u => u.whens) =
      (versionStatements st).flatMap (fun u => u.whens) ++ [(id, v)] := by
  obtain ⟨hlt, hpending, hexec⟩ := h
  unfold versionStep
  by_cases h0 : st.count = 0
  · simp only [h0, if_true]
    refine ⟨⟨by simp, fun _ => ⟨rfl, rfl⟩, hexec⟩, ?_⟩
    simp [versionStatements, h0, List.flatMap_append]
  · obtain ⟨hlen, hins⟩ := hpending h0
    simp only [h0, if_false]
    by_cases hfull : st.count + 1 ≥ 1000
    · simp only [hfull, if_true]
      refine ⟨⟨by simp, fun hc => absurd rfl hc, ?_⟩, ?_⟩
      · intro u hu
        rcases List.mem_append.1 hu with hu | hu
        · exact hexec u hu
        · rw [List.mem_singleton] at hu
          subst hu
          refine ⟨?_, by simp, by simp [hins]⟩
          simp only [List.length_append, List.length_singleton, hlen]
          omega
      · simp [versionStatements, h0, List.flatMap_append]
    · simp only [hfull, if_false]
      refine ⟨⟨by simp only; omega, fun _ => ⟨by simp [hlen], by simp [hins]⟩, hexec⟩, ?_⟩
      simp [versionStatements, h0, List.flatMap_append]

theorem versionLoop_inv (txs : List Transaction) (vs : List Int) (k : Nat) (st : VersionLoop)
    (hk : k + vs.length ≤ txs.length) (h : VersionInv st) :
    ∃ st', versionLoop txs k vs st = some st' ∧ VersionInv st' ∧
      (versionStatements st').flatMap (fun u => u.whens) =
        (versionStatements st).flatMap (fun u => u.whens) ++
          (((txs.drop k).take vs.length).map (fun t => t.TxID)).zip vs := by
  induction vs generalizing k st with
  | nil => exact ⟨st, rfl, h, by simp⟩
  | cons v vs ih =>
    have hlt : k < txs.length := by
      simp only [List.length_cons] at hk
      omega
    have hget : txs[k]? = some txs[k] := List.getElem?_eq_getElem hlt
    have hstep := versionStep_inv st txs[k].TxID v h
    obtain ⟨st', hrun, hinv, hall⟩ := ih (k + 1) (versionStep st txs[k].TxID v)
      (by simp only [List.length_cons] at hk; omega) hstep.1
    refine ⟨st', ?_, hinv, ?_⟩
    · simp only [versionLoop, hget]
      exact hrun
    · have hdrop : txs.drop k = txs[k] :: txs.drop (k + 1) := List.drop_eq_getElem_cons hlt
      rw [hall, hstep.2, hdrop]
      simp only [List.length_cons, List.take_succ_cons, List.map_cons, List.zip_cons_cons,
        List.append_assoc, List.singleton_append]

/-- C20: for a version list no longer than the decoded transactions, `updateTransactionVersion`
returns without error after executing statements whose `WHEN` clauses, read in order over all
statements, pair the id of the transaction at each index below the list's length with the
version at that index, each index once, and whose `IN` lists, read in order, hold those ids;
every statement has at least 1 and at most 1000 clauses and lists in `IN (...)` exactly the ids
of its own clauses; no statement is executed for the empty list. -/
theorem updateTransactionVersion_batches (txVersion : List Int) (data : BSVBlockData)
    (hn : txVersion.length ≤ data.Transactions.length) :
    ∃ stmts : List VersionUpdate,
      updateTransactionVersion txVersion data = some (stmts, none) ∧
      stmts.flatMap (fun u => u.whens) =
        ((data.Transactions.take txVersion.length).map (fun t => t.TxID)).zip txVersion ∧
      stmts.flatMap (fun u => u.ins) =
        (data.Transactions.take txVersion.length).map (fun t => t.TxID) ∧
      (∀ u ∈ stmts, u.whens.length ≤ 1000 ∧ u.whens ≠ [] ∧ u.ins = u.whens.map Prod.fst) ∧
      (txVersion = [] → stmts = []) := by
  have hinit : VersionInv {} := ⟨by decide, fun h => absurd rfl h, by simp⟩
  obtain ⟨st, hrun, hinv, hall⟩ := versionLoop_inv data.Transactions txVersion 0 {}
    (by omega) hinit
  have hres : updateTransactionVersion txVersion data = some (versionStatements st, none) := by
    unfold updateTransactionVersion versionStatements
    rw [hrun]
    by_cases h0 : st.count = 0 <;> simp [h0]
  have hwhens : (versionStatements st).flatMap (fun u => u.whens) =
      ((data.Transactions.take txVersion.length).map (fun t => t.TxID)).zip txVersion := by
    rw [hall]
    simp [versionStatements]
  have hprop : ∀ u ∈ versionStatements st,
      u.whens.length ≤ 1000 ∧ u.whens ≠ [] ∧ u.ins = u.whens.map Prod.fst := by
    intro u hu
    unfold versionStatements at hu
    by_cases h0 : st.count = 0
    · simp only [h0, ne_eq, not_true_eq_false, if_false] at hu
      exact hinv.2.2 u hu
    · simp only [h0, ne_eq, not_false_eq_true, if_true] at hu
      rcases List.mem_append.1 hu with hu | hu
      · exact hinv.2.2 u hu
      · rw [List.mem_singleton] at hu
        subst hu
        obtain ⟨hlen, hins⟩ := hinv.2.1 h0
        refine ⟨?_, ?_, hins⟩
        · simp only [hlen]
          exact Nat.le_of_lt hinv.1
        · intro hnil
          simp only at hnil
          rw [hnil] at hlen
          exact h0 hlen.symm
  have hins : (versionStatements st).flatMap (fun u => u.ins) =
      ((versionStatements st).flatMap (fun u => u.whens)).map Prod.fst := by
    rw [List.map_flatMap]
    have : ∀ l : List VersionUpdate,
        (∀ u ∈ l, u.ins = u.whens.map Prod.fst) →
        l.flatMap (fun u => u.ins) = l.flatMap (fun u => u.whens.map Prod.fst) := by
      intro l hl
      induction l with
      | nil => rfl
      | cons u l ih =>
        rw [List.flatMap_cons, List.flatMap_cons, hl u (List.mem_cons_self u l),
          ih (fun x hx => hl x (List.mem_cons_of_mem u hx))]
    exact this _ (fun u hu => (hprop u hu).2.2)
  refine ⟨versionStatements st, hres, hwhens, ?_, hprop, ?_⟩
  · rw [hins, hwhens]
    apply List.map_fst_zip
    simp only [List.length_map, List.length_take]
    omega
  · intro hnil
    subst hnil
    have : versionLoop data.Transactions 0 [] {} = some {} := rfl
    rw [this] at hrun
    cases hrun
    rfl

/-- Witness of `updateTransactionVersion_batches` on the two transactions of `feeBlock`. -/
theorem updateTransactionVersion_batches_witness :
    updateTransactionVersion [2, 1] feeBlock =
      some ([{ whens := [("t1", 2), ("t2", 1)], ins := ["t1", "t2"] }], none) ∧
    ∃ stmts : List VersionUpdate,
      updateTransactionVersion [2, 1] feeBlock = some (stmts, none) ∧
      stmts.flatMap (fun u => u.whens) = [("t1", 2), ("t2", 1)] :=
  have h := updateTransactionVersion_batches [2, 1] feeBlock (by decide)
  ⟨by decide, h.elim fun stmts hs => ⟨stmts, hs.1, hs.2.1.trans (by decide)⟩⟩

/-! ## Further properties -/

/-- Apply then revert of the miner counts: for every address other than the empty one,
`revertCoinbaseAddressCount` after `updateCoinbaseAddressCount` of the same height leaves the
address with the pool name and coinbase count it had (a record created by the apply remains,
with count 0). -/
theorem revertCoinbaseAddressCount_after_update (height : Int) (s : Store) (a : String)
    (ha : a ≠ "") :
    (revertCoinbaseAddressCount height (updateCoinbaseAddressCount height s).1).2 = none ∧
    coinbaseTimes (revertCoinbaseAddressCount height
      (updateCoinbaseAddressCount height s).1).1.mining a = coinbaseTimes s.mining a ∧
    poolName (revertCoinbaseAddressCount height
      (updateCoinbaseAddressCount height s).1).1.mining a = poolName s.mining a := by
  have h : minerOf (revertCoinbaseAddressCount height
      (updateCoinbaseAddressCount height s).1).1.mining a = minerOf s.mining a :=
    minerOf_count_uncount (coinbaseAddresses s height) s.mining a ha
  refine ⟨rfl, ?_, ?_⟩
  · unfold coinbaseTimes
    rw [h]
  · unfold poolName
    rw [h]

/-- Witness of `revertCoinbaseAddressCount_after_update` on `emptyMinerStore` and "A". -/
theorem revertCoinbaseAddressCount_after_update_witness :
    coinbaseTimes (revertCoinbaseAddressCount 2
      (updateCoinbaseAddressCount 2 emptyMinerStore).1).1.mining "A" = 1 :=
  ((revertCoinbaseAddressCount_after_update 2 emptyMinerStore "A" (by decide)).2.1).trans
    (by decide)

/-- The result of `ParseBlock` is a decoded block in the sense of `Decoded`: the origin address
and origin value of every input and the input value and fee of every transaction are left at
their zero values. -/
theorem ParseBlock_leaves_resolution_fields (units : JsonNumber → Nat) (doc : BlockDocument) :
    (ParseBlock units doc).2 = none ∧ Decoded (ParseBlock units doc).1 :=
  ⟨rfl, ParseBlock_Decoded units doc⟩

end Bsv
